import Mathlib

/-! # Game state engine: road-constrained movement

A shallow embedding of the game model (`model.h`, `model.cpp`: roads, dogs, sessions,
the tick, the catalog of maps) and of the application facade (`application.cpp`: the
player registry with its tokens, the join and the move command).

Conventions of the embedding.

* `double` values are exact rationals (`ℚ`): the statements about the tick are about
  the arithmetic the code writes down, evaluated without rounding, and NaN and the
  infinities are not values of the model.  The literal `0.4` is `2/5` and
  `1e-9` is `1/10^9`.  Where the outcome depends on rounding (which road wins at a
  junction), the same code is read a second time in binary64 arithmetic, in the
  namespace `model.binary64`.
* `Coord`/`Dimension` (`int`) values are integers; the one `int` operation of the code
  that can overflow, the subtraction in the random spawn, wraps (`toInt32`).
* A `GameSession*` is an index into `sessions_`.  The vector reallocates when it grows,
  which leaves the `GameSession*` of earlier players dangling: `Player.sessionValid`
  says when the pointer of a player can still be read, and a run of operations has no
  result when `MovePlayer` reads a dangling one.
* A `Dog*` is an index into the arena of dogs owned by `Players` (`dogs_`);
  the arena is passed explicitly to every operation that dereferences a dog.
  `JoinGame` hands every session a fresh dog, so a session never holds the same
  pointer twice: statements about a dog of a session assume `dogs_.Nodup`.
* `std::chrono::milliseconds` is its signed tick count.
* A `std::unordered_map` from strings to indices is an association list with at most
  one entry for a key.
* The values that random generators return are arguments of the operation that
  draws them (`gen1`, `gen2` for the two token generators, `road_idx` and `t` for the
  spawn).
* An operation that can leave through an exception returns an `Option` whose `none`
  is that exit.
-/

namespace model

/-- The struct `PointD` of `model.h`. -/
structure PointD where
  x : ℚ
  y : ℚ
deriving DecidableEq, Repr

/-- The struct `Vec2D` of `model.h`. -/
structure Vec2D where
  u : ℚ
  v : ℚ
deriving DecidableEq, Repr

/-- The class `Dog` of `model.h`: its five private fields. -/
structure Dog where
  id_ : Nat
  name_ : String
  pos_ : PointD
  speed_ : Vec2D
  dir_ : String
deriving DecidableEq, Repr

/-- The constructor `Dog(std::string name)` with the default member initialisers. -/
def Dog.ofName (name : String) : Dog :=
  { id_ := 0, name_ := name, pos_ := { x := 0, y := 0 }, speed_ := { u := 0, v := 0 }, dir_ := "U" }

/-- The struct `Point` of `model.h` (integer map coordinates). -/
structure Point where
  x : Int
  y : Int
deriving DecidableEq, Repr

/-- The class `Road` of `model.h`: a start and an end point. -/
structure Road where
  start_ : Point
  end_ : Point
deriving DecidableEq, Repr

/-- The constructor `Road(HORIZONTAL, start, end_x)`. -/
def Road.HORIZONTAL (start : Point) (end_x : Int) : Road :=
  { start_ := start, end_ := { x := end_x, y := start.y } }

/-- The constructor `Road(VERTICAL, start, end_y)`. -/
def Road.VERTICAL (start : Point) (end_y : Int) : Road :=
  { start_ := start, end_ := { x := start.x, y := end_y } }

/-- The function `std::min` on doubles: `(b < a) ? b : a`. -/
def stdMin (a b : ℚ) : ℚ := if b < a then b else a

/-- The function `std::max` on doubles: `(a < b) ? b : a`. -/
def stdMax (a b : ℚ) : ℚ := if a < b then b else a

/-- The function `std::clamp(v, lo, hi)`: `(v < lo) ? lo : (hi < v) ? hi : v`. -/
def stdClamp (v lo hi : ℚ) : ℚ := if v < lo then lo else if hi < v then hi else v

/-- The constant `ROAD_HALF_WIDTH = 0.4` of `GetRoadBorders`. -/
def ROAD_HALF_WIDTH : ℚ := 2 / 5

/-- The function `GetRoadBorders` of `model.cpp`: the two corners of the walkable band. -/
def GetRoadBorders (road : Road) : PointD × PointD :=
  let x_min := stdMin (road.start_.x : ℚ) (road.end_.x : ℚ)
  let x_max := stdMax (road.start_.x : ℚ) (road.end_.x : ℚ)
  let y_min := stdMin (road.start_.y : ℚ) (road.end_.y : ℚ)
  let y_max := stdMax (road.start_.y : ℚ) (road.end_.y : ℚ)
  ({ x := x_min - ROAD_HALF_WIDTH, y := y_min - ROAD_HALF_WIDTH },
   { x := x_max + ROAD_HALF_WIDTH, y := y_max + ROAD_HALF_WIDTH })

/-- The function `IsOnRoad` of `model.cpp`: inclusive containment in the band. -/
def IsOnRoad (pos : PointD) (borders : PointD × PointD) : Bool :=
  decide (pos.x ≥ borders.1.x) && decide (pos.x ≤ borders.2.x) &&
  decide (pos.y ≥ borders.1.y) && decide (pos.y ≤ borders.2.y)

/-- The struct `Size` of `model.h`. -/
structure Size where
  width : Int
  height : Int
deriving DecidableEq, Repr

/-- The struct `Rectangle` of `model.h`. -/
structure Rectangle where
  position : Point
  size : Size
deriving DecidableEq, Repr

/-- The struct `Offset` of `model.h`. -/
structure Offset where
  dx : Int
  dy : Int
deriving DecidableEq, Repr

/-- The class `Building` of `model.h`. -/
structure Building where
  bounds_ : Rectangle
deriving DecidableEq, Repr

/-- The class `Office` of `model.h`. -/
structure Office where
  id_ : String
  position_ : Point
  offset_ : Offset
deriving DecidableEq, Repr

/-- The class `Map` of `model.h`.  The hash table `warehouse_id_to_index_` is an
association list from office id to index. -/
structure Map where
  id_ : String
  name_ : String
  roads_ : List Road
  buildings_ : List Building
  dog_speed_ : Option ℚ
  warehouse_id_to_index_ : List (String × Nat)
  offices_ : List Office
deriving DecidableEq, Repr

/-- The method `Map::GetDogSpeed`: `dog_speed_.value_or(0.0)`. -/
def Map.GetDogSpeed (m : Map) : ℚ := m.dog_speed_.getD 0

/-- The class `GameSession` of `model.h`.  `map_` is the map the session points to
(maps are never mutated once the session exists), `dogs_` holds the `Dog*` of the
session as indices into the arena of dogs.  The random generator is not state of the
model: its outputs are arguments of `AddDog`. -/
structure GameSession where
  map_ : Map
  dogs_ : List Nat
  randomize_spawn_points_ : Bool
deriving DecidableEq, Repr

/-- The class `Game` of `model.h`.  Both hash tables are association lists from
map id to index. -/
structure Game where
  default_dog_speed_ : ℚ
  randomize_spawn_points_ : Bool
  maps_ : List Map
  map_id_to_index_ : List (String × Nat)
  sessions_ : List GameSession
  session_id_to_index_ : List (String × Nat)
deriving DecidableEq, Repr

/-- The method `Game::GetDefaultDogSpeed`. -/
def Game.GetDefaultDogSpeed (g : Game) : ℚ := g.default_dog_speed_

/-- The result of an `int` operation whose exact value is `v`: the value modulo `2^32` in
the range of a 32-bit `int`.  (Signed overflow is undefined in C++; the machine
instruction wraps.) -/
def toInt32 (v : Int) : Int := (v + 2 ^ 31) % 2 ^ 32 - 2 ^ 31

/-- The method `GameSession::AddDog` of `model.cpp`.  `ptr` is the `Dog*` and `dog`
the object it points to; `road_idx` and `t` are the values drawn from `generator_`
(read only in the random mode).  The differences `road.GetEnd().x - road.GetStart().x`
and `road.GetEnd().y - road.GetStart().y` are `int` subtractions.  `none` is the
`std::out_of_range` of `roads.at`. -/
def GameSession.AddDog (s : GameSession) (ptr : Nat) (dog : Dog) (road_idx : Nat) (t : ℚ) :
    Option (GameSession × Dog) :=
  let roads := s.map_.roads_
  let positioned : Option Dog :=
    match roads with
    | [] => some { dog with pos_ := { x := 0, y := 0 } }
    | first_road :: _ =>
      if s.randomize_spawn_points_ then
        match roads[road_idx]? with
        | some road =>
          some { dog with pos_ :=
            { x := (road.start_.x : ℚ) + t * ((toInt32 (road.end_.x - road.start_.x) : Int) : ℚ),
              y := (road.start_.y : ℚ) + t * ((toInt32 (road.end_.y - road.start_.y) : Int) : ℚ) } }
        | none => none
      else
        some { dog with pos_ := { x := (first_road.start_.x : ℚ), y := (first_road.start_.y : ℚ) } }
  match positioned with
  | some d =>
    some ({ s with dogs_ := s.dogs_ ++ [ptr] },
          { d with speed_ := { u := 0, v := 0 }, dir_ := "U" })
  | none => none

/-- The two clamps `std::clamp(end_pos_estimated.x, ...)`, `std::clamp(end_pos_estimated.y, ...)`
that `GameSession::Tick` applies to the estimated end position, for one pair of borders. -/
def boundedPos (end_pos_estimated : PointD) (borders : PointD × PointD) : PointD :=
  { x := stdClamp end_pos_estimated.x borders.1.x borders.2.x,
    y := stdClamp end_pos_estimated.y borders.1.y borders.2.y }

/-- The expression `std::pow(bounded_pos.x - start_pos.x, 2) + std::pow(bounded_pos.y -
start_pos.y, 2)` in exact arithmetic: the squared Euclidean distance.  (`binary64.distSq`
is the same expression with every operation rounded.) -/
def distSq (bounded_pos start_pos : PointD) : ℚ :=
  (bounded_pos.x - start_pos.x) ^ 2 + (bounded_pos.y - start_pos.y) ^ 2

/-- One iteration of the loop over `current_roads` in the junction branch of
`GameSession::Tick`, in exact arithmetic; the accumulator is `(final_pos, max_dist_sq)`.
(`binary64.farthestStep` compares the rounded values.) -/
def farthestStep (start_pos end_pos_estimated : PointD) (acc : PointD × ℚ) (road : Road) :
    PointD × ℚ :=
  let bounded_pos := boundedPos end_pos_estimated (GetRoadBorders road)
  let dist_sq := distSq bounded_pos start_pos
  if dist_sq > acc.2 then (bounded_pos, dist_sq) else acc

/-- The lambda `is_close` of `GameSession::Tick`: `std::abs(a - b) < 1e-9`. -/
def is_close (a b : ℚ) : Bool := decide (|a - b| < 1 / 10 ^ 9)

/-- The lambda `points_are_close` of `GameSession::Tick`. -/
def points_are_close (p1 p2 : PointD) : Bool := is_close p1.x p2.x && is_close p1.y p2.y

/-- The vector `current_roads` of `GameSession::Tick`: the roads of the map whose band
contains the start position, in the order of the map. -/
def currentRoads (roads : List Road) (start_pos : PointD) : List Road :=
  roads.filter (fun road => IsOnRoad start_pos (GetRoadBorders road))

/-- The value `end_pos_estimated` of `GameSession::Tick`. -/
def endPosEstimated (dog : Dog) (delta_s : ℚ) : PointD :=
  { x := dog.pos_.x + dog.speed_.u * delta_s, y := dog.pos_.y + dog.speed_.v * delta_s }

/-- The value `final_pos` of `GameSession::Tick` for a non-empty `current_roads`. -/
def finalPos (current_roads : List Road) (start_pos end_pos_estimated : PointD) : PointD :=
  match current_roads with
  | [road] => boundedPos end_pos_estimated (GetRoadBorders road)
  | _ => (current_roads.foldl (farthestStep start_pos end_pos_estimated) (start_pos, -1)).1

/-- The body of the loop `for (auto& dog : dogs_)` of `GameSession::Tick`, as a function of
the dog it is run on. -/
def tickDog (roads : List Road) (delta_s : ℚ) (dog : Dog) : Dog :=
  if dog.speed_.u = 0 ∧ dog.speed_.v = 0 then dog
  else
    let start_pos := dog.pos_
    let end_pos_estimated := endPosEstimated dog delta_s
    let current_roads := currentRoads roads start_pos
    if current_roads.isEmpty then { dog with speed_ := { u := 0, v := 0 } }
    else
      let final_pos := finalPos current_roads start_pos end_pos_estimated
      if !points_are_close final_pos end_pos_estimated then
        { dog with pos_ := final_pos, speed_ := { u := 0, v := 0 } }
      else { dog with pos_ := final_pos }

/-- Running `f` on the dog a `Dog*` points to; a pointer outside the arena is skipped
(the sessions only ever hold pointers to dogs of the arena). -/
def modifyDog (dogs : List Dog) (ptr : Nat) (f : Dog → Dog) : List Dog :=
  match dogs[ptr]? with
  | some d => dogs.set ptr (f d)
  | none => dogs

/-- The method `GameSession::Tick` of `model.cpp`; `delta` is the millisecond count and
`dogs` the arena the `Dog*` of the session point into. -/
def GameSession.Tick (s : GameSession) (delta : Int) (dogs : List Dog) : List Dog :=
  let delta_s : ℚ := (delta : ℚ) / 1000
  s.dogs_.foldl (fun ds ptr => modifyDog ds ptr (tickDog s.map_.roads_ delta_s)) dogs

/-- The method `Game::Tick` of `model.cpp`. -/
def Game.Tick (g : Game) (delta : Int) (dogs : List Dog) : List Dog :=
  g.sessions_.foldl (fun ds session => session.Tick delta ds) dogs

/-! ### The catalog: hash tables, maps and sessions

A call that can leave through an exception (or `std::terminate`) returns an `Option`
whose `none` is that abnormal exit; a `std::optional` or nullable pointer result is a
second `Option` inside. -/

/-- The method `find` of `std::unordered_map`: the value stored under a key, if any. -/
def tableFind (table : List (String × Nat)) (key : String) : Option Nat :=
  table.lookup key

/-- The method `emplace` of `std::unordered_map`: the table afterwards and the flag
`inserted`; a table that already holds the key is left as it is. -/
def tableEmplace (table : List (String × Nat)) (key : String) (value : Nat) :
    List (String × Nat) × Bool :=
  match tableFind table key with
  | some _ => (table, false)
  | none => ((key, value) :: table, true)

/-- The assignment `table[key] = value` of `std::unordered_map`: the entry of the key is
created or overwritten. -/
def tableAssign (table : List (String × Nat)) (key : String) (value : Nat) :
    List (String × Nat) :=
  (key, value) :: table.filter (fun entry => entry.1 != key)

/-- A default-constructed `Game`: default speed `1.0`, no maps, no sessions. -/
def Game.fresh : Game :=
  { default_dog_speed_ := 1, randomize_spawn_points_ := false, maps_ := [],
    map_id_to_index_ := [], sessions_ := [], session_id_to_index_ := [] }

/-- The method `Game::SetDefaultDogSpeed`. -/
def Game.SetDefaultDogSpeed (g : Game) (speed : ℚ) : Game :=
  { g with default_dog_speed_ := speed }

/-- The method `Game::SetRandomizeSpawn`. -/
def Game.SetRandomizeSpawn (g : Game) (randomize : Bool) : Game :=
  { g with randomize_spawn_points_ := randomize }

/-- The method `Game::GetMaps`. -/
def Game.GetMaps (g : Game) : List Map := g.maps_

/-- The method `Map::SetDogSpeed`. -/
def Map.SetDogSpeed (m : Map) (speed : ℚ) : Map :=
  { m with dog_speed_ := some speed }

/-- The method `Game::AddMap` of `model.cpp`.  The flag is `false` when the call leaves
through `std::invalid_argument`; the game is the catalog after the call in both cases.
(`emplace_back` is taken not to fail, so the `catch` branch never runs.) -/
def Game.AddMap (g : Game) (map : Map) : Bool × Game :=
  let index := g.maps_.length
  match tableEmplace g.map_id_to_index_ map.id_ index with
  | (table, false) => (false, { g with map_id_to_index_ := table })
  | (table, true) => (true, { g with map_id_to_index_ := table, maps_ := g.maps_ ++ [map] })

/-- The method `Game::FindMap` of `model.cpp`; the inner `none` is `nullptr`, the outer
one the failure of `maps_.at`. -/
def Game.FindMap (g : Game) (id : String) : Option (Option Map) :=
  match tableFind g.map_id_to_index_ id with
  | some index =>
    match g.maps_[index]? with
    | some map => some (some map)
    | none => none
  | none => some none

/-- The method `Game::FindSession` of `model.cpp`: the `GameSession*` as an index into
`sessions_`; the inner `none` is `nullptr`, the outer one the failure of `sessions_.at`. -/
def Game.FindSession (g : Game) (id : String) : Option (Option Nat) :=
  match tableFind g.session_id_to_index_ id with
  | some index => if index < g.sessions_.length then some (some index) else none
  | none => some none

/-- The method `Game::AddSession` of `model.cpp`: the new `GameSession*` (or `nullptr`)
and the game afterwards.  The pointer is the index of the new session; the
`emplace_back` may move the sessions to new storage, after which the pointers returned
by earlier calls dangle although their indices still name the same sessions
(`Player.sessionValid` of the application keeps track of that). -/
def Game.AddSession (g : Game) (id : String) : Option (Option Nat × Game) :=
  match g.FindMap id with
  | none => none
  | some none => some (none, g)
  | some (some map) =>
    let index := g.sessions_.length
    some (some index,
      { g with
        sessions_ := g.sessions_ ++
          [{ map_ := map, dogs_ := [], randomize_spawn_points_ := g.randomize_spawn_points_ }],
        session_id_to_index_ := tableAssign g.session_id_to_index_ id index })

/-- The constructor `Map(Id id, std::string name)` of `model.h`: no road, building or
office, no dog speed. -/
def Map.ofId (id name : String) : Map :=
  { id_ := id, name_ := name, roads_ := [], buildings_ := [], dog_speed_ := none,
    warehouse_id_to_index_ := [], offices_ := [] }

/-- The method `Map::AddRoad`. -/
def Map.AddRoad (m : Map) (road : Road) : Map :=
  { m with roads_ := m.roads_ ++ [road] }

/-- The method `Map::AddBuilding`. -/
def Map.AddBuilding (m : Map) (building : Building) : Map :=
  { m with buildings_ := m.buildings_ ++ [building] }

/-- The method `contains` of `std::unordered_map`. -/
def tableContains (table : List (String × Nat)) (key : String) : Bool :=
  (tableFind table key).isSome

/-- The method `Map::AddOffice` of `model.cpp`.  The flag is `false` when the call leaves
through `std::invalid_argument("Duplicate warehouse")`; the map is the object after the
call in both cases.  (`emplace` is taken not to fail, so the `catch` branch never runs.) -/
def Map.AddOffice (m : Map) (office : Office) : Bool × Map :=
  if tableContains m.warehouse_id_to_index_ office.id_ then (false, m)
  else
    let index := m.offices_.length
    (true, { m with
      offices_ := m.offices_ ++ [office],
      warehouse_id_to_index_ := (tableEmplace m.warehouse_id_to_index_ office.id_ index).1 })

/-- The method `Road::IsHorizontal`. -/
def Road.IsHorizontal (r : Road) : Bool := r.start_.y == r.end_.y

/-- The method `Road::IsVertical`. -/
def Road.IsVertical (r : Road) : Bool := r.start_.x == r.end_.x

/-! ### The tick in binary64 arithmetic

The definitions above read `double` as an exact rational.  The ones of this section are
the same code with every arithmetic operation on `double` rounded as IEEE 754 binary64
rounds it (to nearest, ties to even; one rounding per operation, no fused multiply-add).
A `double` is the rational it stands for; infinities, NaN and subnormal numbers are
outside the model (the exponent range is not bounded).  Comparisons, `std::min`,
`std::max`, `std::clamp` and `std::abs` are exact, and so is the conversion of an `int`
to `double`. -/

namespace binary64

/-- Rounding to the nearest integer, a tie to the even one. -/
def roundHalfEven (x : ℚ) : Int :=
  if x - ⌊x⌋ < 1 / 2 then ⌊x⌋
  else if 1 / 2 < x - ⌊x⌋ then ⌊x⌋ + 1
  else if ⌊x⌋ % 2 = 0 then ⌊x⌋ else ⌊x⌋ + 1

/-- The distance between neighbouring doubles in the binade of `x`: `2^(e - 52)` for
`2^e ≤ |x| < 2^(e + 1)`. -/
def ulp (x : ℚ) : ℚ := 2 ^ (Int.log 2 |x| - 52)

/-- The double that an operation with the exact result `x` returns: the multiple of
`ulp x` nearest to `x`, a tie going to the even multiple. -/
def fl (x : ℚ) : ℚ := if x = 0 then 0 else roundHalfEven (x / ulp x) * ulp x

/-- The constant `ROAD_HALF_WIDTH = 0.4` of `GetRoadBorders`: the double nearest to `2/5`. -/
def ROAD_HALF_WIDTH : ℚ := fl (2 / 5)

/-- The function `GetRoadBorders` of `model.cpp`, the four sums rounded. -/
def GetRoadBorders (road : Road) : PointD × PointD :=
  let x_min := stdMin (road.start_.x : ℚ) (road.end_.x : ℚ)
  let x_max := stdMax (road.start_.x : ℚ) (road.end_.x : ℚ)
  let y_min := stdMin (road.start_.y : ℚ) (road.end_.y : ℚ)
  let y_max := stdMax (road.start_.y : ℚ) (road.end_.y : ℚ)
  ({ x := fl (x_min - ROAD_HALF_WIDTH), y := fl (y_min - ROAD_HALF_WIDTH) },
   { x := fl (x_max + ROAD_HALF_WIDTH), y := fl (y_max + ROAD_HALF_WIDTH) })

/-- The call `std::pow(v, 2)`: the square, rounded. -/
def pow2 (v : ℚ) : ℚ := fl (v * v)

/-- The expression `std::pow(bounded_pos.x - start_pos.x, 2) + std::pow(bounded_pos.y -
start_pos.y, 2)`: two differences, two squares and a sum, each rounded. -/
def distSq (bounded_pos start_pos : PointD) : ℚ :=
  fl (pow2 (fl (bounded_pos.x - start_pos.x)) + pow2 (fl (bounded_pos.y - start_pos.y)))

/-- One iteration of the loop over `current_roads` in the junction branch of
`GameSession::Tick`; the accumulator is `(final_pos, max_dist_sq)`. -/
def farthestStep (start_pos end_pos_estimated : PointD) (acc : PointD × ℚ) (road : Road) :
    PointD × ℚ :=
  let bounded_pos := boundedPos end_pos_estimated (GetRoadBorders road)
  let dist_sq := distSq bounded_pos start_pos
  if dist_sq > acc.2 then (bounded_pos, dist_sq) else acc

/-- The lambda `is_close` of `GameSession::Tick`: `std::abs(a - b) < 1e-9`, with the
difference rounded and the literal the double nearest to `10^-9`. -/
def is_close (a b : ℚ) : Bool := decide (|fl (a - b)| < fl (1 / 10 ^ 9))

/-- The lambda `points_are_close` of `GameSession::Tick`. -/
def points_are_close (p1 p2 : PointD) : Bool := is_close p1.x p2.x && is_close p1.y p2.y

/-- The vector `current_roads` of `GameSession::Tick`. -/
def currentRoads (roads : List Road) (start_pos : PointD) : List Road :=
  roads.filter (fun road => IsOnRoad start_pos (GetRoadBorders road))

/-- The value `end_pos_estimated` of `GameSession::Tick`: a product and a sum, each
rounded, for either coordinate. -/
def endPosEstimated (dog : Dog) (delta_s : ℚ) : PointD :=
  { x := fl (dog.pos_.x + fl (dog.speed_.u * delta_s)),
    y := fl (dog.pos_.y + fl (dog.speed_.v * delta_s)) }

/-- The value `final_pos` of `GameSession::Tick` for a non-empty `current_roads`. -/
def finalPos (current_roads : List Road) (start_pos end_pos_estimated : PointD) : PointD :=
  match current_roads with
  | [road] => boundedPos end_pos_estimated (GetRoadBorders road)
  | _ => (current_roads.foldl (farthestStep start_pos end_pos_estimated) (start_pos, -1)).1

/-- The body of the loop `for (auto& dog : dogs_)` of `GameSession::Tick`. -/
def tickDog (roads : List Road) (delta_s : ℚ) (dog : Dog) : Dog :=
  if dog.speed_.u = 0 ∧ dog.speed_.v = 0 then dog
  else
    let start_pos := dog.pos_
    let end_pos_estimated := endPosEstimated dog delta_s
    let current_roads := currentRoads roads start_pos
    if current_roads.isEmpty then { dog with speed_ := { u := 0, v := 0 } }
    else
      let final_pos := finalPos current_roads start_pos end_pos_estimated
      if !points_are_close final_pos end_pos_estimated then
        { dog with pos_ := final_pos, speed_ := { u := 0, v := 0 } }
      else { dog with pos_ := final_pos }

/-- The method `GameSession::Tick` of `model.cpp`: `delta_s` is
`static_cast<double>(delta.count()) / 1000.0`, the conversion and the quotient rounded. -/
def Tick (s : GameSession) (delta : Int) (dogs : List Dog) : List Dog :=
  let delta_s : ℚ := fl (fl (delta : ℚ) / 1000)
  s.dogs_.foldl (fun ds ptr => modifyDog ds ptr (tickDog s.map_.roads_ delta_s)) dogs

end binary64

end model

namespace app

/-- The class `Player` of `application.h`: `dog_` is a `Dog*` (index into the arena
`Players::dogs_`), `session_` a `GameSession*` (index into `Game::sessions_`). -/
structure Player where
  dog_ : Nat
  session_ : Nat
  token_ : String
deriving DecidableEq, Repr

/-- The class `Players` of `application.h`: the arena of dogs, the players and the
token table (token to index into `players_`).  The two generators are not state of the
model. -/
structure Players where
  dogs_ : List model.Dog
  players_ : List Player
  token_to_player_ : List (String × Nat)
deriving DecidableEq, Repr

/-- The class `Application` of `application.h`, without the strand. -/
structure Application where
  game_ : model.Game
  players_ : Players
deriving DecidableEq, Repr

/-- The local `speed_val` of `Application::MovePlayer`: the speed of the map, or the
default speed of the game when that is `0.0`. -/
def effectiveSpeed (game : model.Game) (map : model.Map) : ℚ :=
  let speed_val := map.GetDogSpeed
  if speed_val = 0 then game.GetDefaultDogSpeed else speed_val

/-- What `Application::MovePlayer` does to the dog of the player, given `speed_val`. -/
def moveDog (speed_val : ℚ) (move_cmd : String) (dog : model.Dog) : model.Dog :=
  let speed : model.Vec2D := { u := 0, v := 0 }
  let direction := dog.dir_
  if move_cmd = "L" then { dog with speed_ := { speed with u := -speed_val }, dir_ := "L" }
  else if move_cmd = "R" then { dog with speed_ := { speed with u := speed_val }, dir_ := "R" }
  else if move_cmd = "U" then { dog with speed_ := { speed with v := -speed_val }, dir_ := "U" }
  else if move_cmd = "D" then { dog with speed_ := { speed with v := speed_val }, dir_ := "D" }
  else { dog with speed_ := speed, dir_ := direction }

/-- The method `Application::MovePlayer` of `application.cpp`.  `none` stands for a
player whose `dog_` or `session_` pointer is dangling. -/
def Application.MovePlayer (a : Application) (player : Player) (move_cmd : String) :
    Option Application :=
  match a.players_.dogs_[player.dog_]?, a.game_.sessions_[player.session_]? with
  | some dog, some session =>
    let speed_val := effectiveSpeed a.game_ session.map_
    some { a with players_ :=
      { a.players_ with dogs_ := a.players_.dogs_.set player.dog_ (moveDog speed_val move_cmd dog) } }
  | _, _ => none

/-- The struct `JoinGameResult` of `application.h`. -/
structure JoinGameResult where
  token : String
  player_id : Nat
deriving DecidableEq, Repr

/-- What `operator<<` writes for an unsigned integer on a stream in `std::hex` mode with
fill character `0` and field width `width`: the base 16 digits of the value (lower case,
no leading zeros), right-aligned and padded on the left up to the width. -/
def streamHex (width : Nat) (value : Nat) : List Char :=
  let digits := Nat.toDigits 16 value
  List.replicate (width - digits.length) '0' ++ digits

/-- The method `Players::GenerateToken` of `application.cpp`; `gen1` and `gen2` are the
values `generator1_()` and `generator2_()` return (64-bit unsigned integers). -/
def Players.GenerateToken (gen1 gen2 : Nat) : String :=
  String.mk (streamHex 16 gen1 ++ streamHex 16 gen2)

/-- A default-constructed `Players`. -/
def Players.fresh : Players :=
  { dogs_ := [], players_ := [], token_to_player_ := [] }

/-- The method `Players::Add` of `application.cpp`: the new `Player*` (an index into
`players_`) and the registry afterwards.  The dog moves into the arena at the index its
pointer stands for. -/
def Players.Add (ps : Players) (dog : model.Dog) (session : Nat) (gen1 gen2 : Nat) :
    Nat × Players :=
  let token := Players.GenerateToken gen1 gen2
  let dog_raw_ptr := ps.dogs_.length
  let dogs := ps.dogs_ ++ [{ dog with id_ := ps.dogs_.length }]
  let player : Player := { dog_ := dog_raw_ptr, session_ := session, token_ := token }
  let player_raw_ptr := ps.players_.length
  (player_raw_ptr,
    { dogs_ := dogs, players_ := ps.players_ ++ [player],
      token_to_player_ := model.tableAssign ps.token_to_player_ token player_raw_ptr })

/-- The method `Players::FindByToken` of `application.cpp`: the `Player*` as an index into
`players_`, `none` for `nullptr`. -/
def Players.FindByToken (ps : Players) (token : String) : Option Nat :=
  model.tableFind ps.token_to_player_ token

/-- The method `Players::GetDogs` of `application.cpp`: copies of the dogs of the arena,
in its order. -/
def Players.GetDogs (ps : Players) : List model.Dog := ps.dogs_

/-- The method `Application::FindMap`. -/
def Application.FindMap (a : Application) (id : String) : Option (Option model.Map) :=
  a.game_.FindMap id

/-- The method `Application::ListMaps`. -/
def Application.ListMaps (a : Application) : List model.Map := a.game_.GetMaps

/-- The method `Application::FindByToken`. -/
def Application.FindByToken (a : Application) (token : String) : Option Nat :=
  a.players_.FindByToken token

/-- The method `Application::JoinGame` of `application.cpp`: the returned
`std::optional<JoinGameResult>` and the application afterwards.  `gen1`, `gen2` are the
values the two token generators return, `road_idx` and `t` the values `AddDog` draws; the
outer `none` is an exception (or a null pointer) met on the way. -/
def Application.JoinGame (a : Application) (map_id user_name : String)
    (gen1 gen2 road_idx : Nat) (t : ℚ) : Option (Option JoinGameResult × Application) :=
  match a.FindMap map_id with
  | none => none
  | some none => some (none, a)
  | some (some _) =>
    match a.game_.FindSession map_id with
    | none => none
    | some found =>
      let ensured : Option (Option Nat × model.Game) :=
        match found with
        | some session => some (some session, a.game_)
        | none => a.game_.AddSession map_id
      match ensured with
      | some (some session, game) =>
        match game.sessions_[session]? with
        | some s =>
          match s.AddDog a.players_.dogs_.length (model.Dog.ofName user_name) road_idx t with
          | some (s', dog) =>
            let added := a.players_.Add dog session gen1 gen2
            match added.2.players_[added.1]? with
            | some player =>
              match added.2.dogs_[player.dog_]? with
              | some d =>
                some (some { token := player.token_, player_id := d.id_ },
                  { game_ := { game with sessions_ := game.sessions_.set session s' },
                    players_ := added.2 })
              | none => none
            | none => none
          | none => none
        | none => none
      | _ => none

/-- The sixteen lower-case hexadecimal digits. -/
def hexChars : List Char := "0123456789abcdef".toList

/-- The zero-padded lower-case hexadecimal numeral of `value` with `width` digits, in the
words of the specification: the digit at position `i` from the left is the hexadecimal
digit `value / 16 ^ (width - 1 - i) mod 16`. -/
def hexFixed (width value : Nat) : List Char :=
  (List.range width).map (fun i => hexChars.getD (value / 16 ^ (width - 1 - i) % 16) '0')

/-- The session a join to `map_id` goes to, as `JoinGame` finds or creates it: the
`GameSession*` and the game afterwards. -/
def JoinsSession (g : model.Game) (map_id : String) (session : Nat) (game : model.Game) :
    Prop :=
  (g.FindSession map_id = some (some session) ∧ game = g) ∨
  (g.FindSession map_id = some none ∧ g.AddSession map_id = some (some session, game))

/-- One call of `JoinGame` together with the values its random draws return. -/
structure JoinRequest where
  map_id : String
  user_name : String
  gen1 : Nat
  gen2 : Nat
  road_idx : Nat
  t : ℚ
deriving DecidableEq, Repr

/-- A sequence of `JoinGame` calls, one for each request of the list in turn: the results
of the calls and the application after the last one; `none` when one of the calls leaves
through an exception. -/
def Application.joinAll :
    Application → List JoinRequest → Option (List (Option JoinGameResult) × Application)
  | a, [] => some ([], a)
  | a, req :: rest =>
    match a.JoinGame req.map_id req.user_name req.gen1 req.gen2 req.road_idx req.t with
    | none => none
    | some (r, a') =>
      match Application.joinAll a' rest with
      | none => none
      | some (rs, a'') => some (r :: rs, a'')

/-- The token invariant of the specification: the tokens of the registered players are
pairwise distinct and `FindByToken` of the token of a player returns that player. -/
def TokensDistinct (ps : Players) : Prop :=
  (ps.players_.map (fun p => p.token_)).Nodup ∧
  ∀ (ptr : Nat) (player : Player), ps.players_[ptr]? = some player →
    ps.FindByToken player.token_ = some ptr

/-- The dogs that joined the map `map_id` in a run of joins, as the returned player ids of
the successful joins to it, in the order of the calls. -/
def joinedDogs (map_id : String) : List JoinRequest → List (Option JoinGameResult) → List Nat
  | req :: reqs, some r :: results =>
    if req.map_id = map_id then r.player_id :: joinedDogs map_id reqs results
    else joinedDogs map_id reqs results
  | _ :: reqs, none :: results => joinedDogs map_id reqs results
  | _, _ => []

/-- The dog lists of the sessions of the map `map_id`, one after the other. -/
def dogsOfMap (map_id : String) : List model.GameSession → List Nat
  | [] => []
  | s :: rest =>
    if s.map_.id_ = map_id then s.dogs_ ++ dogsOfMap map_id rest else dogsOfMap map_id rest

/-- One operation on the application: a `JoinGame` call with the values its random draws
return, a `MovePlayer` call for the player behind a `Player*`, or a `Tick` of the game. -/
inductive Op where
  | join (req : JoinRequest)
  | move (player : Nat) (move_cmd : String)
  | tick (delta : Int)
deriving DecidableEq, Repr

/-- Whether the `GameSession*` that a player holds still points into `sessions_`.
`Game::AddSession` appends to a `std::vector<GameSession>` that is never reserved; an
append that reallocates frees the old storage and leaves every `GameSession*` taken
before it dangling, and the language does not say which appends reallocate.  So the
pointer of a player counts as valid only while no session has been appended since the
player joined: the first dog of every session, which is the dog of the join that created
the session, is not younger than the dog of the player. -/
def Player.sessionValid (p : Player) (g : model.Game) : Bool :=
  g.sessions_.all (fun s =>
    match s.dogs_.head? with
    | some first => decide (first ≤ p.dog_)
    | none => false)

/-- The application after one operation; `none` when the call leaves through an exception
or has undefined behaviour: `MovePlayer` for a player whose `GameSession*` dangles reads
freed memory.  A tick is `Game::Tick` of `game_` on the arena of dogs. -/
def Application.step (a : Application) : Op → Option Application
  | .join req =>
    (a.JoinGame req.map_id req.user_name req.gen1 req.gen2 req.road_idx req.t).map
      (fun out => out.2)
  | .move player move_cmd =>
    match a.players_.players_[player]? with
    | some p => if p.sessionValid a.game_ then a.MovePlayer p move_cmd else none
    | none => none
  | .tick delta =>
    some { a with players_ := { a.players_ with dogs_ := a.game_.Tick delta a.players_.dogs_ } }

/-- The application after a sequence of operations. -/
def Application.run (a : Application) : List Op → Option Application
  | [] => some a
  | op :: rest =>
    match a.step op with
    | some a' => a'.run rest
    | none => none

/-- The class `Ticker` of `application.h` (declared there at file scope).  `last_tick_` is
a time point of the steady clock in nanoseconds, `period_` a number of milliseconds, and
`timer_` the wait pending on the timer: `some d` when `async_wait` is outstanding after
`expires_after(d)`, `none` when no wait is outstanding. -/
structure Ticker where
  period_ : Int
  timer_ : Option Int
  last_tick_ : Int
deriving DecidableEq, Repr

/-- What a call of the handler does: it returns, or throws an exception of a class derived
from `std::exception` (with its `what()`), or throws something else. -/
inductive HandlerOutcome where
  | returned
  | threw_std (what : String)
  | threw_other
deriving DecidableEq, Repr

/-- What one call of `Ticker::OnTick` did besides changing the ticker: the delta the
handler was called with (milliseconds), the exception text logged, and whether an
exception left `OnTick`. -/
structure OnTickEffects where
  handler_delta : Option Int
  logged : Option String
  escaped : Bool
deriving DecidableEq, Repr

/-- The method `Ticker::ScheduleTick`: `expires_after(period_)` and `async_wait`. -/
def Ticker.ScheduleTick (t : Ticker) : Ticker :=
  { t with timer_ := some t.period_ }

/-- The method `Ticker::Start`, with the value that `Clock::now()` returns. -/
def Ticker.Start (t : Ticker) (now : Int) : Ticker :=
  Ticker.ScheduleTick { t with last_tick_ := now }

/-- The method `Ticker::OnTick`.  `ec` is the value of the error code, `now` the value
that `Clock::now()` returns (nanoseconds) and `outcome` what the handler does when it is
called; `duration_cast` to milliseconds truncates towards zero. -/
def Ticker.OnTick (t : Ticker) (ec : Int) (now : Int) (outcome : HandlerOutcome) :
    Ticker × OnTickEffects :=
  if ec = 0 then
    let this_tick := now
    let delta := Int.tdiv (this_tick - t.last_tick_) 1000000
    let t := { t with last_tick_ := this_tick }
    match outcome with
    | .returned =>
      (t.ScheduleTick, { handler_delta := some delta, logged := none, escaped := false })
    | .threw_std what =>
      (t.ScheduleTick, { handler_delta := some delta, logged := some what, escaped := false })
    | .threw_other => (t, { handler_delta := some delta, logged := none, escaped := true })
  else (t, { handler_delta := none, logged := none, escaped := false })

/-- A completion of the wait on the timer: the error code it reports, the clock and the
behaviour of the handler at that moment. -/
structure TimerEvent where
  ec : Int
  now : Int
  outcome : HandlerOutcome
deriving DecidableEq, Repr

/-- The completion handler that `ScheduleTick` passes to `async_wait`: it runs `OnTick`
when a wait is outstanding, which is then over; without an outstanding wait nothing
happens. -/
def Ticker.complete (t : Ticker) (e : TimerEvent) : Ticker × Option OnTickEffects :=
  match t.timer_ with
  | none => (t, none)
  | some _ =>
    let out := Ticker.OnTick { t with timer_ := none } e.ec e.now e.outcome
    (out.1, some out.2)

/-- The ticker after a sequence of timer events, and the effects of each. -/
def Ticker.completeAll (t : Ticker) : List TimerEvent → Ticker × List (Option OnTickEffects)
  | [] => (t, [])
  | e :: rest =>
    (((t.complete e).1.completeAll rest).1,
      (t.complete e).2 :: ((t.complete e).1.completeAll rest).2)

end app

namespace keys

/-- The key `keys::X0` of `json_loader.h`. -/
def X0 : String := "x0"

/-- The key `keys::Y0` of `json_loader.h`. -/
def Y0 : String := "y0"

/-- The key `keys::X1` of `json_loader.h`. -/
def X1 : String := "x1"

/-- The key `keys::Y1` of `json_loader.h`. -/
def Y1 : String := "y1"

end keys

namespace json

/-- The kinds of `boost::json::value`; `int64` holds a `std::int64_t`, `object` the
members in insertion order, one per key. -/
inductive value where
  | null
  | bool (b : Bool)
  | int64 (v : Int)
  | double (v : ℚ)
  | string (s : String)
  | array (items : List value)
  | object (members : List (String × value))

/-- The method `value::as_int64`: `none` is the exception thrown for another kind. -/
def value.as_int64 : value → Option Int
  | .int64 v => some v
  | _ => none

/-- The method `value::as_string`: `none` is the exception thrown for another kind. -/
def value.as_string : value → Option String
  | .string s => some s
  | _ => none

/-- The assignment of `json::string::c_str()` to a `std::string`: the characters before
the first NUL character. -/
def c_str (s : String) : String :=
  String.mk (s.toList.takeWhile (fun c => c != Char.ofNat 0))

/-- The class `boost::json::object`: the members in insertion order, one per key. -/
abbrev object := List (String × value)

/-- The method `value::is_object`. -/
def value.is_object : value → Bool
  | .object _ => true
  | _ => false

/-- The method `value::as_object`: `none` is the exception thrown for another kind. -/
def value.as_object : value → Option json.object
  | .object members => some members
  | _ => none

/-- The method `object::at`: `none` is the exception `std::out_of_range`. -/
def object.at (o : object) (key : String) : Option value := o.lookup key

/-- The method `object::contains`. -/
def object.contains (o : object) (key : String) : Bool := (o.lookup key).isSome

/-- The assignment `obj[key] = v`: the member of the key is overwritten, or added at the
end when the object has none. -/
def object.assign (o : object) (key : String) (v : value) : object :=
  if object.contains o key then o.map (fun member => if member.1 == key then (key, v) else member)
  else o ++ [(key, v)]

/-- The conversion of a `std::int64_t` to `model::Coord`, a 32-bit `int`: the value
modulo `2^32` in the range of `int`. -/
def toCoord (v : Int) : Int := (v + 2 ^ 31) % 2 ^ 32 - 2 ^ 31

/-- The values of `model::Coord`, a 32-bit `int`. -/
def isCoord (v : Int) : Prop := -(2 ^ 31) ≤ v ∧ v < 2 ^ 31

end json

namespace json_serializer

open model

/-- The function `ToJson(const model::Road&)` of `json_serializer.cpp`; the result is the
object `road_obj` that the returned value holds. -/
def ToJson (road : Road) : json.object :=
  let road_obj : json.object := []
  let road_obj := json.object.assign road_obj keys.X0 (.int64 road.start_.x)
  let road_obj := json.object.assign road_obj keys.Y0 (.int64 road.start_.y)
  if road.IsHorizontal then json.object.assign road_obj keys.X1 (.int64 road.end_.x)
  else json.object.assign road_obj keys.Y1 (.int64 road.end_.y)

end json_serializer

namespace json_loader

open model

/-- The function `LoadRoad` of `json_loader.cpp`; `none` is an exception of `at` or of
`as_int64`. -/
def LoadRoad (road_obj : json.object) : Option Road := do
  let x0 := json.toCoord (← (← json.object.at road_obj keys.X0).as_int64)
  let y0 := json.toCoord (← (← json.object.at road_obj keys.Y0).as_int64)
  if json.object.contains road_obj keys.X1 then
    let x1 := json.toCoord (← (← json.object.at road_obj keys.X1).as_int64)
    return Road.HORIZONTAL { x := x0, y := y0 } x1
  else
    let y1 := json.toCoord (← (← json.object.at road_obj keys.Y1).as_int64)
    return Road.VERTICAL { x := x0, y := y0 } y1

end json_loader

namespace http_handler

open app

/-- The values of `http::verb` that the handler tells apart. -/
inductive verb where
  | get
  | head
  | post
  | other
deriving DecidableEq, Repr

/-- The parts of an `http::request` that the API handler reads: the method, the two header
fields (`none` when the request has no such field) and what `json::parse` makes of the
body (`none` when it throws). -/
structure Request where
  method : verb
  content_type : Option String
  authorization : Option String
  body : Option json.value

/-- The responses of `HandleApiRequest`, by the local function that sends them: `ok` is
`MakeStringResponse(http::status::ok, body, ...)`. -/
inductive Response where
  | ok (body : String)
  | bad_request (message code : String)
  | not_found (message : String)
  | invalid_method (allow message : String)
  | unauthorized (code message : String)
deriving DecidableEq, Repr

/-- The class `\s` of the regular expression: the characters `std::isspace` accepts in
the classic locale, the space and the codes 9 to 13 (tab, line feed, vertical tab, form
feed, carriage return). -/
def isSpace (c : Char) : Bool := c.toNat = 32 || (9 ≤ c.toNat && c.toNat ≤ 13)

/-- The class `[0-9a-fA-F]` of the regular expression, by character code. -/
def isHexDigit (c : Char) : Bool :=
  (48 ≤ c.toNat && c.toNat ≤ 57) || (97 ≤ c.toNat && c.toNat ≤ 102) ||
    (65 ≤ c.toNat && c.toNat ≤ 70)

/-- The call `std::regex_match(auth_header, match, bearer_regex)` for the expression
`^Bearer\s+([0-9a-fA-F]{32})$` with `std::regex::icase`, and `match[1]` when the header
matches: the six letters of `Bearer` in either case, then the longest run of space
characters, which must not be empty, then exactly 32 hexadecimal digits up to the end. -/
def regex_match (auth_header : List Char) : Option (List Char) :=
  let word := auth_header.take 6
  let rest := auth_header.drop 6
  let spaces := rest.takeWhile isSpace
  let digits := rest.dropWhile isSpace
  if word.map Char.toLower = "bearer".toList ∧ spaces ≠ [] ∧ digits.length = 32 ∧
      digits.all isHexDigit = true then some digits
  else none

/-- The method `ApiHandler::TryExtractToken` of `api_handler.h`. -/
def TryExtractToken (req : Request) : Option String :=
  match req.authorization with
  | none => none
  | some auth_header =>
    match regex_match auth_header.toList with
    | some digits => some (String.mk digits)
    | none => none

/-- The local function `handle_authorized` of `HandleApiRequest`: the response sent and
the application afterwards; `none` is an exception that leaves the handler. -/
def handle_authorized (app_ : Application) (request : Request)
    (action : Nat → Request → Option (Response × Application)) :
    Option (Response × Application) :=
  match TryExtractToken request with
  | none => some (.unauthorized "invalidToken" "Authorization header is required", app_)
  | some token =>
    match app_.FindByToken token with
    | none => some (.unauthorized "unknownToken" "Player token has not been found", app_)
    | some player => action player request

/-- The action that the branch `target == endpoints::ACTION` passes to
`handle_authorized`.  `player` is the `Player*`, an index into `players_`. -/
def actionOfPlayer (app_ : Application) (player : Nat) (request : Request) :
    Option (Response × Application) :=
  match request.body with
  | none => some (.bad_request "Failed to parse action" "invalidArgument", app_)
  | some jv =>
    if !jv.is_object || !((jv.as_object.map (fun o => json.object.contains o "move")).getD false)
    then some (.bad_request "Failed to parse action" "invalidArgument", app_)
    else
      match (jv.as_object.bind (fun o => json.object.at o "move")).bind json.value.as_string with
      | none => some (.bad_request "Failed to parse action" "invalidArgument", app_)
      | some move =>
        let move_cmd := json.c_str move
        if move_cmd ≠ "L" ∧ move_cmd ≠ "R" ∧ move_cmd ≠ "U" ∧ move_cmd ≠ "D" ∧ move_cmd ≠ ""
        then some (.bad_request "Failed to parse action" "invalidArgument", app_)
        else
          match app_.players_.players_[player]? with
          | none => none
          | some p =>
            match app_.MovePlayer p move_cmd with
            | none => none
            | some app_after => some (.ok "\x7b\x7d", app_after)

/-- The branch `target == endpoints::ACTION` of `ApiHandler::HandleApiRequest`. -/
def HandleAction (app_ : Application) (req : Request) : Option (Response × Application) :=
  if req.method ≠ verb.post then some (.invalid_method "POST" "Invalid method", app_)
  else if req.content_type ≠ some "application/json" then
    some (.bad_request "Invalid content type" "invalidArgument", app_)
  else handle_authorized app_ req (actionOfPlayer app_)

/-- The pattern `Bearer [0-9a-fA-F]{32}` as the specification writes it, the word compared
without regard to case: the six letters, one space, 32 hexadecimal digits. -/
def matchesBearerSpec (auth_header : List Char) : Bool :=
  decide ((auth_header.take 6).map Char.toLower = "bearer".toList) &&
    decide ((auth_header.drop 6).take 1 = [Char.ofNat 32]) &&
    decide ((auth_header.drop 7).length = 32) && (auth_header.drop 7).all isHexDigit

end http_handler

namespace model

/-! ## The specification's vocabulary -/

/-- The walkable band of a road in the words of the specification: the inclusive rectangle
`[min(x0,x1) - 0.4, max(x0,x1) + 0.4] x [min(y0,y1) - 0.4, max(y0,y1) + 0.4]`. -/
def InBand (road : Road) (p : PointD) : Prop :=
  min (road.start_.x : ℚ) (road.end_.x : ℚ) - 2 / 5 ≤ p.x ∧
  p.x ≤ max (road.start_.x : ℚ) (road.end_.x : ℚ) + 2 / 5 ∧
  min (road.start_.y : ℚ) (road.end_.y : ℚ) - 2 / 5 ≤ p.y ∧
  p.y ≤ max (road.start_.y : ℚ) (road.end_.y : ℚ) + 2 / 5

instance (road : Road) (p : PointD) : Decidable (InBand road p) := by
  unfold InBand; infer_instance

/-- A point clamped component-wise into the band of a road, in the words of the
specification. -/
def clampToBand (road : Road) (p : PointD) : PointD :=
  { x := max (min (road.start_.x : ℚ) (road.end_.x : ℚ) - 2 / 5)
          (min (max (road.start_.x : ℚ) (road.end_.x : ℚ) + 2 / 5) p.x),
    y := max (min (road.start_.y : ℚ) (road.end_.y : ℚ) - 2 / 5)
          (min (max (road.start_.y : ℚ) (road.end_.y : ℚ) + 2 / 5) p.y) }

/-- The naive destination `P' = P + V * (delta / 1000)` of the specification. -/
def naiveDestination (dog : Dog) (delta : Int) : PointD :=
  { x := dog.pos_.x + dog.speed_.u * ((delta : ℚ) / 1000),
    y := dog.pos_.y + dog.speed_.v * ((delta : ℚ) / 1000) }

/-- The set `R_current` of the specification, in the order of the road list of the map. -/
def RCurrent (roads : List Road) (p : PointD) : List Road :=
  roads.filter (fun road => decide (InBand road p))

/-- The reach a road offers: the squared Euclidean distance from `p` of the destination
`p'` clamped into the band of the road. -/
def reachSq (p p' : PointD) (road : Road) : ℚ :=
  ((clampToBand road p').x - p.x) ^ 2 + ((clampToBand road p').y - p.y) ^ 2

/-- The border of the band of a road: the points of the band with a coordinate on
one of its four edges. -/
def OnBandBoundary (road : Road) (p : PointD) : Prop :=
  InBand road p ∧
    (p.x = min (road.start_.x : ℚ) (road.end_.x : ℚ) - 2 / 5 ∨
     p.x = max (road.start_.x : ℚ) (road.end_.x : ℚ) + 2 / 5 ∨
     p.y = min (road.start_.y : ℚ) (road.end_.y : ℚ) - 2 / 5 ∨
     p.y = max (road.start_.y : ℚ) (road.end_.y : ℚ) + 2 / 5)

/-- A destination that lies at least `1e-9` beyond the band of a road in one of its
coordinates. -/
def BeyondBand (road : Road) (p : PointD) : Prop :=
  p.x ≤ min (road.start_.x : ℚ) (road.end_.x : ℚ) - 2 / 5 - 1 / 10 ^ 9 ∨
  max (road.start_.x : ℚ) (road.end_.x : ℚ) + 2 / 5 + 1 / 10 ^ 9 ≤ p.x ∨
  p.y ≤ min (road.start_.y : ℚ) (road.end_.y : ℚ) - 2 / 5 - 1 / 10 ^ 9 ∨
  max (road.start_.y : ℚ) (road.end_.y : ℚ) + 2 / 5 + 1 / 10 ^ 9 ≤ p.y

/-- The movement invariant of the specification, for the dog behind `ptr` and one tick: the
position after the tick lies in the band of a road of the map that also contained the
position before the tick. -/
def StaysOnARoad (s : GameSession) (delta : Int) (dogs : List Dog) (ptr : Nat) : Prop :=
  ∃ dog dog' road, dogs[ptr]? = some dog ∧ (s.Tick delta dogs)[ptr]? = some dog' ∧
    road ∈ s.map_.roads_ ∧ InBand road dog.pos_ ∧ InBand road dog'.pos_

/-- The outcome the specification states for a dog whose naive destination lies outside
every band of `R_current`: after the tick it stands on the border of the band of a road
of `R_current` and its velocity is `(0, 0)`. -/
def StopsOnBoundary (s : GameSession) (delta : Int) (dogs : List Dog) (ptr : Nat) : Prop :=
  ∃ dog dog' road, dogs[ptr]? = some dog ∧ (s.Tick delta dogs)[ptr]? = some dog' ∧
    road ∈ RCurrent s.map_.roads_ dog.pos_ ∧ OnBandBoundary road dog'.pos_ ∧
    dog'.speed_ = { u := 0, v := 0 }

/-- The invariant of the catalog: the id table sends an id to an index exactly when the
map at that index of `maps_` has that id. -/
def CatalogOk (g : Game) : Prop :=
  ∀ (id : String) (index : Nat),
    tableFind g.map_id_to_index_ id = some index ↔
      ∃ map, g.maps_[index]? = some map ∧ map.id_ = id

/-- A sequence of `AddMap` calls, one for each map of the list in turn: the flags of the
calls and the catalog after the last one. -/
def Game.addMaps (g : Game) : List Map → List Bool × Game
  | [] => ([], g)
  | map :: rest =>
    ((g.AddMap map).1 :: ((g.AddMap map).2.addMaps rest).1, ((g.AddMap map).2.addMaps rest).2)

/-- An id table describes a list of ids: it sends an id to an index exactly when the list
has that id at that index. -/
def TableOk (table : List (String × Nat)) (ids : List String) : Prop :=
  ∀ (id : String) (index : Nat), tableFind table id = some index ↔ ids[index]? = some id

/-- A call of one of the mutators of `Map`. -/
inductive MapOp where
  | addRoad (road : Road)
  | addBuilding (building : Building)
  | addOffice (office : Office)
  | setDogSpeed (speed : ℚ)

/-- The map after one mutator call; a rejected `AddOffice` leaves the object as the call
left it. -/
def Map.step (m : Map) : MapOp → Map
  | .addRoad road => m.AddRoad road
  | .addBuilding building => m.AddBuilding building
  | .addOffice office => (m.AddOffice office).2
  | .setDogSpeed speed => m.SetDogSpeed speed

/-- The map after a sequence of mutator calls. -/
def Map.run (m : Map) (ops : List MapOp) : Map := ops.foldl Map.step m

/-- The invariant of the sessions of a game: the catalog keeps its invariant, and the
session table sends a map id to an index exactly when the session at that index of
`sessions_` is on the map with that id. -/
def SessionsOk (g : Game) : Prop :=
  CatalogOk g ∧
    TableOk g.session_id_to_index_ (g.sessions_.map (fun s => s.map_.id_))

/-- The invariant of the sessions and the arena of dogs: every `Dog*` of a session points
into the arena and occurs once in its session; no `Dog*` is in two sessions; every dog of
the arena is in a session; and on a map with a road every dog of the session stands in the
band of a road of the map. -/
def DogsOnRoads (sessions : List GameSession) (dogs : List Dog) : Prop :=
  (∀ (i : Nat) (s : GameSession), sessions[i]? = some s →
    s.dogs_.Nodup ∧ ∀ ptr ∈ s.dogs_, ptr < dogs.length) ∧
  (∀ (i j : Nat) (s1 s2 : GameSession) (ptr : Nat),
    sessions[i]? = some s1 → sessions[j]? = some s2 →
    ptr ∈ s1.dogs_ → ptr ∈ s2.dogs_ → i = j) ∧
  (∀ ptr : Nat, ptr < dogs.length →
    ∃ (i : Nat) (s : GameSession), sessions[i]? = some s ∧ ptr ∈ s.dogs_) ∧
  (∀ (i : Nat) (s : GameSession), sessions[i]? = some s → s.map_.roads_ ≠ [] →
    ∀ ptr ∈ s.dogs_, ∃ dog, dogs[ptr]? = some dog ∧ ∃ road ∈ s.map_.roads_, InBand road dog.pos_)

/-- A road whose two coordinate differences `end - start` are values of a 32-bit `int`, so
that the subtractions of `AddDog` do not overflow. -/
def RoadFits (road : Road) : Prop :=
  toInt32 (road.end_.x - road.start_.x) = road.end_.x - road.start_.x ∧
  toInt32 (road.end_.y - road.start_.y) = road.end_.y - road.start_.y

instance (road : Road) : Decidable (RoadFits road) := by
  unfold RoadFits; infer_instance

end model

/-! ## The maps and dogs of the end-to-end scenarios -/

namespace scenario

open model

/-- The horizontal road `{x0:0, y0:0, x1:10}`. -/
def roadH : Road := Road.HORIZONTAL { x := 0, y := 0 } 10

/-- The vertical road `{x0:5, y0:0, y1:10}`. -/
def roadV : Road := Road.VERTICAL { x := 5, y := 0 } 10

/-- A map with no road. -/
def emptyMap : Map :=
  { id_ := "m0", name_ := "Empty", roads_ := [], buildings_ := [], dog_speed_ := none,
    warehouse_id_to_index_ := [], offices_ := [] }

/-- The map with the one horizontal road. -/
def oneRoadMap : Map :=
  { id_ := "m1", name_ := "One road", roads_ := [roadH], buildings_ := [], dog_speed_ := none,
    warehouse_id_to_index_ := [], offices_ := [] }

/-- The map with the horizontal and the vertical road, in this order. -/
def junctionMap : Map :=
  { id_ := "m2", name_ := "Junction", roads_ := [roadH, roadV], buildings_ := [],
    dog_speed_ := none, warehouse_id_to_index_ := [], offices_ := [] }

/-- A session of a map holding the one dog behind pointer `0`. -/
def sessionOf (map : Map) : GameSession :=
  { map_ := map, dogs_ := [0], randomize_spawn_points_ := false }

/-- A dog named alice with id `0`. -/
def dogAt (pos : PointD) (speed : Vec2D) (dir : String) : Dog :=
  { id_ := 0, name_ := "alice", pos_ := pos, speed_ := speed, dir_ := dir }

/-- The game with the one-road map and its session, default speed `1.0`. -/
def oneRoadGame : Game :=
  { default_dog_speed_ := 1, randomize_spawn_points_ := false, maps_ := [oneRoadMap],
    map_id_to_index_ := [("m1", 0)], sessions_ := [sessionOf oneRoadMap],
    session_id_to_index_ := [("m1", 0)] }

/-- The player of the dog behind pointer `0`, in the session behind pointer `0`. -/
def alice : app.Player :=
  { dog_ := 0, session_ := 0, token_ := "000000000000002a00000000000000ff" }

/-- The application over the one-road game whose only dog is `dog`, owned by `alice`. -/
def appWith (dog : Dog) : app.Application :=
  { game_ := oneRoadGame,
    players_ := { dogs_ := [dog], players_ := [alice],
                  token_to_player_ := [("000000000000002a00000000000000ff", 0)] } }

/-- The game with one map and its session, default speed `1.0`. -/
def gameOn (map : Map) : Game :=
  { default_dog_speed_ := 1, randomize_spawn_points_ := false, maps_ := [map],
    map_id_to_index_ := [(map.id_, 0)], sessions_ := [sessionOf map],
    session_id_to_index_ := [(map.id_, 0)] }

/-- The application over `gameOn map` whose only dog is `dog`, owned by `alice`. -/
def appOn (map : Map) (dog : Dog) : app.Application :=
  { game_ := gameOn map,
    players_ := { dogs_ := [dog], players_ := [alice],
                  token_to_player_ := [("000000000000002a00000000000000ff", 0)] } }

/-- The catalog loaded with the three maps of the scenarios. -/
def catalog : Game := (Game.fresh.addMaps [emptyMap, oneRoadMap, junctionMap]).2

/-- The application at the start of the process: the loaded catalog, no player yet. -/
def startApp : app.Application :=
  { game_ := catalog, players_ := app.Players.fresh }

/-- The application after the first join of the scenarios, of `alice` to the map `m1`
with the generator outputs `42` and `255`. -/
def afterFirstJoin : app.Application :=
  { game_ := { catalog with
      sessions_ := [sessionOf oneRoadMap], session_id_to_index_ := [("m1", 0)] },
    players_ := { dogs_ := [dogAt { x := 0, y := 0 } { u := 0, v := 0 } "U"],
                  players_ := [alice],
                  token_to_player_ := [("000000000000002a00000000000000ff", 0)] } }

/-- Three joins: `alice` to `m1`, `bob` to the unknown map `zz`, `carol` to `m2`. -/
def threeJoins : List app.JoinRequest :=
  [{ map_id := "m1", user_name := "alice", gen1 := 42, gen2 := 255, road_idx := 0, t := 0 },
   { map_id := "zz", user_name := "bob", gen1 := 7, gen2 := 8, road_idx := 0, t := 0 },
   { map_id := "m2", user_name := "carol", gen1 := 43, gen2 := 255, road_idx := 0, t := 0 }]

/-- Two joins to `m1` for which the two generators return the same pair of values. -/
def twinJoins : List app.JoinRequest :=
  [{ map_id := "m1", user_name := "alice", gen1 := 42, gen2 := 255, road_idx := 0, t := 0 },
   { map_id := "m1", user_name := "bob", gen1 := 42, gen2 := 255, road_idx := 0, t := 0 }]

/-- The application after `twinJoins`: two players with one token, and the token table
pointing at the second. -/
def afterTwinJoins : app.Application :=
  { game_ := { catalog with
      sessions_ := [{ map_ := oneRoadMap, dogs_ := [0, 1], randomize_spawn_points_ := false }],
      session_id_to_index_ := [("m1", 0)] },
    players_ :=
      { dogs_ := [{ id_ := 0, name_ := "alice", pos_ := { x := 0, y := 0 },
                    speed_ := { u := 0, v := 0 }, dir_ := "U" },
                  { id_ := 1, name_ := "bob", pos_ := { x := 0, y := 0 },
                    speed_ := { u := 0, v := 0 }, dir_ := "U" }],
        players_ := [{ dog_ := 0, session_ := 0, token_ := "000000000000002a00000000000000ff" },
                     { dog_ := 1, session_ := 0, token_ := "000000000000002a00000000000000ff" }],
        token_to_player_ := [("000000000000002a00000000000000ff", 1)] } }

/-- The application after the first join of the scenarios and the command `R` of `alice`:
her dog has the velocity `(1, 0)`. -/
def afterMoveRight : app.Application :=
  { game_ := afterFirstJoin.game_,
    players_ := { dogs_ := [dogAt { x := 0, y := 0 } { u := 1, v := 0 } "R"],
                  players_ := [alice],
                  token_to_player_ := [("000000000000002a00000000000000ff", 0)] } }

/-- A horizontal road from `x = -2000000000` to `x = 2000000000`; both ends are values of
`int`, their difference is not. -/
def wideRoad : Road := Road.HORIZONTAL { x := -2000000000, y := 0 } 2000000000

/-- The map with the wide road. -/
def wideMap : Map :=
  { id_ := "w", name_ := "Wide", roads_ := [wideRoad], buildings_ := [], dog_speed_ := none,
    warehouse_id_to_index_ := [], offices_ := [] }

/-- The session of the wide map in the random spawn mode, before the first dog. -/
def wideSession : GameSession :=
  { map_ := wideMap, dogs_ := [], randomize_spawn_points_ := true }

/-- The application at the start of the process over the wide map, in the random spawn
mode. -/
def wideApp : app.Application :=
  { game_ := { default_dog_speed_ := 1, randomize_spawn_points_ := true, maps_ := [wideMap],
               map_id_to_index_ := [("w", 0)], sessions_ := [], session_id_to_index_ := [] },
    players_ := app.Players.fresh }

end scenario

/-! # Theorems -/

namespace model

/-! ## Elementary facts about the helpers of `Tick` -/

theorem stdMin_eq_min (a b : ℚ) : stdMin a b = min a b := by
  unfold stdMin
  split_ifs with h
  · exact (min_eq_right h.le).symm
  · exact (min_eq_left (not_lt.mp h)).symm

theorem stdMax_eq_max (a b : ℚ) : stdMax a b = max a b := by
  unfold stdMax
  split_ifs with h
  · exact (max_eq_right h.le).symm
  · exact (max_eq_left (not_lt.mp h)).symm

theorem stdClamp_eq (v lo hi : ℚ) (h : lo ≤ hi) : stdClamp v lo hi = max lo (min hi v) := by
  unfold stdClamp
  split_ifs with h1 h2
  · rw [max_eq_left]; exact le_trans (min_le_right _ _) h1.le
  · rw [min_eq_left h2.le, max_eq_right h]
  · rw [min_eq_right (not_lt.mp h2), max_eq_right (not_lt.mp h1)]

theorem borders_x_le (road : Road) :
    min (road.start_.x : ℚ) (road.end_.x : ℚ) - 2 / 5 ≤
      max (road.start_.x : ℚ) (road.end_.x : ℚ) + 2 / 5 := by
  have := min_le_max (a := (road.start_.x : ℚ)) (b := (road.end_.x : ℚ))
  linarith

theorem borders_y_le (road : Road) :
    min (road.start_.y : ℚ) (road.end_.y : ℚ) - 2 / 5 ≤
      max (road.start_.y : ℚ) (road.end_.y : ℚ) + 2 / 5 := by
  have := min_le_max (a := (road.start_.y : ℚ)) (b := (road.end_.y : ℚ))
  linarith

theorem IsOnRoad_iff (road : Road) (p : PointD) :
    IsOnRoad p (GetRoadBorders road) = true ↔ InBand road p := by
  simp only [IsOnRoad, GetRoadBorders, InBand, stdMin_eq_min, stdMax_eq_max, ROAD_HALF_WIDTH,
    Bool.and_eq_true, decide_eq_true_eq, ge_iff_le]
  tauto

theorem currentRoads_eq (roads : List Road) (p : PointD) :
    currentRoads roads p = RCurrent roads p := by
  unfold currentRoads RCurrent
  apply List.filter_congr
  intro road _
  by_cases h : InBand road p
  · simp [h, (IsOnRoad_iff road p).mpr h]
  · have : ¬ IsOnRoad p (GetRoadBorders road) = true := fun h' => h ((IsOnRoad_iff road p).mp h')
    simp [h, this]

theorem boundedPos_eq (road : Road) (p : PointD) :
    boundedPos p (GetRoadBorders road) = clampToBand road p := by
  simp only [boundedPos, GetRoadBorders, clampToBand, stdMin_eq_min, stdMax_eq_max,
    ROAD_HALF_WIDTH]
  rw [stdClamp_eq _ _ _ (borders_x_le road), stdClamp_eq _ _ _ (borders_y_le road)]

theorem endPosEstimated_eq (dog : Dog) (delta : Int) :
    endPosEstimated dog ((delta : ℚ) / 1000) = naiveDestination dog delta := rfl

theorem clampToBand_inBand (road : Road) (p : PointD) : InBand road (clampToBand road p) := by
  unfold InBand clampToBand
  refine ⟨le_max_left _ _, max_le (borders_x_le road) (min_le_left _ _),
    le_max_left _ _, max_le (borders_y_le road) (min_le_left _ _)⟩

theorem clampToBand_of_inBand (road : Road) (p : PointD) (h : InBand road p) :
    clampToBand road p = p := by
  obtain ⟨h1, h2, h3, h4⟩ := h
  unfold clampToBand
  rw [min_eq_right h2, max_eq_right h1, min_eq_right h4, max_eq_right h3]

/-! ## Pointers into the arena -/

theorem length_modifyDog (dogs : List Dog) (ptr : Nat) (f : Dog → Dog) :
    (modifyDog dogs ptr f).length = dogs.length := by
  unfold modifyDog
  split <;> simp

theorem getElem?_modifyDog_self (dogs : List Dog) (ptr : Nat) (f : Dog → Dog) :
    (modifyDog dogs ptr f)[ptr]? = (dogs[ptr]?).map f := by
  unfold modifyDog
  split
  next d h =>
    have hlt : ptr < dogs.length := by
      by_contra hc
      rw [List.getElem?_eq_none (not_lt.mp hc)] at h
      cases h
    rw [h, List.getElem?_set_self hlt]
    rfl
  next h => rw [h]; rfl

theorem getElem?_modifyDog_ne (dogs : List Dog) (ptr q : Nat) (f : Dog → Dog) (h : ptr ≠ q) :
    (modifyDog dogs ptr f)[q]? = dogs[q]? := by
  unfold modifyDog
  split
  · rw [List.getElem?_set_ne h]
  · rfl

/-- A loop that runs `f` on the dogs behind a list of pointers leaves every dog behind
a pointer that is not in the list as it was. -/
theorem foldl_modifyDog_not_mem (f : Dog → Dog) (ptrs : List Nat) (dogs : List Dog) (q : Nat)
    (h : q ∉ ptrs) :
    (ptrs.foldl (fun ds ptr => modifyDog ds ptr f) dogs)[q]? = dogs[q]? := by
  induction ptrs generalizing dogs with
  | nil => rfl
  | cons p rest ih =>
    rw [List.foldl_cons, ih _ (fun hq => h (List.mem_cons_of_mem _ hq))]
    exact getElem?_modifyDog_ne dogs p q f (fun hpq => h (hpq ▸ List.mem_cons_self _ _))

/-- A loop that runs `f` on the dogs behind a duplicate-free list of pointers runs it
exactly once on each of them. -/
theorem foldl_modifyDog_mem (f : Dog → Dog) (ptrs : List Nat) (dogs : List Dog) (q : Nat)
    (hnodup : ptrs.Nodup) (h : q ∈ ptrs) :
    (ptrs.foldl (fun ds ptr => modifyDog ds ptr f) dogs)[q]? = (dogs[q]?).map f := by
  induction ptrs generalizing dogs with
  | nil => cases h
  | cons p rest ih =>
    rw [List.nodup_cons] at hnodup
    rw [List.foldl_cons]
    rcases List.mem_cons.mp h with hq | hq
    · subst hq
      rw [foldl_modifyDog_not_mem f rest _ q hnodup.1, getElem?_modifyDog_self]
    · have hne : p ≠ q := fun hpq => hnodup.1 (hpq ▸ hq)
      rw [ih _ hnodup.2 hq, getElem?_modifyDog_ne dogs p q f hne]

/-- Whatever property of a dog `f` keeps, the loop over a list of pointers keeps for the
dog behind every pointer. -/
theorem foldl_modifyDog_invariant (f : Dog → Dog) (Q : Dog → Prop) (hQ : ∀ d, Q d → Q (f d))
    (ptrs : List Nat) (dogs : List Dog) (q : Nat) (d : Dog) (hd : dogs[q]? = some d) (hq : Q d) :
    ∃ d', (ptrs.foldl (fun ds ptr => modifyDog ds ptr f) dogs)[q]? = some d' ∧ Q d' := by
  induction ptrs generalizing dogs d with
  | nil => exact ⟨d, hd, hq⟩
  | cons p rest ih =>
    rw [List.foldl_cons]
    by_cases hpq : p = q
    · subst hpq
      exact ih (modifyDog dogs p f) (f d) (by rw [getElem?_modifyDog_self, hd]; rfl) (hQ d hq)
    · exact ih (modifyDog dogs p f) d (by rw [getElem?_modifyDog_ne dogs p q f hpq, hd]) hq

/-- The dog behind a pointer of a duplicate-free session after `GameSession::Tick` is the
loop body run on the dog it was before. -/
theorem GameSession.Tick_getElem?_of_mem (s : GameSession) (delta : Int) (dogs : List Dog)
    (ptr : Nat) (hnodup : s.dogs_.Nodup) (hmem : ptr ∈ s.dogs_) :
    (s.Tick delta dogs)[ptr]? = (dogs[ptr]?).map (tickDog s.map_.roads_ ((delta : ℚ) / 1000)) :=
  foldl_modifyDog_mem _ s.dogs_ dogs ptr hnodup hmem

/-- The same, for a pointer known to point to `dog`. -/
theorem GameSession.Tick_getElem?_eq_some (s : GameSession) (delta : Int) (dogs : List Dog)
    (ptr : Nat) (dog : Dog) (hnodup : s.dogs_.Nodup) (hmem : ptr ∈ s.dogs_)
    (hdog : dogs[ptr]? = some dog) :
    (s.Tick delta dogs)[ptr]? = some (tickDog s.map_.roads_ ((delta : ℚ) / 1000) dog) := by
  rw [GameSession.Tick_getElem?_of_mem s delta dogs ptr hnodup hmem, hdog]
  rfl

/-- Whatever property of a dog the loop body keeps, `GameSession::Tick` keeps. -/
theorem GameSession.Tick_session_invariant (Q : Dog → Prop)
    (hQ : ∀ roads delta_s d, Q d → Q (tickDog roads delta_s d))
    (s : GameSession) (delta : Int) (dogs : List Dog) (q : Nat) (d : Dog)
    (hd : dogs[q]? = some d) (hq : Q d) :
    ∃ d', (s.Tick delta dogs)[q]? = some d' ∧ Q d' :=
  foldl_modifyDog_invariant _ Q (hQ _ _) s.dogs_ dogs q d hd hq

/-- Whatever property of a dog the loop body keeps, `Game::Tick` keeps. -/
theorem Game.Tick_game_invariant (Q : Dog → Prop)
    (hQ : ∀ roads delta_s d, Q d → Q (tickDog roads delta_s d))
    (g : Game) (delta : Int) (dogs : List Dog) (q : Nat) (d : Dog)
    (hd : dogs[q]? = some d) (hq : Q d) :
    ∃ d', (g.Tick delta dogs)[q]? = some d' ∧ Q d' := by
  unfold Game.Tick
  generalize g.sessions_ = sessions
  induction sessions generalizing dogs d with
  | nil => exact ⟨d, hd, hq⟩
  | cons s rest ih =>
    rw [List.foldl_cons]
    obtain ⟨d1, hd1, hq1⟩ := GameSession.Tick_session_invariant Q hQ s delta dogs q d hd hq
    exact ih _ d1 hd1 hq1

/-- The loop body on a dog that moves and stands on at least one road. -/
theorem tickDog_moving (roads : List Road) (delta : Int) (dog : Dog)
    (hspeed : ¬ (dog.speed_.u = 0 ∧ dog.speed_.v = 0))
    (hroads : RCurrent roads dog.pos_ ≠ []) :
    tickDog roads ((delta : ℚ) / 1000) dog =
      if points_are_close
          (finalPos (RCurrent roads dog.pos_) dog.pos_ (naiveDestination dog delta))
          (naiveDestination dog delta) then
        { dog with pos_ := finalPos (RCurrent roads dog.pos_) dog.pos_ (naiveDestination dog delta) }
      else
        { dog with pos_ := finalPos (RCurrent roads dog.pos_) dog.pos_ (naiveDestination dog delta),
                   speed_ := { u := 0, v := 0 } } := by
  unfold tickDog
  rw [if_neg hspeed]
  simp only [currentRoads_eq, endPosEstimated_eq]
  have hne : (RCurrent roads dog.pos_).isEmpty = false := by
    cases h : RCurrent roads dog.pos_ with
    | nil => exact absurd h hroads
    | cons a l => rfl
  rw [hne]
  by_cases hc : points_are_close
      (finalPos (RCurrent roads dog.pos_) dog.pos_ (naiveDestination dog delta))
      (naiveDestination dog delta) = true
  · simp [hc]
  · simp [hc]

/-! ## The claims about `GameSession::Tick` -/

/-- C1: `GameSession::Tick`, single-road case.  For every dog of a session with non-zero
velocity whose position `P` lies in the band of exactly one road of the map, the position
after the tick is the naive destination `P + V * (delta / 1000)` clamped component-wise
into the band of that road. -/
theorem GameSession.Tick_single_road (s : GameSession) (delta : Int) (dogs : List Dog)
    (ptr : Nat) (dog : Dog) (road : Road)
    (hnodup : s.dogs_.Nodup) (hmem : ptr ∈ s.dogs_) (hdog : dogs[ptr]? = some dog)
    (hspeed : ¬ (dog.speed_.u = 0 ∧ dog.speed_.v = 0))
    (hroad : RCurrent s.map_.roads_ dog.pos_ = [road]) :
    ((s.Tick delta dogs)[ptr]?).map Dog.pos_ =
      some (clampToBand road (naiveDestination dog delta)) := by
  rw [GameSession.Tick_getElem?_eq_some s delta dogs ptr dog hnodup hmem hdog]
  rw [tickDog_moving _ _ _ hspeed (by rw [hroad]; exact List.cons_ne_nil _ _), hroad]
  have hfinal : finalPos [road] dog.pos_ (naiveDestination dog delta) =
      clampToBand road (naiveDestination dog delta) := boundedPos_eq road _
  rw [hfinal]
  split <;> rfl

/-- C1 at the linear move of the scenarios: one road `{x0:0, y0:0, x1:10}`, the dog at
`(0, 0)` with velocity `(1, 0)`, `Tick(1000 ms)` gives the position `(1, 0)`. -/
theorem GameSession.Tick_single_road_witness :
    (((scenario.sessionOf scenario.oneRoadMap).Tick 1000
        [scenario.dogAt { x := 0, y := 0 } { u := 1, v := 0 } "R"])[0]?).map Dog.pos_ =
      some { x := 1, y := 0 } := by
  have h := GameSession.Tick_single_road (scenario.sessionOf scenario.oneRoadMap) 1000
    [scenario.dogAt { x := 0, y := 0 } { u := 1, v := 0 } "R"] 0
    (scenario.dogAt { x := 0, y := 0 } { u := 1, v := 0 } "R") scenario.roadH
    (by simp [scenario.sessionOf]) (by simp [scenario.sessionOf]) rfl
    (by simp [scenario.dogAt])
    (by
      simp [RCurrent, scenario.sessionOf, scenario.oneRoadMap, scenario.dogAt, scenario.roadH,
        Road.HORIZONTAL, InBand]
      norm_num)
  have hp : clampToBand scenario.roadH
      (naiveDestination (scenario.dogAt { x := 0, y := 0 } { u := 1, v := 0 } "R") 1000) =
      { x := 1, y := 0 } := by
    norm_num [clampToBand, naiveDestination, scenario.dogAt, scenario.roadH, Road.HORIZONTAL]
  rw [hp] at h
  exact h


theorem reachSq_nonneg (p p' : PointD) (road : Road) : 0 ≤ reachSq p p' road := by
  unfold reachSq
  positivity

theorem farthestStep_eq (p p' : PointD) (acc : PointD × ℚ) (road : Road) :
    farthestStep p p' acc road =
      if acc.2 < reachSq p p' road then (clampToBand road p', reachSq p p' road) else acc := by
  simp only [farthestStep, boundedPos_eq, distSq, reachSq, gt_iff_lt]

/-- The loop of the junction branch: either no road of the list beats the starting
maximum and the accumulator is returned as it was, or the loop returns the clamped
destination of a road that beats every road before it and is not beaten by any road
after it. -/
theorem foldl_farthestStep (p p' : PointD) (l : List Road) (acc : PointD × ℚ) :
    (l.foldl (farthestStep p p') acc = acc ∧ ∀ r ∈ l, reachSq p p' r ≤ acc.2) ∨
    ∃ before road after, l = before ++ road :: after ∧
      l.foldl (farthestStep p p') acc = (clampToBand road p', reachSq p p' road) ∧
      acc.2 < reachSq p p' road ∧
      (∀ r ∈ before, reachSq p p' r < reachSq p p' road) ∧
      (∀ r ∈ after, reachSq p p' r ≤ reachSq p p' road) := by
  induction l generalizing acc with
  | nil => exact Or.inl ⟨rfl, fun r hr => absurd hr (List.not_mem_nil r)⟩
  | cons x rest ih =>
    rw [List.foldl_cons, farthestStep_eq]
    by_cases hx : acc.2 < reachSq p p' x
    · rw [if_pos hx]
      rcases ih (clampToBand x p', reachSq p p' x) with ⟨heq, hall⟩ | ⟨b, r, a, hl, hres, hlt, hb, ha⟩
      · exact Or.inr ⟨[], x, rest, rfl, heq, hx, fun r hr => absurd hr (List.not_mem_nil r), hall⟩
      · refine Or.inr ⟨x :: b, r, a, by rw [hl]; rfl, hres, lt_trans hx hlt, ?_, ha⟩
        intro y hy
        rcases List.mem_cons.mp hy with rfl | hy
        · exact hlt
        · exact hb y hy
    · rw [if_neg hx]
      rcases ih acc with ⟨heq, hall⟩ | ⟨b, r, a, hl, hres, hlt, hb, ha⟩
      · refine Or.inl ⟨heq, ?_⟩
        intro y hy
        rcases List.mem_cons.mp hy with rfl | hy
        · exact not_lt.mp hx
        · exact hall y hy
      · refine Or.inr ⟨x :: b, r, a, by rw [hl]; rfl, hres, hlt, ?_, ha⟩
        intro y hy
        rcases List.mem_cons.mp hy with rfl | hy
        · exact lt_of_le_of_lt (not_lt.mp hx) hlt
        · exact hb y hy

/-- The value `final_pos` for a non-empty `current_roads`, whatever its size: the clamped
destination of the first road among those of greatest reach. -/
theorem finalPos_first_farthest (p p' : PointD) (l : List Road) (hl : l ≠ []) :
    ∃ before road after, l = before ++ road :: after ∧
      finalPos l p p' = clampToBand road p' ∧
      (∀ r ∈ before, reachSq p p' r < reachSq p p' road) ∧
      (∀ r ∈ after, reachSq p p' r ≤ reachSq p p' road) := by
  have hfold : ∃ before road after, l = before ++ road :: after ∧
      (l.foldl (farthestStep p p') (p, -1)).1 = clampToBand road p' ∧
      (∀ r ∈ before, reachSq p p' r < reachSq p p' road) ∧
      (∀ r ∈ after, reachSq p p' r ≤ reachSq p p' road) := by
    rcases foldl_farthestStep p p' l (p, -1) with ⟨_, hall⟩ | ⟨b, r, a, h1, h2, _, h4, h5⟩
    · cases l with
      | nil => exact absurd rfl hl
      | cons x rest =>
        have h1 := hall x (List.mem_cons_self _ _)
        have h2 := reachSq_nonneg p p' x
        simp only at h1
        linarith
    · exact ⟨b, r, a, h1, by rw [h2], h4, h5⟩
  match l, hl, hfold with
  | [road], _, _ =>
    exact ⟨[], road, [], rfl, boundedPos_eq road p', fun r hr => absurd hr (List.not_mem_nil r),
      fun r hr => absurd hr (List.not_mem_nil r)⟩
  | _ :: _ :: _, _, hfold => exact hfold

theorem points_are_close_self (p : PointD) : points_are_close p p = true := by
  simp [points_are_close, is_close]

theorem tickDog_of_zero (roads : List Road) (delta_s : ℚ) (dog : Dog)
    (h : dog.speed_.u = 0 ∧ dog.speed_.v = 0) : tickDog roads delta_s dog = dog := by
  unfold tickDog
  rw [if_pos h]

theorem tickDog_pos (roads : List Road) (delta : Int) (dog : Dog)
    (hspeed : ¬ (dog.speed_.u = 0 ∧ dog.speed_.v = 0))
    (hroads : RCurrent roads dog.pos_ ≠ []) :
    (tickDog roads ((delta : ℚ) / 1000) dog).pos_ =
      finalPos (RCurrent roads dog.pos_) dog.pos_ (naiveDestination dog delta) := by
  rw [tickDog_moving roads delta dog hspeed hroads]
  split <;> rfl

theorem tickDog_speed (roads : List Road) (delta : Int) (dog : Dog)
    (hspeed : ¬ (dog.speed_.u = 0 ∧ dog.speed_.v = 0))
    (hroads : RCurrent roads dog.pos_ ≠ []) :
    (tickDog roads ((delta : ℚ) / 1000) dog).speed_ =
      if points_are_close (tickDog roads ((delta : ℚ) / 1000) dog).pos_
          (naiveDestination dog delta) then dog.speed_
      else { u := 0, v := 0 } := by
  rw [tickDog_pos roads delta dog hspeed hroads, tickDog_moving roads delta dog hspeed hroads]
  split <;> rfl

theorem RCurrent_ne_nil (roads : List Road) (p : PointD) (road : Road) (h : road ∈ roads)
    (hin : InBand road p) : RCurrent roads p ≠ [] :=
  List.ne_nil_of_mem (List.mem_filter.mpr ⟨h, decide_eq_true hin⟩)

theorem mem_RCurrent (roads : List Road) (p : PointD) (road : Road) :
    road ∈ RCurrent roads p ↔ road ∈ roads ∧ InBand road p := by
  unfold RCurrent
  rw [List.mem_filter, decide_eq_true_iff]

/-- The value `final_pos` is the clamped destination of a road of `R_current`. -/
theorem finalPos_mem (roads : List Road) (p p' : PointD) (h : RCurrent roads p ≠ []) :
    ∃ road, road ∈ roads ∧ InBand road p ∧
      finalPos (RCurrent roads p) p p' = clampToBand road p' := by
  obtain ⟨b, r, a, hl, hfinal, -, -⟩ := finalPos_first_farthest p p' _ h
  have hr : r ∈ RCurrent roads p := by rw [hl]; simp
  exact ⟨r, ((mem_RCurrent roads p r).mp hr).1, ((mem_RCurrent roads p r).mp hr).2, hfinal⟩

/-- C4 (as amended): for every dog of a session that stands in the band of at least one
road of the map, and every delta, after `GameSession::Tick` the position of the dog lies in
the band of a road that also contained its position before the tick. -/
theorem GameSession.Tick_stays_on_road (s : GameSession) (delta : Int) (dogs : List Dog)
    (ptr : Nat) (dog : Dog)
    (hnodup : s.dogs_.Nodup) (hmem : ptr ∈ s.dogs_) (hdog : dogs[ptr]? = some dog)
    (hon : ∃ road ∈ s.map_.roads_, InBand road dog.pos_) :
    StaysOnARoad s delta dogs ptr := by
  obtain ⟨road, hroad, hin⟩ := hon
  have htick := GameSession.Tick_getElem?_eq_some s delta dogs ptr dog hnodup hmem hdog
  by_cases hspeed : dog.speed_.u = 0 ∧ dog.speed_.v = 0
  · rw [tickDog_of_zero _ _ _ hspeed] at htick
    exact ⟨dog, dog, road, hdog, htick, hroad, hin, hin⟩
  · have hne := RCurrent_ne_nil _ _ road hroad hin
    obtain ⟨r, hr, hrin, hfinal⟩ :=
      finalPos_mem s.map_.roads_ dog.pos_ (naiveDestination dog delta) hne
    refine ⟨dog, _, r, hdog, htick, hr, hrin, ?_⟩
    rw [tickDog_pos _ _ _ hspeed hne, hfinal]
    exact clampToBand_inBand r _

/-- C4 (as amended) at the clamp of the scenarios: the dog at `(0, 0)` of the one-road map
with velocity `(1, 0)` and `Tick(100000 ms)`. -/
theorem GameSession.Tick_stays_on_road_witness :
    StaysOnARoad (scenario.sessionOf scenario.oneRoadMap) 100000
      [scenario.dogAt { x := 0, y := 0 } { u := 1, v := 0 } "R"] 0 :=
  GameSession.Tick_stays_on_road (scenario.sessionOf scenario.oneRoadMap) 100000
    [scenario.dogAt { x := 0, y := 0 } { u := 1, v := 0 } "R"] 0
    (scenario.dogAt { x := 0, y := 0 } { u := 1, v := 0 } "R")
    (by simp [scenario.sessionOf]) (by simp [scenario.sessionOf]) rfl
    ⟨scenario.roadH, by simp [scenario.sessionOf, scenario.oneRoadMap],
      by norm_num [InBand, scenario.dogAt, scenario.roadH, Road.HORIZONTAL]⟩

/-- C4 fails as stated on a map without roads: the dog that `AddDog` spawns there stands at
`(0, 0)`, and after `Tick(1000 ms)` its position is in the band of no road at all. -/
theorem GameSession.Tick_stays_on_road_counterexample :
    GameSession.AddDog
        { map_ := scenario.emptyMap, dogs_ := [], randomize_spawn_points_ := false }
        0 (Dog.ofName "alice") 0 0 =
      some (scenario.sessionOf scenario.emptyMap, Dog.ofName "alice") ∧
    ¬ StaysOnARoad (scenario.sessionOf scenario.emptyMap) 1000 [Dog.ofName "alice"] 0 := by
  refine ⟨rfl, ?_⟩
  rintro ⟨_, _, road, _, _, hroad, _, _⟩
  exact absurd hroad (List.not_mem_nil road)

theorem points_are_close_iff (p1 p2 : PointD) :
    points_are_close p1 p2 = true ↔
      ¬ (1 / 10 ^ 9 ≤ |p1.x - p2.x| ∨ 1 / 10 ^ 9 ≤ |p1.y - p2.y|) := by
  simp only [points_are_close, is_close, Bool.and_eq_true, decide_eq_true_eq, not_or, not_le]

theorem speed_ne_zero (dog : Dog) (hspeed : ¬ (dog.speed_.u = 0 ∧ dog.speed_.v = 0)) :
    dog.speed_ ≠ { u := 0, v := 0 } := by
  intro h
  apply hspeed
  rw [h]
  exact ⟨rfl, rfl⟩

/-- C5: velocity after a tick.  For every dog of a session with non-zero velocity that
stands on at least one road, `GameSession::Tick` leaves the velocity `(0, 0)` exactly when
the final position differs from the naive destination `P'` by `1e-9` or more in the x or
in the y coordinate, and otherwise leaves the velocity as it was. -/
theorem GameSession.Tick_velocity (s : GameSession) (delta : Int) (dogs : List Dog)
    (ptr : Nat) (dog : Dog)
    (hnodup : s.dogs_.Nodup) (hmem : ptr ∈ s.dogs_) (hdog : dogs[ptr]? = some dog)
    (hspeed : ¬ (dog.speed_.u = 0 ∧ dog.speed_.v = 0))
    (hon : ∃ road ∈ s.map_.roads_, InBand road dog.pos_) :
    ∃ dog', (s.Tick delta dogs)[ptr]? = some dog' ∧
      (dog'.speed_ = { u := 0, v := 0 } ↔
        (1 / 10 ^ 9 ≤ |dog'.pos_.x - (naiveDestination dog delta).x| ∨
          1 / 10 ^ 9 ≤ |dog'.pos_.y - (naiveDestination dog delta).y|)) ∧
      (¬ (1 / 10 ^ 9 ≤ |dog'.pos_.x - (naiveDestination dog delta).x| ∨
          1 / 10 ^ 9 ≤ |dog'.pos_.y - (naiveDestination dog delta).y|) →
        dog'.speed_ = dog.speed_) := by
  obtain ⟨road, hroad, hin⟩ := hon
  have hne := RCurrent_ne_nil _ _ road hroad hin
  refine ⟨_, GameSession.Tick_getElem?_eq_some s delta dogs ptr dog hnodup hmem hdog, ?_, ?_⟩
  · rw [tickDog_speed _ _ _ hspeed hne]
    by_cases hc : points_are_close (tickDog s.map_.roads_ ((delta : ℚ) / 1000) dog).pos_
        (naiveDestination dog delta) = true
    · rw [if_pos hc]
      have hnot := (points_are_close_iff _ _).mp hc
      exact ⟨fun h => absurd h (speed_ne_zero dog hspeed), fun h => absurd h hnot⟩
    · rw [if_neg hc]
      have hfar := not_not.mp (fun h => hc ((points_are_close_iff _ _).mpr h))
      exact ⟨fun _ => hfar, fun _ => rfl⟩
  · intro hnot
    rw [tickDog_speed _ _ _ hspeed hne, if_pos ((points_are_close_iff _ _).mpr hnot)]

/-- C5 at the perpendicular move of the scenarios: one road `{x0:0, y0:0, x1:10}`, the dog
at `(0, 0)` with velocity `(0, 1)`, `Tick(1000 ms)` gives the position `(0, 0.4)` and the
velocity `(0, 0)`. -/
theorem GameSession.Tick_velocity_witness :
    ((scenario.sessionOf scenario.oneRoadMap).Tick 1000
        [scenario.dogAt { x := 0, y := 0 } { u := 0, v := 1 } "D"])[0]? =
      some (scenario.dogAt { x := 0, y := 2 / 5 } { u := 0, v := 0 } "D") := by
  obtain ⟨dog', htick, hiff, -⟩ :=
    GameSession.Tick_velocity (scenario.sessionOf scenario.oneRoadMap) 1000
      [scenario.dogAt { x := 0, y := 0 } { u := 0, v := 1 } "D"] 0
      (scenario.dogAt { x := 0, y := 0 } { u := 0, v := 1 } "D")
      (by simp [scenario.sessionOf]) (by simp [scenario.sessionOf]) rfl
      (by simp [scenario.dogAt])
      ⟨scenario.roadH, by simp [scenario.sessionOf, scenario.oneRoadMap],
        by norm_num [InBand, scenario.dogAt, scenario.roadH, Road.HORIZONTAL]⟩
  have hbody := GameSession.Tick_getElem?_eq_some (scenario.sessionOf scenario.oneRoadMap) 1000
    [scenario.dogAt { x := 0, y := 0 } { u := 0, v := 1 } "D"] 0
    (scenario.dogAt { x := 0, y := 0 } { u := 0, v := 1 } "D")
    (by simp [scenario.sessionOf]) (by simp [scenario.sessionOf]) rfl
  have hsame : dog' = tickDog (scenario.sessionOf scenario.oneRoadMap).map_.roads_
      (((1000 : Int) : ℚ) / 1000)
      (scenario.dogAt { x := 0, y := 0 } { u := 0, v := 1 } "D") :=
    Option.some.inj (htick.symm.trans hbody)
  have hne : RCurrent (scenario.sessionOf scenario.oneRoadMap).map_.roads_
      (scenario.dogAt { x := 0, y := 0 } { u := 0, v := 1 } "D").pos_ = [scenario.roadH] := by
    simp [RCurrent, scenario.sessionOf, scenario.oneRoadMap, scenario.dogAt, scenario.roadH,
      Road.HORIZONTAL, InBand]
    norm_num
  have hpos : dog'.pos_ = { x := 0, y := 2 / 5 } := by
    rw [hsame, tickDog_pos _ _ _ (by simp [scenario.dogAt]) (by rw [hne]; simp), hne]
    show boundedPos _ _ = _
    rw [boundedPos_eq]
    norm_num [clampToBand, naiveDestination, scenario.dogAt, scenario.roadH, Road.HORIZONTAL]
  have hvel : dog'.speed_ = { u := 0, v := 0 } := by
    apply hiff.mpr
    rw [hpos]
    right
    norm_num [naiveDestination, scenario.dogAt, le_abs]
  have hrest : dog'.id_ = 0 ∧ dog'.name_ = "alice" ∧ dog'.dir_ = "D" := by
    rw [hsame, tickDog_moving _ _ _ (by simp [scenario.dogAt]) (by rw [hne]; simp)]
    split <;> exact ⟨rfl, rfl, rfl⟩
  rw [htick]
  cases dog'
  simp only at hpos hvel hrest
  obtain ⟨h1, h2, h3⟩ := hrest
  subst hpos hvel h1 h2 h3
  rfl

/-- A destination outside the band of a road is clamped onto the border of the band. -/
theorem clampToBand_onBoundary (road : Road) (p : PointD) (h : ¬ InBand road p) :
    OnBandBoundary road (clampToBand road p) := by
  refine ⟨clampToBand_inBand road p, ?_⟩
  have hx := borders_x_le road
  have hy := borders_y_le road
  unfold InBand at h
  unfold clampToBand
  simp only
  by_cases h1 : min (road.start_.x : ℚ) (road.end_.x : ℚ) - 2 / 5 ≤ p.x
  · by_cases h2 : p.x ≤ max (road.start_.x : ℚ) (road.end_.x : ℚ) + 2 / 5
    · by_cases h3 : min (road.start_.y : ℚ) (road.end_.y : ℚ) - 2 / 5 ≤ p.y
      · have h4 : ¬ p.y ≤ max (road.start_.y : ℚ) (road.end_.y : ℚ) + 2 / 5 :=
          fun h4 => h ⟨h1, h2, h3, h4⟩
        right; right; right
        rw [min_eq_left (not_le.mp h4).le, max_eq_right hy]
      · right; right; left
        rw [max_eq_left]
        exact le_trans (min_le_right _ _) (not_le.mp h3).le
    · right; left
      rw [min_eq_left (not_le.mp h2).le, max_eq_right hx]
  · left
    rw [max_eq_left]
    exact le_trans (min_le_right _ _) (not_le.mp h1).le

/-- A destination at least `1e-9` beyond the band of a road is not close to its clamp. -/
theorem not_close_of_beyondBand (road : Road) (p : PointD) (h : BeyondBand road p) :
    points_are_close (clampToBand road p) p = false := by
  have hx := borders_x_le road
  have hy := borders_y_le road
  rw [Bool.eq_false_iff]
  intro hc
  apply (points_are_close_iff _ _).mp hc
  unfold clampToBand
  simp only
  have heps : (0 : ℚ) < 1 / 10 ^ 9 := by positivity
  rcases h with h | h | h | h
  · left
    rw [max_eq_left (le_trans (min_le_right _ _) (by linarith)), le_abs]
    left; linarith
  · left
    have hle : max (road.start_.x : ℚ) (road.end_.x : ℚ) + 2 / 5 ≤ p.x := by linarith
    rw [min_eq_left hle, max_eq_right hx, le_abs]
    right; linarith
  · right
    rw [max_eq_left (le_trans (min_le_right _ _) (by linarith)), le_abs]
    left; linarith
  · right
    have hle : max (road.start_.y : ℚ) (road.end_.y : ℚ) + 2 / 5 ≤ p.y := by linarith
    rw [min_eq_left hle, max_eq_right hy, le_abs]
    right; linarith

/-- C6 (as amended): for every dog of a session with non-zero velocity that stands on at
least one road, if the naive destination `P'` lies outside the band of every road of
`R_current`, then after `GameSession::Tick` the position lies on the border of the band of
a road of `R_current`; and the velocity is `(0, 0)` when `P'` lies at least `1e-9` beyond
every band of `R_current` in one of its coordinates. -/
theorem GameSession.Tick_outside (s : GameSession) (delta : Int) (dogs : List Dog)
    (ptr : Nat) (dog : Dog)
    (hnodup : s.dogs_.Nodup) (hmem : ptr ∈ s.dogs_) (hdog : dogs[ptr]? = some dog)
    (hspeed : ¬ (dog.speed_.u = 0 ∧ dog.speed_.v = 0))
    (hon : ∃ road ∈ s.map_.roads_, InBand road dog.pos_)
    (hout : ∀ road ∈ RCurrent s.map_.roads_ dog.pos_,
      ¬ InBand road (naiveDestination dog delta)) :
    ∃ dog' road, (s.Tick delta dogs)[ptr]? = some dog' ∧
      road ∈ RCurrent s.map_.roads_ dog.pos_ ∧ OnBandBoundary road dog'.pos_ ∧
      ((∀ r ∈ RCurrent s.map_.roads_ dog.pos_, BeyondBand r (naiveDestination dog delta)) →
        dog'.speed_ = { u := 0, v := 0 }) := by
  obtain ⟨road, hroad, hin⟩ := hon
  have hne := RCurrent_ne_nil _ _ road hroad hin
  obtain ⟨r, hr, hrin, hfinal⟩ :=
    finalPos_mem s.map_.roads_ dog.pos_ (naiveDestination dog delta) hne
  have hrcur : r ∈ RCurrent s.map_.roads_ dog.pos_ := (mem_RCurrent _ _ r).mpr ⟨hr, hrin⟩
  have hpos := tickDog_pos s.map_.roads_ delta dog hspeed hne
  rw [hfinal] at hpos
  refine ⟨_, r, GameSession.Tick_getElem?_eq_some s delta dogs ptr dog hnodup hmem hdog,
    hrcur, ?_, ?_⟩
  · rw [hpos]
    exact clampToBand_onBoundary r _ (hout r hrcur)
  · intro hfar
    rw [tickDog_speed _ _ _ hspeed hne, hpos, not_close_of_beyondBand r _ (hfar r hrcur)]
    rfl

/-- C6 (as amended) at the clamp of the scenarios: one road `{x0:0, y0:0, x1:10}`, the dog
at `(0, 0)` with velocity `(1, 0)`, `Tick(100000 ms)`: the dog stops on the border of the
band of the road. -/
theorem GameSession.Tick_outside_witness :
    StopsOnBoundary (scenario.sessionOf scenario.oneRoadMap) 100000
      [scenario.dogAt { x := 0, y := 0 } { u := 1, v := 0 } "R"] 0 := by
  have hcur : RCurrent (scenario.sessionOf scenario.oneRoadMap).map_.roads_
      (scenario.dogAt { x := 0, y := 0 } { u := 1, v := 0 } "R").pos_ = [scenario.roadH] := by
    simp [RCurrent, scenario.sessionOf, scenario.oneRoadMap, scenario.dogAt, scenario.roadH,
      Road.HORIZONTAL, InBand]
    norm_num
  obtain ⟨dog', road, htick, hroad, hborder, hvel⟩ :=
    GameSession.Tick_outside (scenario.sessionOf scenario.oneRoadMap) 100000
      [scenario.dogAt { x := 0, y := 0 } { u := 1, v := 0 } "R"] 0
      (scenario.dogAt { x := 0, y := 0 } { u := 1, v := 0 } "R")
      (by simp [scenario.sessionOf]) (by simp [scenario.sessionOf]) rfl
      (by simp [scenario.dogAt])
      ⟨scenario.roadH, by simp [scenario.sessionOf, scenario.oneRoadMap],
        by norm_num [InBand, scenario.dogAt, scenario.roadH, Road.HORIZONTAL]⟩
      (by
        rw [hcur]
        intro road hroad
        rw [List.mem_singleton.mp hroad]
        norm_num [InBand, naiveDestination, scenario.dogAt, scenario.roadH, Road.HORIZONTAL])
  refine ⟨_, dog', road, rfl, htick, hroad, hborder, hvel ?_⟩
  rw [hcur]
  intro r hr
  rw [List.mem_singleton.mp hr]
  norm_num [BeyondBand, naiveDestination, scenario.dogAt, scenario.roadH, Road.HORIZONTAL]

/-- C6 fails as stated when the destination is outside the band by less than `1e-9`: on
the one-road map the dog at `(0, 0)` with velocity `(10.4000000005, 0)` has, for
`Tick(1000 ms)`, its destination outside the only band of `R_current`, is clamped to
`(10.4, 0)` and keeps its velocity. -/
theorem GameSession.Tick_outside_counterexample :
    (∀ road ∈ RCurrent (scenario.sessionOf scenario.oneRoadMap).map_.roads_
        (scenario.dogAt { x := 0, y := 0 } { u := 52 / 5 + 1 / (2 * 10 ^ 9), v := 0 } "R").pos_,
      ¬ InBand road (naiveDestination
        (scenario.dogAt { x := 0, y := 0 } { u := 52 / 5 + 1 / (2 * 10 ^ 9), v := 0 } "R") 1000)) ∧
    ((scenario.sessionOf scenario.oneRoadMap).Tick 1000
        [scenario.dogAt { x := 0, y := 0 } { u := 52 / 5 + 1 / (2 * 10 ^ 9), v := 0 } "R"])[0]? =
      some (scenario.dogAt { x := 52 / 5, y := 0 }
        { u := 52 / 5 + 1 / (2 * 10 ^ 9), v := 0 } "R") ∧
    ¬ StopsOnBoundary (scenario.sessionOf scenario.oneRoadMap) 1000
      [scenario.dogAt { x := 0, y := 0 } { u := 52 / 5 + 1 / (2 * 10 ^ 9), v := 0 } "R"] 0 := by
  have hcur : RCurrent (scenario.sessionOf scenario.oneRoadMap).map_.roads_
      (scenario.dogAt { x := 0, y := 0 } { u := 52 / 5 + 1 / (2 * 10 ^ 9), v := 0 } "R").pos_ =
      [scenario.roadH] := by
    simp [RCurrent, scenario.sessionOf, scenario.oneRoadMap, scenario.dogAt, scenario.roadH,
      Road.HORIZONTAL, InBand]
    norm_num
  have hspeed : ¬ ((scenario.dogAt { x := 0, y := 0 }
      { u := 52 / 5 + 1 / (2 * 10 ^ 9), v := 0 } "R").speed_.u = 0 ∧
      (scenario.dogAt { x := 0, y := 0 }
        { u := 52 / 5 + 1 / (2 * 10 ^ 9), v := 0 } "R").speed_.v = 0) := by
    norm_num [scenario.dogAt]
  have htick : ((scenario.sessionOf scenario.oneRoadMap).Tick 1000
      [scenario.dogAt { x := 0, y := 0 } { u := 52 / 5 + 1 / (2 * 10 ^ 9), v := 0 } "R"])[0]? =
      some (scenario.dogAt { x := 52 / 5, y := 0 }
        { u := 52 / 5 + 1 / (2 * 10 ^ 9), v := 0 } "R") := by
    rw [GameSession.Tick_getElem?_eq_some _ 1000 _ 0
      (scenario.dogAt { x := 0, y := 0 } { u := 52 / 5 + 1 / (2 * 10 ^ 9), v := 0 } "R")
      (by simp [scenario.sessionOf]) (by simp [scenario.sessionOf]) rfl,
      tickDog_moving _ _ _ hspeed (by rw [hcur]; simp), hcur]
    have hfinal : finalPos [scenario.roadH]
        (scenario.dogAt { x := 0, y := 0 } { u := 52 / 5 + 1 / (2 * 10 ^ 9), v := 0 } "R").pos_
        (naiveDestination
          (scenario.dogAt { x := 0, y := 0 } { u := 52 / 5 + 1 / (2 * 10 ^ 9), v := 0 } "R") 1000) =
        { x := 52 / 5, y := 0 } := by
      show boundedPos _ _ = _
      rw [boundedPos_eq]
      norm_num [clampToBand, naiveDestination, scenario.dogAt, scenario.roadH, Road.HORIZONTAL]
    rw [hfinal]
    have hclose : points_are_close { x := 52 / 5, y := 0 } (naiveDestination
        (scenario.dogAt { x := 0, y := 0 } { u := 52 / 5 + 1 / (2 * 10 ^ 9), v := 0 } "R") 1000) =
        true := by
      rw [points_are_close_iff]
      norm_num [naiveDestination, scenario.dogAt, abs_lt]
    rw [hclose]
    rfl
  refine ⟨?_, htick, ?_⟩
  · rw [hcur]
    intro road hroad
    rw [List.mem_singleton.mp hroad]
    norm_num [InBand, naiveDestination, scenario.dogAt, scenario.roadH, Road.HORIZONTAL]
  · rintro ⟨_, dog', _, _, htick', _, _, hvel⟩
    rw [htick] at htick'
    rw [← Option.some.inj htick'] at hvel
    norm_num [scenario.dogAt] at hvel

/-! ## Frame properties of the ticks -/

theorem tickDog_frame (roads : List Road) (delta_s : ℚ) (dog : Dog) :
    (tickDog roads delta_s dog).id_ = dog.id_ ∧ (tickDog roads delta_s dog).name_ = dog.name_ ∧
      (tickDog roads delta_s dog).dir_ = dog.dir_ := by
  unfold tickDog
  simp only []
  split_ifs <;> exact ⟨rfl, rfl, rfl⟩

/-- C7: for every session and every game, every dog whose velocity is `(0, 0)` and every
sequence of `Tick` calls with any deltas, the dog after the ticks is the dog before them:
its position is identical and its velocity is still `(0, 0)`. -/
theorem Game.Tick_zero_velocity (g : Game) (s : GameSession) (deltas : List Int)
    (dogs : List Dog) (ptr : Nat) (dog : Dog)
    (hdog : dogs[ptr]? = some dog) (hzero : dog.speed_ = { u := 0, v := 0 }) :
    (deltas.foldl (fun ds delta => s.Tick delta ds) dogs)[ptr]? = some dog ∧
    (deltas.foldl (fun ds delta => g.Tick delta ds) dogs)[ptr]? = some dog := by
  have hkeep : ∀ (roads : List Road) (delta_s : ℚ) (d : Dog),
      d = dog → tickDog roads delta_s d = dog := by
    intro roads delta_s d hd
    rw [hd]
    exact tickDog_of_zero roads delta_s dog (by rw [hzero]; exact ⟨rfl, rfl⟩)
  constructor
  · induction deltas generalizing dogs with
    | nil => exact hdog
    | cons delta rest ih =>
      rw [List.foldl_cons]
      obtain ⟨d', hd', heq⟩ :=
        GameSession.Tick_session_invariant (fun d => d = dog) hkeep s delta dogs ptr dog hdog rfl
      exact ih _ (heq ▸ hd')
  · induction deltas generalizing dogs with
    | nil => exact hdog
    | cons delta rest ih =>
      rw [List.foldl_cons]
      obtain ⟨d', hd', heq⟩ :=
        Game.Tick_game_invariant (fun d => d = dog) hkeep g delta dogs ptr dog hdog rfl
      exact ih _ (heq ▸ hd')

/-- C7 on the junction map: a resting dog at `(5, 0)` next to a moving one, through the
ticks of 1000, 250 and 100000 ms of the session and of a game with that session. -/
theorem Game.Tick_zero_velocity_witness :
    ([1000, 250, 100000].foldl
        (fun ds delta =>
          GameSession.Tick
            { map_ := scenario.junctionMap, dogs_ := [0, 1], randomize_spawn_points_ := false }
            delta ds)
        [scenario.dogAt { x := 5, y := 0 } { u := 0, v := 0 } "D",
         scenario.dogAt { x := 0, y := 0 } { u := 1, v := 0 } "R"])[0]? =
      some (scenario.dogAt { x := 5, y := 0 } { u := 0, v := 0 } "D") ∧
    ([1000, 250, 100000].foldl
        (fun ds delta =>
          Game.Tick
            { default_dog_speed_ := 1, randomize_spawn_points_ := false,
              maps_ := [scenario.junctionMap], map_id_to_index_ := [("m2", 0)],
              sessions_ := [{ map_ := scenario.junctionMap, dogs_ := [0, 1],
                              randomize_spawn_points_ := false }],
              session_id_to_index_ := [("m2", 0)] }
            delta ds)
        [scenario.dogAt { x := 5, y := 0 } { u := 0, v := 0 } "D",
         scenario.dogAt { x := 0, y := 0 } { u := 1, v := 0 } "R"])[0]? =
      some (scenario.dogAt { x := 5, y := 0 } { u := 0, v := 0 } "D") :=
  Game.Tick_zero_velocity _ _ [1000, 250, 100000] _ 0
    (scenario.dogAt { x := 5, y := 0 } { u := 0, v := 0 } "D") rfl rfl

theorem foldl_modifyDog_length (f : Dog → Dog) (ptrs : List Nat) (dogs : List Dog) :
    (ptrs.foldl (fun ds ptr => modifyDog ds ptr f) dogs).length = dogs.length := by
  induction ptrs generalizing dogs with
  | nil => rfl
  | cons p rest ih => rw [List.foldl_cons, ih, length_modifyDog]

theorem GameSession.Tick_length (s : GameSession) (delta : Int) (dogs : List Dog) :
    (s.Tick delta dogs).length = dogs.length :=
  foldl_modifyDog_length _ s.dogs_ dogs

theorem Game.Tick_arena_length (g : Game) (delta : Int) (dogs : List Dog) :
    (g.Tick delta dogs).length = dogs.length := by
  unfold Game.Tick
  generalize g.sessions_ = sessions
  induction sessions generalizing dogs with
  | nil => rfl
  | cons s rest ih => rw [List.foldl_cons, ih, GameSession.Tick_length]

/-- Two arenas of the same size whose dogs agree on a projection, pointer by pointer, have
the same list of projections. -/
theorem map_eq_of_pointwise {β : Type} (proj : Dog → β) (dogs dogs' : List Dog)
    (hlen : dogs'.length = dogs.length)
    (h : ∀ (q : Nat) (d : Dog), dogs[q]? = some d → ∃ d', dogs'[q]? = some d' ∧ proj d' = proj d) :
    dogs'.map proj = dogs.map proj := by
  apply List.ext_getElem?
  intro q
  rw [List.getElem?_map, List.getElem?_map]
  cases hq : dogs[q]? with
  | none =>
    have hge : dogs.length ≤ q := List.getElem?_eq_none_iff.mp hq
    rw [List.getElem?_eq_none (hlen ▸ hge)]
  | some d =>
    obtain ⟨d', hd', hproj⟩ := h q d hq
    rw [hd']
    exact congrArg some hproj

/-- C8: `GameSession::Tick` and `Game::Tick` never change the direction, the id or the name
of any dog: for every state and every delta the arena after the tick holds as many dogs as
before, each with the id, the name and the direction it had. -/
theorem Game.Tick_keeps_direction (g : Game) (s : GameSession) (delta : Int)
    (dogs : List Dog) :
    (s.Tick delta dogs).map (fun d => (d.id_, d.name_, d.dir_)) =
      dogs.map (fun d => (d.id_, d.name_, d.dir_)) ∧
    (g.Tick delta dogs).map (fun d => (d.id_, d.name_, d.dir_)) =
      dogs.map (fun d => (d.id_, d.name_, d.dir_)) := by
  have hkeep : ∀ (c : Nat × String × String) (roads : List Road) (delta_s : ℚ) (d : Dog),
      (d.id_, d.name_, d.dir_) = c →
        ((tickDog roads delta_s d).id_, (tickDog roads delta_s d).name_,
          (tickDog roads delta_s d).dir_) = c := by
    intro c roads delta_s d hd
    obtain ⟨h1, h2, h3⟩ := tickDog_frame roads delta_s d
    rw [h1, h2, h3]
    exact hd
  constructor
  · apply map_eq_of_pointwise _ _ _ (GameSession.Tick_length s delta dogs)
    intro q d hq
    exact GameSession.Tick_session_invariant (fun d' => (d'.id_, d'.name_, d'.dir_) =
      (d.id_, d.name_, d.dir_)) (hkeep _) s delta dogs q d hq rfl
  · apply map_eq_of_pointwise _ _ _ (Game.Tick_arena_length g delta dogs)
    intro q d hq
    exact Game.Tick_game_invariant (fun d' => (d'.id_, d'.name_, d'.dir_) =
      (d.id_, d.name_, d.dir_)) (hkeep _) g delta dogs q d hq rfl

end model

namespace app

/-! ## The claims about `Application::MovePlayer` -/

open model

/-- What `MovePlayer` returns for a player whose two pointers are valid. -/
theorem Application.MovePlayer_eq (a : Application) (player : Player) (move_cmd : String)
    (dog : Dog) (session : GameSession)
    (hdog : a.players_.dogs_[player.dog_]? = some dog)
    (hsession : a.game_.sessions_[player.session_]? = some session) :
    a.MovePlayer player move_cmd =
      some { game_ := a.game_,
             players_ :=
               { dogs_ := a.players_.dogs_.set player.dog_
                   (moveDog (effectiveSpeed a.game_ session.map_) move_cmd dog),
                 players_ := a.players_.players_,
                 token_to_player_ := a.players_.token_to_player_ } } := by
  unfold Application.MovePlayer
  rw [hdog, hsession]

/-- The arena after `MovePlayer`: the dog of the player is replaced, every other dog is as
it was. -/
theorem getElem?_set_moveDog (dogs : List Dog) (ptr : Nat) (dog dog' : Dog)
    (hdog : dogs[ptr]? = some dog) :
    (dogs.set ptr dog')[ptr]? = some dog' ∧
      ∀ q, q ≠ ptr → (dogs.set ptr dog')[q]? = dogs[q]? := by
  have hlt : ptr < dogs.length := by
    by_contra hc
    rw [List.getElem?_eq_none (not_lt.mp hc)] at hdog
    cases hdog
  exact ⟨List.getElem?_set_self hlt, fun q hq => List.getElem?_set_ne (Ne.symm hq)⟩

/-- C9: `Application::MovePlayer` with effective speed `s` maps the command to velocity and
direction as the table says: `L` gives `(-s, 0)` and `L`, `R` gives `(s, 0)` and `R`, `U`
gives `(0, -s)` and `U`, `D` gives `(0, s)` and `D`; the position (with the id and the name)
of the dog, every other dog, the players and the game are left as they were. -/
theorem Application.MovePlayer_table (a : Application) (player : Player) (dog : Dog)
    (session : GameSession)
    (hdog : a.players_.dogs_[player.dog_]? = some dog)
    (hsession : a.game_.sessions_[player.session_]? = some session) :
    ∀ cmd vel, (cmd, vel) ∈
        [("L", ({ u := -effectiveSpeed a.game_ session.map_, v := 0 } : Vec2D)),
         ("R", { u := effectiveSpeed a.game_ session.map_, v := 0 }),
         ("U", { u := 0, v := -effectiveSpeed a.game_ session.map_ }),
         ("D", { u := 0, v := effectiveSpeed a.game_ session.map_ })] →
      ∃ a', a.MovePlayer player cmd = some a' ∧
        a'.players_.dogs_[player.dog_]? = some { dog with speed_ := vel, dir_ := cmd } ∧
        (∀ q, q ≠ player.dog_ → a'.players_.dogs_[q]? = a.players_.dogs_[q]?) ∧
        a'.game_ = a.game_ ∧ a'.players_.players_ = a.players_.players_ ∧
        a'.players_.token_to_player_ = a.players_.token_to_player_ := by
  intro cmd vel hmem
  refine ⟨_, Application.MovePlayer_eq a player cmd dog session hdog hsession, ?_, ?_,
    rfl, rfl, rfl⟩
  · simp only [List.mem_cons, Prod.mk.injEq, List.mem_singleton, List.not_mem_nil,
      or_false] at hmem
    show (a.players_.dogs_.set player.dog_ _)[player.dog_]? = _
    rw [(getElem?_set_moveDog _ _ dog _ hdog).1]
    rcases hmem with ⟨rfl, rfl⟩ | ⟨rfl, rfl⟩ | ⟨rfl, rfl⟩ | ⟨rfl, rfl⟩ <;>
      simp [moveDog]
  · exact (getElem?_set_moveDog _ _ dog _ hdog).2
theorem effectiveSpeed_oneRoadGame :
    effectiveSpeed scenario.oneRoadGame (scenario.sessionOf scenario.oneRoadMap).map_ = 1 := by
  simp [effectiveSpeed, Map.GetDogSpeed, Game.GetDefaultDogSpeed, scenario.oneRoadGame,
    scenario.sessionOf, scenario.oneRoadMap]

/-- C9 at the linear move of the scenarios: on the one-road map with default speed `1.0`,
`MovePlayer(p, "R")` on the freshly spawned dog gives velocity `(1, 0)` and direction `R`
and leaves the position `(0, 0)`. -/
theorem Application.MovePlayer_table_witness :
    ((scenario.appWith (Dog.ofName "alice")).MovePlayer scenario.alice "R").bind
        (fun a' => a'.players_.dogs_[0]?) =
      some (scenario.dogAt { x := 0, y := 0 } { u := 1, v := 0 } "R") := by
  obtain ⟨a', hmove, hdog', -⟩ :=
    Application.MovePlayer_table (scenario.appWith (Dog.ofName "alice")) scenario.alice
      (Dog.ofName "alice") (scenario.sessionOf scenario.oneRoadMap) rfl rfl
      "R" { u := 1, v := 0 }
      (by simp [scenario.appWith, effectiveSpeed_oneRoadGame])
  rw [hmove]
  exact hdog'

/-- C10: `Application::MovePlayer` with the empty command sets the velocity of the dog to
`(0, 0)` and leaves its direction (and everything else of the dog) as it was before the
call; with any command a direction that is one of `L`, `R`, `U`, `D` stays one of them, and
the spawn in `AddDog` starts every dog with `U`. -/
theorem Application.MovePlayer_stop (a : Application) (player : Player) (dog : Dog)
    (session : GameSession)
    (hdog : a.players_.dogs_[player.dog_]? = some dog)
    (hsession : a.game_.sessions_[player.session_]? = some session) :
    (∃ a', a.MovePlayer player "" = some a' ∧
      a'.players_.dogs_[player.dog_]? = some { dog with speed_ := { u := 0, v := 0 } }) ∧
    (∀ cmd, dog.dir_ ∈ ["L", "R", "U", "D"] →
      ∃ a' dog', a.MovePlayer player cmd = some a' ∧
        a'.players_.dogs_[player.dog_]? = some dog' ∧ dog'.dir_ ∈ ["L", "R", "U", "D"]) ∧
    (∀ (s : GameSession) (ptr : Nat) (d : Dog) (road_idx : Nat) (t : ℚ) (s' : GameSession)
        (d' : Dog), s.AddDog ptr d road_idx t = some (s', d') → d'.dir_ = "U") := by
  refine ⟨⟨_, Application.MovePlayer_eq a player "" dog session hdog hsession, ?_⟩, ?_, ?_⟩
  · show (a.players_.dogs_.set player.dog_ _)[player.dog_]? = _
    rw [(getElem?_set_moveDog _ _ dog _ hdog).1]
    simp [moveDog]
  · intro cmd hdir
    refine ⟨_, _, Application.MovePlayer_eq a player cmd dog session hdog hsession,
      (getElem?_set_moveDog _ _ dog _ hdog).1, ?_⟩
    unfold moveDog
    simp only []
    split_ifs <;> simp_all
  · intro s ptr d road_idx t s' d' h
    unfold GameSession.AddDog at h
    simp only [] at h
    split at h
    · rename_i d0 _
      simp only [Option.some.injEq, Prod.mk.injEq] at h
      rw [← h.2]
    · cases h

/-- C10 on the one-road map: the dog at `(3, 0)` moving right with direction `R` is
stopped by the empty command and still faces `R`. -/
theorem Application.MovePlayer_stop_witness :
    ((scenario.appWith (scenario.dogAt { x := 3, y := 0 } { u := 1, v := 0 } "R")).MovePlayer
        scenario.alice "").bind (fun a' => a'.players_.dogs_[0]?) =
      some (scenario.dogAt { x := 3, y := 0 } { u := 0, v := 0 } "R") := by
  obtain ⟨⟨a', hmove, hdog'⟩, -⟩ :=
    Application.MovePlayer_stop
      (scenario.appWith (scenario.dogAt { x := 3, y := 0 } { u := 1, v := 0 } "R"))
      scenario.alice (scenario.dogAt { x := 3, y := 0 } { u := 1, v := 0 } "R")
      (scenario.sessionOf scenario.oneRoadMap) rfl rfl
  rw [hmove]
  exact hdog'

/-! ## The claims about the speed of a move and about a move followed by a tick -/

/-- The dog of the player after `MovePlayer`, for each of the four directions. -/
theorem MovePlayer_dog_of_cmd (a : Application) (player : Player) (dog : Dog)
    (session : GameSession)
    (hdog : a.players_.dogs_[player.dog_]? = some dog)
    (hsession : a.game_.sessions_[player.session_]? = some session)
    (cmd : String) (vel : Vec2D)
    (hmem : (cmd, vel) ∈
        [("L", ({ u := -effectiveSpeed a.game_ session.map_, v := 0 } : Vec2D)),
         ("R", { u := effectiveSpeed a.game_ session.map_, v := 0 }),
         ("U", { u := 0, v := -effectiveSpeed a.game_ session.map_ }),
         ("D", { u := 0, v := effectiveSpeed a.game_ session.map_ })]) :
    ∃ a', a.MovePlayer player cmd = some a' ∧
      a'.players_.dogs_[player.dog_]? = some { dog with speed_ := vel, dir_ := cmd } := by
  refine ⟨_, Application.MovePlayer_eq a player cmd dog session hdog hsession, ?_⟩
  simp only [List.mem_cons, Prod.mk.injEq, List.mem_singleton, List.not_mem_nil,
    or_false] at hmem
  show (a.players_.dogs_.set player.dog_ _)[player.dog_]? = _
  rw [(getElem?_set_moveDog _ _ dog _ hdog).1]
  rcases hmem with ⟨rfl, rfl⟩ | ⟨rfl, rfl⟩ | ⟨rfl, rfl⟩ | ⟨rfl, rfl⟩ <;>
    simp [moveDog]

/-- C11 (as amended): the speed `s` that `MovePlayer` uses for `L`, `R`, `U`, `D` is the
per-map dog speed `v` for every map that has one set with `v` other than `0`; it is the
default dog speed of the catalog for every map that has none set and for every map whose
speed is set to `0`.  The default is `1.0` in a new catalog and is what
`SetDefaultDogSpeed` last stored. -/
theorem Application.MovePlayer_speed (a : Application) (player : Player) (dog : Dog)
    (session : GameSession)
    (hdog : a.players_.dogs_[player.dog_]? = some dog)
    (hsession : a.game_.sessions_[player.session_]? = some session) :
    ∃ s : ℚ,
      (∀ cmd vel, (cmd, vel) ∈
          [("L", ({ u := -s, v := 0 } : Vec2D)), ("R", { u := s, v := 0 }),
           ("U", { u := 0, v := -s }), ("D", { u := 0, v := s })] →
        ∃ a', a.MovePlayer player cmd = some a' ∧
          a'.players_.dogs_[player.dog_]? = some { dog with speed_ := vel, dir_ := cmd }) ∧
      (∀ v, session.map_.dog_speed_ = some v → v ≠ 0 → s = v) ∧
      (session.map_.dog_speed_ = none → s = a.game_.GetDefaultDogSpeed) ∧
      (session.map_.dog_speed_ = some 0 → s = a.game_.GetDefaultDogSpeed) ∧
      Game.fresh.GetDefaultDogSpeed = 1 ∧
      (∀ (g : Game) (v : ℚ), (g.SetDefaultDogSpeed v).GetDefaultDogSpeed = v) ∧
      (∀ (m : Map) (v : ℚ), (m.SetDogSpeed v).dog_speed_ = some v) := by
  refine ⟨effectiveSpeed a.game_ session.map_,
    fun cmd vel h => MovePlayer_dog_of_cmd a player dog session hdog hsession cmd vel h,
    ?_, ?_, ?_, rfl, fun _ _ => rfl, fun _ _ => rfl⟩
  · intro v hv hne
    simp [effectiveSpeed, Map.GetDogSpeed, hv, hne]
  · intro hv
    simp [effectiveSpeed, Map.GetDogSpeed, hv]
  · intro hv
    simp [effectiveSpeed, Map.GetDogSpeed, hv]

/-- C11 (as amended) on the one-road map with its dog speed set to `2`: the command `L`
gives the velocity `(-2, 0)`. -/
theorem Application.MovePlayer_speed_witness :
    ((scenario.appOn (scenario.oneRoadMap.SetDogSpeed 2) (Dog.ofName "alice")).MovePlayer
        scenario.alice "L").bind (fun a' => a'.players_.dogs_[0]?) =
      some (scenario.dogAt { x := 0, y := 0 } { u := -2, v := 0 } "L") := by
  obtain ⟨s, htable, hset, -⟩ :=
    Application.MovePlayer_speed
      (scenario.appOn (scenario.oneRoadMap.SetDogSpeed 2) (Dog.ofName "alice"))
      scenario.alice (Dog.ofName "alice")
      (scenario.sessionOf (scenario.oneRoadMap.SetDogSpeed 2)) rfl rfl
  have hs : s = 2 := hset 2 rfl (by norm_num)
  subst hs
  obtain ⟨a', hmove, hdog'⟩ := htable "L" { u := -2, v := 0 } (by simp)
  rw [hmove]
  exact hdog'

/-- C11 fails as stated for a map whose dog speed is set to `0`: on the one-road map with
`SetDogSpeed(0)` and default speed `1.0`, the command `R` gives the velocity `(1, 0)`, not
`(0, 0)`. -/
theorem Application.MovePlayer_speed_counterexample :
    (scenario.oneRoadMap.SetDogSpeed 0).dog_speed_ = some 0 ∧
    ((scenario.appOn (scenario.oneRoadMap.SetDogSpeed 0) (Dog.ofName "alice")).MovePlayer
        scenario.alice "R").bind (fun a' => a'.players_.dogs_[0]?) =
      some (scenario.dogAt { x := 0, y := 0 } { u := 1, v := 0 } "R") ∧
    (scenario.dogAt { x := 0, y := 0 } { u := 1, v := 0 } "R").speed_ ≠ { u := 0, v := 0 } := by
  refine ⟨rfl, ?_, ?_⟩
  · rw [Application.MovePlayer_eq
      (scenario.appOn (scenario.oneRoadMap.SetDogSpeed 0) (Dog.ofName "alice"))
      scenario.alice "R" (Dog.ofName "alice")
      (scenario.sessionOf (scenario.oneRoadMap.SetDogSpeed 0)) rfl rfl]
    simp [scenario.appOn, scenario.gameOn, scenario.alice, scenario.dogAt, Dog.ofName,
      moveDog, effectiveSpeed, Map.GetDogSpeed, Map.SetDogSpeed, Game.GetDefaultDogSpeed,
      scenario.sessionOf, scenario.oneRoadMap]
  · simp [scenario.dogAt]

/-- With a delta of `0 ms` the loop body of `Tick` leaves the position, the direction, the
id and the name of the dog as they were. -/
theorem tickDog_zero_delta (roads : List Road) (dog : Dog) :
    (tickDog roads (((0 : Int) : ℚ) / 1000) dog).pos_ = dog.pos_ ∧
      (tickDog roads (((0 : Int) : ℚ) / 1000) dog).dir_ = dog.dir_ := by
  refine ⟨?_, (tickDog_frame roads _ dog).2.2⟩
  by_cases hspeed : dog.speed_.u = 0 ∧ dog.speed_.v = 0
  · rw [tickDog_of_zero _ _ _ hspeed]
  · by_cases hroads : RCurrent roads dog.pos_ = []
    · unfold tickDog
      rw [if_neg hspeed]
      simp only [currentRoads_eq, hroads, List.isEmpty_nil, if_true]
    · have hdest : naiveDestination dog 0 = dog.pos_ := by
        simp [naiveDestination]
      obtain ⟨road, -, hin, hfinal⟩ :=
        finalPos_mem roads dog.pos_ (naiveDestination dog 0) hroads
      rw [tickDog_pos roads 0 dog hspeed hroads, hfinal, hdest,
        clampToBand_of_inBand road dog.pos_ hin]

/-- Whatever property of a dog the loop body keeps for the delta of the call,
`Game::Tick` keeps for the dog behind every pointer. -/
theorem Game.Tick_invariant_at (Q : Dog → Prop) (delta : Int)
    (hQ : ∀ roads d, Q d → Q (tickDog roads ((delta : ℚ) / 1000) d))
    (g : Game) (dogs : List Dog) (q : Nat) (d : Dog)
    (hd : dogs[q]? = some d) (hq : Q d) :
    ∃ d', (g.Tick delta dogs)[q]? = some d' ∧ Q d' := by
  unfold Game.Tick
  generalize g.sessions_ = sessions
  induction sessions generalizing dogs d with
  | nil => exact ⟨d, hd, hq⟩
  | cons s rest ih =>
    rw [List.foldl_cons]
    obtain ⟨d1, hd1, hq1⟩ :=
      foldl_modifyDog_invariant _ Q (hQ s.map_.roads_) s.dogs_ dogs q d hd hq
    exact ih _ d1 hd1 hq1

/-- C12: for every player `p` and every command `cmd` of `L`, `R`, `U`, `D` and the empty
string, `MovePlayer(p, cmd)` followed by `Tick(0 ms)` leaves the position of the dog of `p`
as it was, and afterwards the direction of the dog is `cmd`, or the direction it had when
`cmd` is the empty string. -/
theorem Application.MovePlayer_then_Tick_zero (a : Application) (player : Player)
    (dog : Dog) (session : GameSession) (cmd : String)
    (hdog : a.players_.dogs_[player.dog_]? = some dog)
    (hsession : a.game_.sessions_[player.session_]? = some session)
    (hcmd : cmd ∈ ["L", "R", "U", "D", ""]) :
    ∃ a' dog', a.MovePlayer player cmd = some a' ∧
      (a'.game_.Tick 0 a'.players_.dogs_)[player.dog_]? = some dog' ∧
      dog'.pos_ = dog.pos_ ∧ dog'.dir_ = (if cmd = "" then dog.dir_ else cmd) := by
  have hmove := Application.MovePlayer_eq a player cmd dog session hdog hsession
  have hmoved : (a.players_.dogs_.set player.dog_
      (moveDog (effectiveSpeed a.game_ session.map_) cmd dog))[player.dog_]? =
      some (moveDog (effectiveSpeed a.game_ session.map_) cmd dog) :=
    (getElem?_set_moveDog _ _ dog _ hdog).1
  have hfacts : (moveDog (effectiveSpeed a.game_ session.map_) cmd dog).pos_ = dog.pos_ ∧
      (moveDog (effectiveSpeed a.game_ session.map_) cmd dog).dir_ =
        (if cmd = "" then dog.dir_ else cmd) := by
    simp only [List.mem_cons, List.mem_singleton, List.not_mem_nil, or_false] at hcmd
    rcases hcmd with rfl | rfl | rfl | rfl | rfl <;> simp [moveDog]
  obtain ⟨dog', htick, hpos, hdir⟩ :=
    Game.Tick_invariant_at
      (fun d => d.pos_ = dog.pos_ ∧ d.dir_ = (if cmd = "" then dog.dir_ else cmd)) 0
      (fun roads d hd => by
        obtain ⟨h1, h2⟩ := tickDog_zero_delta roads d
        exact ⟨h1.trans hd.1, h2.trans hd.2⟩)
      a.game_ _ player.dog_ _ hmoved hfacts
  exact ⟨_, dog', hmove, htick, hpos, hdir⟩

/-- C12 on the one-road map: the freshly spawned dog, `MovePlayer(p, "D")` and
`Tick(0 ms)`: the dog is still at `(0, 0)` and faces `D`. -/
theorem Application.MovePlayer_then_Tick_zero_witness :
    (((scenario.appWith (Dog.ofName "alice")).MovePlayer scenario.alice "D").bind
        (fun a' => (a'.game_.Tick 0 a'.players_.dogs_)[0]?)).map
        (fun d => (d.pos_, d.dir_)) =
      some ({ x := 0, y := 0 }, "D") := by
  obtain ⟨a', dog', hmove, htick, hpos, hdir⟩ :=
    Application.MovePlayer_then_Tick_zero (scenario.appWith (Dog.ofName "alice"))
      scenario.alice (Dog.ofName "alice") (scenario.sessionOf scenario.oneRoadMap) "D"
      rfl rfl (by simp)
  rw [hmove]
  show Option.map _ ((a'.game_.Tick 0 a'.players_.dogs_)[scenario.alice.dog_]?) = _
  rw [htick]
  show some (dog'.pos_, dog'.dir_) = _
  rw [hpos, hdir]
  rfl

end app

namespace model

/-! ## The claims about the catalog of maps -/

theorem tableFind_assign_self (table : List (String × Nat)) (key : String) (value : Nat) :
    tableFind (tableAssign table key value) key = some value := by
  simp [tableFind, tableAssign]

theorem tableFind_filter_ne (table : List (String × Nat)) (key key' : String)
    (h : key' ≠ key) :
    tableFind (table.filter (fun entry => entry.1 != key)) key' = tableFind table key' := by
  unfold tableFind
  induction table with
  | nil => rfl
  | cons e rest ih =>
    obtain ⟨k, v⟩ := e
    by_cases hk : k = key
    · subst hk
      have hne : (key' == k) = false := by simpa using h
      simp [List.filter_cons, List.lookup_cons, hne, ih]
    · have hkeep : (k != key) = true := by simpa using hk
      rw [List.filter_cons]
      simp only [hkeep, if_true, List.lookup_cons]
      rw [ih]

theorem tableFind_assign_ne (table : List (String × Nat)) (key key' : String) (value : Nat)
    (h : key' ≠ key) :
    tableFind (tableAssign table key value) key' = tableFind table key' := by
  have hne : (key' == key) = false := by simpa using h
  unfold tableAssign
  rw [← tableFind_filter_ne table key key' h]
  simp [tableFind, List.lookup_cons, hne]

theorem tableFind_cons_ne (table : List (String × Nat)) (key key' : String) (value : Nat)
    (h : key' ≠ key) :
    tableFind ((key, value) :: table) key' = tableFind table key' := by
  have hne : (key' == key) = false := by simpa using h
  simp [tableFind, List.lookup_cons, hne]

theorem tableFind_cons_self (table : List (String × Nat)) (key : String) (value : Nat) :
    tableFind ((key, value) :: table) key = some value := by
  simp [tableFind]

/-- What `AddMap` does when the id table already holds the id of the map. -/
theorem Game.AddMap_of_found (g : Game) (map : Map) (index : Nat)
    (h : tableFind g.map_id_to_index_ map.id_ = some index) : g.AddMap map = (false, g) := by
  unfold Game.AddMap tableEmplace
  simp only [h]

/-- What `AddMap` does when the id table does not hold the id of the map. -/
theorem Game.AddMap_of_not_found (g : Game) (map : Map)
    (h : tableFind g.map_id_to_index_ map.id_ = none) :
    g.AddMap map =
      (true, { g with map_id_to_index_ := (map.id_, g.maps_.length) :: g.map_id_to_index_,
                      maps_ := g.maps_ ++ [map] }) := by
  unfold Game.AddMap tableEmplace
  simp only [h]

/-- In a catalog that keeps its invariant the id table holds an id exactly when a map of
the list has it. -/
theorem CatalogOk.find_eq_none_iff (g : Game) (hok : CatalogOk g) (id : String) :
    tableFind g.map_id_to_index_ id = none ↔ ∀ m ∈ g.maps_, m.id_ ≠ id := by
  constructor
  · intro hnone m hm hid
    obtain ⟨i, hi, hget⟩ := List.mem_iff_getElem.mp hm
    have : tableFind g.map_id_to_index_ id = some i :=
      (hok id i).mpr ⟨m, by rw [List.getElem?_eq_getElem hi, hget], hid⟩
    rw [hnone] at this
    cases this
  · intro hall
    cases hfind : tableFind g.map_id_to_index_ id with
    | none => rfl
    | some i =>
      obtain ⟨m, hm, hid⟩ := (hok id i).mp hfind
      exact absurd hid (hall m (List.getElem?_mem hm))

/-- The invariant of the catalog holds in a new `Game` and after every `AddMap`. -/
theorem CatalogOk.fresh : CatalogOk Game.fresh := by
  intro id index
  simp [Game.fresh, tableFind]

theorem CatalogOk.AddMap (g : Game) (map : Map) (hok : CatalogOk g) :
    CatalogOk (g.AddMap map).2 := by
  cases hfind : tableFind g.map_id_to_index_ map.id_ with
  | some i =>
    rw [Game.AddMap_of_found g map i hfind]
    exact hok
  | none =>
    rw [Game.AddMap_of_not_found g map hfind]
    have hfree := (CatalogOk.find_eq_none_iff g hok map.id_).mp hfind
    intro id index
    show tableFind ((map.id_, g.maps_.length) :: g.map_id_to_index_) id = some index ↔
      ∃ m, (g.maps_ ++ [map])[index]? = some m ∧ m.id_ = id
    by_cases hid : id = map.id_
    · subst hid
      rw [tableFind_cons_self]
      constructor
      · intro h
        rw [← Option.some.inj h]
        exact ⟨map, by simp, rfl⟩
      · rintro ⟨m, hm, hmid⟩
        rcases Nat.lt_trichotomy index g.maps_.length with hlt | heq | hgt
        · rw [List.getElem?_append_left hlt] at hm
          exact absurd hmid (hfree m (List.getElem?_mem hm))
        · rw [heq]
        · rw [List.getElem?_eq_none (by simp; omega)] at hm
          cases hm
    · rw [tableFind_cons_ne _ _ _ _ hid, hok id index]
      constructor
      · rintro ⟨m, hm, hmid⟩
        have hlt : index < g.maps_.length := by
          by_contra hc
          rw [List.getElem?_eq_none (not_lt.mp hc)] at hm
          cases hm
        exact ⟨m, by rw [List.getElem?_append_left hlt]; exact hm, hmid⟩
      · rintro ⟨m, hm, hmid⟩
        rcases Nat.lt_trichotomy index g.maps_.length with hlt | heq | hgt
        · rw [List.getElem?_append_left hlt] at hm
          exact ⟨m, hm, hmid⟩
        · rw [heq] at hm
          simp at hm
          exact absurd (hm ▸ hmid).symm hid
        · rw [List.getElem?_eq_none (by simp; omega)] at hm
          cases hm

/-- C19: in a catalog that keeps its invariant (every catalog built by `AddMap` does),
`Game::AddMap` fails with the duplicate-map error exactly when a map with the same id was
already added; a failed `AddMap` leaves the catalog as it was, map list and id table
included, and a successful one appends the map at the end of the map list, enters its id
with that position in the table and changes nothing else. -/
theorem Game.AddMap_duplicate (g : Game) (map : Map) (hok : CatalogOk g) :
    ((g.AddMap map).1 = false ↔ ∃ m ∈ g.maps_, m.id_ = map.id_) ∧
    ((g.AddMap map).1 = false → (g.AddMap map).2 = g) ∧
    ((g.AddMap map).1 = true →
      (g.AddMap map).2.maps_ = g.maps_ ++ [map] ∧
      tableFind (g.AddMap map).2.map_id_to_index_ map.id_ = some g.maps_.length ∧
      (∀ id, id ≠ map.id_ →
        tableFind (g.AddMap map).2.map_id_to_index_ id = tableFind g.map_id_to_index_ id) ∧
      (g.AddMap map).2.sessions_ = g.sessions_ ∧
      (g.AddMap map).2.session_id_to_index_ = g.session_id_to_index_ ∧
      (g.AddMap map).2.default_dog_speed_ = g.default_dog_speed_ ∧
      (g.AddMap map).2.randomize_spawn_points_ = g.randomize_spawn_points_) := by
  cases hfind : tableFind g.map_id_to_index_ map.id_ with
  | some i =>
    rw [Game.AddMap_of_found g map i hfind]
    obtain ⟨m, hm, hid⟩ := (hok map.id_ i).mp hfind
    exact ⟨⟨fun _ => ⟨m, List.getElem?_mem hm, hid⟩, fun _ => rfl⟩, fun _ => rfl,
      fun h => absurd h (by simp)⟩
  | none =>
    rw [Game.AddMap_of_not_found g map hfind]
    have hfree := (CatalogOk.find_eq_none_iff g hok map.id_).mp hfind
    refine ⟨⟨fun h => absurd h (by simp), fun ⟨m, hm, hid⟩ => absurd hid (hfree m hm)⟩,
      fun h => absurd h (by simp), fun _ => ⟨rfl, tableFind_cons_self _ _ _, ?_,
        rfl, rfl, rfl, rfl⟩⟩
    intro id hid
    exact tableFind_cons_ne _ _ _ _ hid

theorem CatalogOk.addMaps (g : Game) (maps : List Map) (hok : CatalogOk g) :
    CatalogOk (g.addMaps maps).2 := by
  induction maps generalizing g with
  | nil => exact hok
  | cons map rest ih => exact ih (g.AddMap map).2 (CatalogOk.AddMap g map hok)

/-- C19 on the catalog of the scenarios: a second map with the id `m1` is refused and the
catalog stays as it was. -/
theorem Game.AddMap_duplicate_witness :
    (scenario.catalog.AddMap { scenario.oneRoadMap with name_ := "Again" }).1 = false ∧
    (scenario.catalog.AddMap { scenario.oneRoadMap with name_ := "Again" }).2 =
      scenario.catalog := by
  have h := Game.AddMap_duplicate scenario.catalog
    { scenario.oneRoadMap with name_ := "Again" }
    (CatalogOk.addMaps Game.fresh _ CatalogOk.fresh)
  have hfail := h.1.mpr ⟨scenario.oneRoadMap, by decide, rfl⟩
  exact ⟨hfail, h.2.1 hfail⟩

/-- The ids of the maps of a catalog that keeps its invariant are pairwise distinct. -/
theorem CatalogOk.ids_nodup (g : Game) (hok : CatalogOk g) :
    (g.maps_.map (fun m => m.id_)).Nodup := by
  rw [List.nodup_iff_getElem?_ne_getElem?]
  intro i j hij hj heq
  rw [List.length_map] at hj
  rw [List.getElem?_map, List.getElem?_map] at heq
  cases hi : g.maps_[i]? with
  | none =>
    have := List.getElem?_eq_none_iff.mp hi
    omega
  | some mi =>
    cases hj' : g.maps_[j]? with
    | none =>
      have := List.getElem?_eq_none_iff.mp hj'
      omega
    | some mj =>
      rw [hi, hj'] at heq
      have hid : mi.id_ = mj.id_ := Option.some.inj heq
      have h1 : tableFind g.map_id_to_index_ mj.id_ = some i := (hok _ i).mpr ⟨mi, hi, hid⟩
      have h2 : tableFind g.map_id_to_index_ mj.id_ = some j := (hok _ j).mpr ⟨mj, hj', rfl⟩
      rw [h1] at h2
      exact absurd (Option.some.inj h2) (by omega)

/-- In a catalog that keeps its invariant `FindMap` never fails, returns a map exactly
when it is the map of the list with the id, and `nullptr` exactly when no map has it. -/
theorem CatalogOk.FindMap (g : Game) (hok : CatalogOk g) (id : String) :
    (∀ m, g.FindMap id = some (some m) ↔ m ∈ g.maps_ ∧ m.id_ = id) ∧
    (g.FindMap id = some none ↔ ∀ m ∈ g.maps_, m.id_ ≠ id) := by
  cases hfind : tableFind g.map_id_to_index_ id with
  | none =>
    have hfree := (CatalogOk.find_eq_none_iff g hok id).mp hfind
    have hres : g.FindMap id = some none := by
      unfold Game.FindMap
      simp only [hfind]
    rw [hres]
    exact ⟨fun m => ⟨fun h => absurd h (by simp), fun ⟨hm, hid⟩ => absurd hid (hfree m hm)⟩,
      ⟨fun _ => hfree, fun _ => rfl⟩⟩
  | some i =>
    obtain ⟨m0, hm0, hid0⟩ := (hok id i).mp hfind
    have hres : g.FindMap id = some (some m0) := by
      unfold Game.FindMap
      simp only [hfind, hm0]
    rw [hres]
    refine ⟨fun m => ⟨fun h => ?_, fun ⟨hm, hid⟩ => ?_⟩, ⟨fun h => absurd h (by simp), fun h =>
      absurd hid0 (h m0 (List.getElem?_mem hm0))⟩⟩
    · have hmm : m0 = m := Option.some.inj (Option.some.inj h)
      exact hmm ▸ ⟨List.getElem?_mem hm0, hid0⟩
    · obtain ⟨j, hj⟩ := List.mem_iff_getElem?.mp hm
      have hfj : tableFind g.map_id_to_index_ id = some j := (hok id j).mpr ⟨m, hj, hid⟩
      rw [hfind] at hfj
      have hij : i = j := Option.some.inj hfj
      rw [← hij, hm0] at hj
      rw [Option.some.inj hj]

/-- The map list after a sequence of `AddMap` calls: the list before, then the maps whose
call succeeded, in the order of the calls. -/
theorem Game.addMaps_maps (g : Game) (maps : List Map) :
    (g.addMaps maps).1.length = maps.length ∧
    (g.addMaps maps).2.maps_ =
      g.maps_ ++ ((maps.zip (g.addMaps maps).1).filter (fun e => e.2)).map (fun e => e.1) := by
  induction maps generalizing g with
  | nil => simp [Game.addMaps]
  | cons map rest ih =>
    obtain ⟨hlen, hmaps⟩ := ih (g.AddMap map).2
    refine ⟨by simp [Game.addMaps, hlen], ?_⟩
    show ((g.AddMap map).2.addMaps rest).2.maps_ = _
    rw [hmaps]
    cases hfind : tableFind g.map_id_to_index_ map.id_ with
    | some i =>
      rw [Game.AddMap_of_found g map i hfind]
      simp [Game.addMaps, Game.AddMap_of_found g map i hfind]
    | none =>
      rw [Game.AddMap_of_not_found g map hfind]
      simp [Game.addMaps, Game.AddMap_of_not_found g map hfind]

/-- C20: after any sequence of `AddMap` calls on a new catalog, `GetMaps` returns the maps
whose call succeeded, in the order of the calls, their ids are pairwise distinct,
`FindMap(id)` returns the map of that list whose id is `id` when there is one and
`nullptr` otherwise, and the id table points at the position of the map with each id. -/
theorem Game.addMaps_lookup (maps : List Map) :
    (Game.fresh.addMaps maps).1.length = maps.length ∧
    (Game.fresh.addMaps maps).2.GetMaps =
      ((maps.zip (Game.fresh.addMaps maps).1).filter (fun e => e.2)).map (fun e => e.1) ∧
    ((Game.fresh.addMaps maps).2.GetMaps.map (fun m => m.id_)).Nodup ∧
    (∀ id m, (Game.fresh.addMaps maps).2.FindMap id = some (some m) ↔
      m ∈ (Game.fresh.addMaps maps).2.GetMaps ∧ m.id_ = id) ∧
    (∀ id, (Game.fresh.addMaps maps).2.FindMap id = some none ↔
      ∀ m ∈ (Game.fresh.addMaps maps).2.GetMaps, m.id_ ≠ id) ∧
    CatalogOk (Game.fresh.addMaps maps).2 := by
  have hok := CatalogOk.addMaps Game.fresh maps CatalogOk.fresh
  obtain ⟨hlen, hmaps⟩ := Game.addMaps_maps Game.fresh maps
  refine ⟨hlen, ?_, CatalogOk.ids_nodup _ hok, fun id m => (CatalogOk.FindMap _ hok id).1 m,
    fun id => (CatalogOk.FindMap _ hok id).2, hok⟩
  show (Game.fresh.addMaps maps).2.maps_ = _
  rw [hmaps]
  rfl

/-! ## The claim about the spawn -/

/-- What `AddDog` returns once the dog has its position. -/
theorem GameSession.AddDog_eq_some (s : GameSession) (ptr : Nat) (dog : Dog) (road_idx : Nat)
    (t : ℚ) (s' : GameSession) (d' : Dog) (h : s.AddDog ptr dog road_idx t = some (s', d')) :
    s' = { s with dogs_ := s.dogs_ ++ [ptr] } ∧ d'.speed_ = { u := 0, v := 0 } ∧
      d'.dir_ = "U" ∧ d'.id_ = dog.id_ ∧ d'.name_ = dog.name_ := by
  unfold GameSession.AddDog at h
  simp only [] at h
  split at h
  · rename_i d0 hd0
    simp only [Option.some.injEq, Prod.mk.injEq] at h
    obtain ⟨h1, h2⟩ := h
    refine ⟨h1.symm, by rw [← h2], by rw [← h2], ?_, ?_⟩
    · rw [← h2]
      show d0.id_ = dog.id_
      split at hd0
      · rw [← Option.some.inj hd0]
      · split at hd0
        · split at hd0
          · rw [← Option.some.inj hd0]
          · cases hd0
        · rw [← Option.some.inj hd0]
    · rw [← h2]
      show d0.name_ = dog.name_
      split at hd0
      · rw [← Option.some.inj hd0]
      · split at hd0
        · split at hd0
          · rw [← Option.some.inj hd0]
          · cases hd0
        · rw [← Option.some.inj hd0]
  · cases h

/-- C18: with the randomize flag off, `GameSession::AddDog` places the dog at `(0, 0)` when
the map has no roads and otherwise at the start point of the first road of the map; in
every mode a spawn sets the velocity `(0, 0)` and the direction `U`, keeps the id and the
name, and appends the dog to the end of the dog list of the session, and the random mode
does spawn for every road index inside the road list. -/
theorem GameSession.AddDog_spawn (s : GameSession) (ptr : Nat) (dog : Dog) (road_idx : Nat)
    (t : ℚ) :
    (s.randomize_spawn_points_ = false → s.map_.roads_ = [] →
      s.AddDog ptr dog road_idx t =
        some ({ s with dogs_ := s.dogs_ ++ [ptr] },
          { dog with pos_ := { x := 0, y := 0 }, speed_ := { u := 0, v := 0 }, dir_ := "U" })) ∧
    (s.randomize_spawn_points_ = false → ∀ first rest, s.map_.roads_ = first :: rest →
      s.AddDog ptr dog road_idx t =
        some ({ s with dogs_ := s.dogs_ ++ [ptr] },
          { dog with pos_ := { x := (first.start_.x : ℚ), y := (first.start_.y : ℚ) },
                     speed_ := { u := 0, v := 0 }, dir_ := "U" })) ∧
    (∀ s' d', s.AddDog ptr dog road_idx t = some (s', d') →
      s' = { s with dogs_ := s.dogs_ ++ [ptr] } ∧ d'.speed_ = { u := 0, v := 0 } ∧
        d'.dir_ = "U" ∧ d'.id_ = dog.id_ ∧ d'.name_ = dog.name_) ∧
    (s.randomize_spawn_points_ = true → road_idx < s.map_.roads_.length →
      ∃ d', s.AddDog ptr dog road_idx t = some ({ s with dogs_ := s.dogs_ ++ [ptr] }, d')) := by
  refine ⟨?_, ?_, fun s' d' h => GameSession.AddDog_eq_some s ptr dog road_idx t s' d' h, ?_⟩
  · intro _ hroads
    unfold GameSession.AddDog
    simp only [hroads]
  · intro hflag first rest hroads
    unfold GameSession.AddDog
    simp only [hroads, hflag]
    rfl
  · intro hflag hidx
    unfold GameSession.AddDog
    cases hroads : s.map_.roads_ with
    | nil =>
      rw [hroads] at hidx
      exact absurd hidx (Nat.not_lt_zero _)
    | cons first rest =>
      have hget : ∃ road, (first :: rest)[road_idx]? = some road := by
        rw [hroads] at hidx
        exact ⟨_, List.getElem?_eq_getElem hidx⟩
      obtain ⟨road, hroad⟩ := hget
      simp only [hflag, hroad, if_true]
      exact ⟨_, rfl⟩

/-- C18 on a map whose first road is the vertical one `{x0:5, y0:0, y1:10}`: the
deterministic spawn puts the dog at `(5, 0)`. -/
theorem GameSession.AddDog_spawn_witness :
    GameSession.AddDog
        { map_ := { scenario.junctionMap with roads_ := [scenario.roadV, scenario.roadH] },
          dogs_ := [], randomize_spawn_points_ := false }
        0 (Dog.ofName "alice") 0 0 =
      some ({ map_ := { scenario.junctionMap with roads_ := [scenario.roadV, scenario.roadH] },
              dogs_ := [0], randomize_spawn_points_ := false },
        scenario.dogAt { x := 5, y := 0 } { u := 0, v := 0 } "U") := by
  have h := (GameSession.AddDog_spawn
    { map_ := { scenario.junctionMap with roads_ := [scenario.roadV, scenario.roadH] },
      dogs_ := [], randomize_spawn_points_ := false }
    0 (Dog.ofName "alice") 0 0).2.1 rfl scenario.roadV [scenario.roadH] rfl
  rw [h]
  simp [scenario.roadV, Road.VERTICAL, scenario.dogAt, Dog.ofName]

end model

namespace app

open model

/-! ## The claims about tokens, joins and player ids -/

theorem digitChar_eq_hexChars (d : Nat) (h : d < 16) :
    Nat.digitChar d = hexChars.getD d '0' := by
  interval_cases d <;> rfl

theorem hexFixed_succ (k n : Nat) :
    hexFixed (k + 1) n = hexFixed k (n / 16) ++ [hexChars.getD (n % 16) '0'] := by
  unfold hexFixed
  rw [List.range_succ, List.map_append]
  congr 1
  · apply List.map_congr_left
    intro i hi
    have hik : i < k := List.mem_range.mp hi
    have hpow : 16 ^ (k + 1 - 1 - i) = 16 * 16 ^ (k - 1 - i) := by
      rw [← Nat.pow_succ']
      congr 1
      omega
    rw [hpow, Nat.div_div_eq_div_mul]
  · simp

theorem hexFixed_length (k n : Nat) : (hexFixed k n).length = k := by
  simp [hexFixed]

theorem hexFixed_of_zero (k : Nat) : hexFixed k 0 = List.replicate k '0' := by
  induction k with
  | zero => rfl
  | succ k ih =>
    rw [hexFixed_succ, Nat.zero_div, ih, List.replicate_succ']
    rfl

theorem hexFixed_mem (k n : Nat) (c : Char) (h : c ∈ hexFixed k n) : c ∈ hexChars := by
  unfold hexFixed at h
  obtain ⟨i, -, rfl⟩ := List.mem_map.mp h
  have hlt : n / 16 ^ (k - 1 - i) % 16 < hexChars.length := Nat.mod_lt _ (by decide)
  rw [List.getD_eq_getElem _ _ hlt]
  exact List.getElem_mem _

/-- The digits `Nat.toDigitsCore` writes for a value below `16 ^ k`: its numeral with some
`m` digits, which the numeral with `k` digits extends by zeros on the left. -/
theorem toDigitsCore_hex (fuel n k : Nat) (ds : List Char) (hfuel : n < fuel)
    (hk : 1 ≤ k) (hn : n < 16 ^ k) :
    ∃ m, 1 ≤ m ∧ m ≤ k ∧ Nat.toDigitsCore 16 fuel n ds = hexFixed m n ++ ds ∧
      hexFixed k n = List.replicate (k - m) '0' ++ hexFixed m n := by
  induction fuel generalizing n k ds with
  | zero => exact absurd hfuel (Nat.not_lt_zero n)
  | succ fuel ih =>
    obtain ⟨k', rfl⟩ : ∃ k', k = k' + 1 := ⟨k - 1, by omega⟩
    have hc : Nat.digitChar (n % 16) = hexChars.getD (n % 16) '0' :=
      digitChar_eq_hexChars _ (Nat.mod_lt _ (by decide))
    simp only [Nat.toDigitsCore]
    by_cases hsmall : n / 16 = 0
    · rw [if_pos hsmall]
      refine ⟨1, le_refl 1, hk, ?_, ?_⟩
      · rw [hexFixed_succ, hc]
        rfl
      · rw [hexFixed_succ, hexFixed_succ, hsmall, hexFixed_of_zero]
        rfl
    · rw [if_neg hsmall]
      have hn16 : 16 ≤ n := by
        by_contra hlt
        exact hsmall (Nat.div_eq_of_lt (not_le.mp hlt))
      have hk' : 1 ≤ k' := by
        by_contra hzero
        have : k' = 0 := by omega
        subst this
        norm_num at hn
        omega
      have hdiv : n / 16 < 16 ^ k' := by
        apply Nat.div_lt_of_lt_mul
        rw [← Nat.pow_succ']
        exact hn
      have hfuel' : n / 16 < fuel := by
        have : n / 16 < n := Nat.div_lt_self (by omega) (by decide)
        omega
      obtain ⟨m, hm1, hmk, hcore, hpad⟩ :=
        ih (n / 16) k' (Nat.digitChar (n % 16) :: ds) hfuel' hk' hdiv
      refine ⟨m + 1, by omega, by omega, ?_, ?_⟩
      · rw [hcore, hexFixed_succ, hc, List.append_assoc]
        rfl
      · rw [hexFixed_succ, hpad, hexFixed_succ, List.append_assoc]
        congr 2
        omega

/-- The stream writes a value below `16 ^ width` as its numeral with `width` digits. -/
theorem streamHex_eq_hexFixed (width value : Nat) (hw : 1 ≤ width)
    (hv : value < 16 ^ width) : streamHex width value = hexFixed width value := by
  obtain ⟨m, -, -, hcore, hpad⟩ :=
    toDigitsCore_hex (value + 1) value width [] (Nat.lt_succ_self value) hw hv
  unfold streamHex Nat.toDigits
  simp only []
  rw [hcore, List.append_nil, hexFixed_length, hpad]

/-- The token of two 64-bit values, in the words of the specification. -/
theorem GenerateToken_eq (a b : Nat) (ha : a < 2 ^ 64) (hb : b < 2 ^ 64) :
    Players.GenerateToken a b = String.mk (hexFixed 16 a ++ hexFixed 16 b) := by
  unfold Players.GenerateToken
  rw [streamHex_eq_hexFixed 16 a (by decide) (by norm_num at ha ⊢; exact ha),
    streamHex_eq_hexFixed 16 b (by decide) (by norm_num at hb ⊢; exact hb)]

/-- C16: for every pair `(a, b)` of 64-bit generator outputs, `GenerateToken` returns a
string of exactly 32 characters, each of them one of `0`-`9`, `a`-`f`, which is the
16-digit zero-padded lower-case hexadecimal numeral of `a` followed by that of `b`. -/
theorem Players.GenerateToken_format (a b : Nat) (ha : a < 2 ^ 64) (hb : b < 2 ^ 64) :
    Players.GenerateToken a b = String.mk (hexFixed 16 a ++ hexFixed 16 b) ∧
    (Players.GenerateToken a b).length = 32 ∧
    ∀ c ∈ (Players.GenerateToken a b).data, c ∈ hexChars := by
  rw [GenerateToken_eq a b ha hb]
  refine ⟨rfl, ?_, ?_⟩
  · show (hexFixed 16 a ++ hexFixed 16 b).length = 32
    rw [List.length_append, hexFixed_length, hexFixed_length]
  · intro c hc
    rcases List.mem_append.mp hc with h | h
    · exact hexFixed_mem 16 a c h
    · exact hexFixed_mem 16 b c h

/-- C16 at the generator outputs `42` and `255`. -/
theorem Players.GenerateToken_format_witness :
    Players.GenerateToken 42 255 = "000000000000002a00000000000000ff" ∧
    (Players.GenerateToken 42 255).length = 32 := by
  have h := Players.GenerateToken_format 42 255 (by norm_num) (by norm_num)
  exact ⟨h.1.trans (by decide), h.2.1⟩

/-- The new player and the new dog are where `Players::Add` says they are. -/
theorem Players.Add_lookup (ps : Players) (dog : Dog) (session gen1 gen2 : Nat) :
    (ps.Add dog session gen1 gen2).2.players_[(ps.Add dog session gen1 gen2).1]? =
      some { dog_ := ps.dogs_.length, session_ := session,
             token_ := Players.GenerateToken gen1 gen2 } ∧
    (ps.Add dog session gen1 gen2).2.dogs_[ps.dogs_.length]? =
      some { dog with id_ := ps.dogs_.length } := by
  constructor
  · show (ps.players_ ++ [_])[ps.players_.length]? = _
    simp
  · show (ps.dogs_ ++ [_])[ps.dogs_.length]? = _
    simp

/-- A join that returns a result, step by step. -/
theorem JoinGame_of_steps (a : Application) (map_id user_name : String)
    (gen1 gen2 road_idx : Nat) (t : ℚ) (map : Map) (session : Nat) (game : Game)
    (s s' : GameSession) (dog : Dog)
    (hmap : a.game_.FindMap map_id = some (some map))
    (hjoin : JoinsSession a.game_ map_id session game)
    (hs : game.sessions_[session]? = some s)
    (hspawn : s.AddDog a.players_.dogs_.length (Dog.ofName user_name) road_idx t =
      some (s', dog)) :
    a.JoinGame map_id user_name gen1 gen2 road_idx t =
      some (some { token := Players.GenerateToken gen1 gen2,
                   player_id := a.players_.dogs_.length },
        { game_ := { game with sessions_ := game.sessions_.set session s' },
          players_ := (a.players_.Add dog session gen1 gen2).2 }) := by
  obtain ⟨h1, h2⟩ := Players.Add_lookup a.players_ dog session gen1 gen2
  unfold Application.JoinGame Application.FindMap
  rcases hjoin with ⟨hfound, rfl⟩ | ⟨hfound, hadd⟩
  · simp only [hmap, hfound, hs, hspawn, h1, h2]
  · simp only [hmap, hfound, hadd, hs, hspawn, h1, h2]

/-- A join that returned a result went through these steps. -/
theorem JoinGame_steps (a : Application) (map_id user_name : String)
    (gen1 gen2 road_idx : Nat) (t : ℚ) (r : JoinGameResult) (a' : Application)
    (h : a.JoinGame map_id user_name gen1 gen2 road_idx t = some (some r, a')) :
    ∃ map session game s s' dog,
      a.game_.FindMap map_id = some (some map) ∧
      JoinsSession a.game_ map_id session game ∧
      game.sessions_[session]? = some s ∧
      s.AddDog a.players_.dogs_.length (Dog.ofName user_name) road_idx t = some (s', dog) ∧
      r = { token := Players.GenerateToken gen1 gen2, player_id := a.players_.dogs_.length } ∧
      a' = { game_ := { game with sessions_ := game.sessions_.set session s' },
             players_ := (a.players_.Add dog session gen1 gen2).2 } := by
  have finish : ∀ map session game s s' dog,
      a.game_.FindMap map_id = some (some map) →
      JoinsSession a.game_ map_id session game →
      game.sessions_[session]? = some s →
      s.AddDog a.players_.dogs_.length (Dog.ofName user_name) road_idx t = some (s', dog) →
      ∃ map session game s s' dog,
        a.game_.FindMap map_id = some (some map) ∧
        JoinsSession a.game_ map_id session game ∧
        game.sessions_[session]? = some s ∧
        s.AddDog a.players_.dogs_.length (Dog.ofName user_name) road_idx t = some (s', dog) ∧
        r = { token := Players.GenerateToken gen1 gen2,
              player_id := a.players_.dogs_.length } ∧
        a' = { game_ := { game with sessions_ := game.sessions_.set session s' },
               players_ := (a.players_.Add dog session gen1 gen2).2 } := by
    intro map session game s s' dog hmap hjoin hs hspawn
    rw [JoinGame_of_steps a map_id user_name gen1 gen2 road_idx t map session game s s' dog
      hmap hjoin hs hspawn] at h
    simp only [Option.some.injEq, Prod.mk.injEq] at h
    exact ⟨map, session, game, s, s', dog, hmap, hjoin, hs, hspawn, h.1.symm, h.2.symm⟩
  have hunfold := h
  unfold Application.JoinGame Application.FindMap at hunfold
  obtain ⟨found_map, hmap⟩ : ∃ found_map, a.game_.FindMap map_id = found_map := ⟨_, rfl⟩
  rcases found_map with _ | _ | map
  · simp only [hmap] at hunfold
    cases hunfold
  · simp only [hmap] at hunfold
    cases hunfold
  rcases hfound : a.game_.FindSession map_id with _ | _ | session
  · simp only [hmap, hfound] at hunfold
    cases hunfold
  · rcases hadd : a.game_.AddSession map_id with _ | ⟨_ | session, game⟩
    · simp only [hmap, hfound, hadd] at hunfold
      cases hunfold
    · simp only [hmap, hfound, hadd] at hunfold
      cases hunfold
    · rcases hs : game.sessions_[session]? with _ | s
      · simp only [hmap, hfound, hadd, hs] at hunfold
        cases hunfold
      · rcases hspawn :
          s.AddDog a.players_.dogs_.length (Dog.ofName user_name) road_idx t with _ | ⟨s', dog⟩
        · simp only [hmap, hfound, hadd, hs, hspawn] at hunfold
          cases hunfold
        · exact finish map session game s s' dog hmap (Or.inr ⟨hfound, hadd⟩) hs hspawn
  · rcases hs : a.game_.sessions_[session]? with _ | s
    · simp only [hmap, hfound, hs] at hunfold
      cases hunfold
    · rcases hspawn :
        s.AddDog a.players_.dogs_.length (Dog.ofName user_name) road_idx t with _ | ⟨s', dog⟩
      · simp only [hmap, hfound, hs, hspawn] at hunfold
        cases hunfold
      · exact finish map session a.game_ s s' dog hmap (Or.inl ⟨hfound, rfl⟩) hs hspawn

/-- A join that returned no result found no map and changed nothing. -/
theorem JoinGame_none_result (a : Application) (map_id user_name : String)
    (gen1 gen2 road_idx : Nat) (t : ℚ) (a' : Application)
    (h : a.JoinGame map_id user_name gen1 gen2 road_idx t = some (none, a')) :
    a.game_.FindMap map_id = some none ∧ a' = a := by
  have hunfold := h
  unfold Application.JoinGame Application.FindMap at hunfold
  obtain ⟨found_map, hmap⟩ : ∃ found_map, a.game_.FindMap map_id = found_map := ⟨_, rfl⟩
  rcases found_map with _ | _ | map
  · simp only [hmap] at hunfold
    cases hunfold
  · simp only [hmap, Option.some.injEq, Prod.mk.injEq, true_and] at hunfold
    exact ⟨hmap, hunfold.symm⟩
  rcases hfound : a.game_.FindSession map_id with _ | _ | session
  · simp only [hmap, hfound] at hunfold
    cases hunfold
  · rcases hadd : a.game_.AddSession map_id with _ | ⟨_ | session, game⟩
    · simp only [hmap, hfound, hadd] at hunfold
      cases hunfold
    · simp only [hmap, hfound, hadd] at hunfold
      cases hunfold
    · rcases hs : game.sessions_[session]? with _ | s
      · simp only [hmap, hfound, hadd, hs] at hunfold
        cases hunfold
      · rcases hspawn :
          s.AddDog a.players_.dogs_.length (Dog.ofName user_name) road_idx t with _ | ⟨s', dog⟩
        · simp only [hmap, hfound, hadd, hs, hspawn] at hunfold
          cases hunfold
        · rw [JoinGame_of_steps a map_id user_name gen1 gen2 road_idx t map session game s s' dog
            hmap (Or.inr ⟨hfound, hadd⟩) hs hspawn] at h
          simp at h
  · rcases hs : a.game_.sessions_[session]? with _ | s
    · simp only [hmap, hfound, hs] at hunfold
      cases hunfold
    · rcases hspawn :
        s.AddDog a.players_.dogs_.length (Dog.ofName user_name) road_idx t with _ | ⟨s', dog⟩
      · simp only [hmap, hfound, hs, hspawn] at hunfold
        cases hunfold
      · rw [JoinGame_of_steps a map_id user_name gen1 gen2 road_idx t map session a.game_ s s'
          dog hmap (Or.inl ⟨hfound, rfl⟩) hs hspawn] at h
        simp at h

/-- The spawn returns whenever the drawn road index is inside the road list (which
`uniform_int_distribution` guarantees) or is not read at all. -/
theorem AddDog_returns (s : GameSession) (ptr : Nat) (dog : Dog) (road_idx : Nat) (t : ℚ)
    (hdraw : s.randomize_spawn_points_ = true → s.map_.roads_ ≠ [] →
      road_idx < s.map_.roads_.length) :
    ∃ s' d', s.AddDog ptr dog road_idx t = some (s', d') := by
  unfold GameSession.AddDog
  cases hroads : s.map_.roads_ with
  | nil => exact ⟨_, _, rfl⟩
  | cons first rest =>
    cases hflag : s.randomize_spawn_points_ with
    | false => exact ⟨_, _, rfl⟩
    | true =>
      have hidx := hdraw hflag (by rw [hroads]; exact List.cons_ne_nil _ _)
      rw [hroads] at hidx
      have hget : (first :: rest)[road_idx]? = some ((first :: rest)[road_idx]) :=
        List.getElem?_eq_getElem hidx
      simp only [hget, if_true]
      exact ⟨_, _, rfl⟩

/-- What `AddSession` returns for a map the catalog finds. -/
theorem AddSession_of_map (g : Game) (map_id : String) (map : Map)
    (hmap : g.FindMap map_id = some (some map)) :
    g.AddSession map_id =
      some (some g.sessions_.length,
        { g with
          sessions_ := g.sessions_ ++
            [{ map_ := map, dogs_ := [], randomize_spawn_points_ := g.randomize_spawn_points_ }],
          session_id_to_index_ :=
            tableAssign g.session_id_to_index_ map_id g.sessions_.length }) := by
  unfold Game.AddSession
  simp only [hmap]

/-- The session `FindSession` returns is in the session list. -/
theorem FindSession_lt (g : Game) (map_id : String) (session : Nat)
    (hfound : g.FindSession map_id = some (some session)) :
    tableFind g.session_id_to_index_ map_id = some session ∧ session < g.sessions_.length := by
  unfold Game.FindSession at hfound
  split at hfound
  · rename_i index hindex
    split at hfound
    · rename_i hlt
      simp only [Option.some.injEq] at hfound
      subst hfound
      exact ⟨hindex, hlt⟩
    · cases hfound
  · simp at hfound

/-- A join to a map of the catalog finds or creates a session that is in the session
list, unless the session table is broken. -/
theorem JoinsSession_exists (g : Game) (map_id : String) (map : Map)
    (hmap : g.FindMap map_id = some (some map)) (hsessions : g.FindSession map_id ≠ none) :
    ∃ session game s, JoinsSession g map_id session game ∧
      game.sessions_[session]? = some s := by
  rcases hfound : g.FindSession map_id with _ | _ | session
  · exact absurd hfound hsessions
  · refine ⟨g.sessions_.length, _,
      { map_ := map, dogs_ := [], randomize_spawn_points_ := g.randomize_spawn_points_ },
      Or.inr ⟨hfound, AddSession_of_map g map_id map hmap⟩, ?_⟩
    simp
  · obtain ⟨-, hlt⟩ := FindSession_lt g map_id session hfound
    exact ⟨session, g, g.sessions_[session], Or.inl ⟨hfound, rfl⟩,
      List.getElem?_eq_getElem hlt⟩

/-- C13: in a catalog that keeps its invariant, `Application::JoinGame` returns no result
when the catalog has no map with the given id, and then changes nothing: the application
afterwards is the application before, with no session, dog, player or token added; it
returns no result only in that case; and when a map with the id exists (the session table
being sound and the drawn road index inside the road list) it returns the generated token
and a player id. -/
theorem Application.JoinGame_map_not_found (a : Application) (map_id user_name : String)
    (gen1 gen2 road_idx : Nat) (t : ℚ) (hok : CatalogOk a.game_) :
    ((∀ m ∈ a.game_.maps_, m.id_ ≠ map_id) →
      a.JoinGame map_id user_name gen1 gen2 road_idx t = some (none, a)) ∧
    (∀ a', a.JoinGame map_id user_name gen1 gen2 road_idx t = some (none, a') →
      (∀ m ∈ a.game_.maps_, m.id_ ≠ map_id) ∧ a' = a) ∧
    ((∃ m ∈ a.game_.maps_, m.id_ = map_id) →
      a.game_.FindSession map_id ≠ none →
      (∀ session game s, JoinsSession a.game_ map_id session game →
        game.sessions_[session]? = some s →
        s.randomize_spawn_points_ = true → s.map_.roads_ ≠ [] →
        road_idx < s.map_.roads_.length) →
      ∃ a', a.JoinGame map_id user_name gen1 gen2 road_idx t =
        some (some { token := Players.GenerateToken gen1 gen2,
                     player_id := a.players_.dogs_.length }, a')) := by
  obtain ⟨hsome, hnone⟩ := CatalogOk.FindMap a.game_ hok map_id
  refine ⟨?_, ?_, ?_⟩
  · intro hfree
    unfold Application.JoinGame Application.FindMap
    simp only [hnone.mpr hfree]
  · intro a' h
    obtain ⟨h1, h2⟩ := JoinGame_none_result a map_id user_name gen1 gen2 road_idx t a' h
    exact ⟨hnone.mp h1, h2⟩
  · rintro ⟨m, hm, hid⟩ hsessions hdraw
    have hmap := (hsome m).mpr ⟨hm, hid⟩
    obtain ⟨session, game, s, hjoin, hs⟩ := JoinsSession_exists a.game_ map_id m hmap hsessions
    obtain ⟨s', dog, hspawn⟩ := AddDog_returns s a.players_.dogs_.length (Dog.ofName user_name)
      road_idx t (hdraw session game s hjoin hs)
    exact ⟨_, JoinGame_of_steps a map_id user_name gen1 gen2 road_idx t m session game s s' dog
      hmap hjoin hs hspawn⟩

/-- C13 at the start of the process with the catalog of the scenarios: a join to the
unknown map `zz` returns nothing and leaves the application as it was, a join to `m1`
returns the token of the generator outputs `42`, `255` and the player id `0`. -/
theorem Application.JoinGame_map_not_found_witness :
    scenario.startApp.JoinGame "zz" "alice" 42 255 0 0 = some (none, scenario.startApp) ∧
    (scenario.startApp.JoinGame "m1" "alice" 42 255 0 0).map (fun r => r.1) =
      some (some { token := "000000000000002a00000000000000ff", player_id := 0 }) := by
  have hok : CatalogOk scenario.startApp.game_ := CatalogOk.addMaps Game.fresh _ CatalogOk.fresh
  refine ⟨(Application.JoinGame_map_not_found scenario.startApp "zz" "alice" 42 255 0 0 hok).1
    (by decide), ?_⟩
  obtain ⟨a', hjoin⟩ :=
    (Application.JoinGame_map_not_found scenario.startApp "m1" "alice" 42 255 0 0 hok).2.2
      ⟨scenario.oneRoadMap, by decide, rfl⟩ (by decide)
      (fun _ _ s _ _ _ hne => List.length_pos.mpr hne)
  have htoken : Players.GenerateToken 42 255 = "000000000000002a00000000000000ff" := by
    decide
  have hlen : scenario.startApp.players_.dogs_.length = 0 := rfl
  rw [hjoin, Option.map_some', htoken, hlen]

/-- The first join of the scenarios, evaluated. -/
theorem firstJoin_eq :
    scenario.startApp.JoinGame "m1" "alice" 42 255 0 0 =
      some (some { token := "000000000000002a00000000000000ff", player_id := 0 },
        scenario.afterFirstJoin) := by
  decide

/-- After a join the session table sends the map id to the session the join went to, and
that session is in the session list. -/
theorem JoinsSession_find (g : Game) (map_id : String) (session : Nat) (game : Game)
    (map : Map) (hmap : g.FindMap map_id = some (some map))
    (hjoin : JoinsSession g map_id session game) :
    tableFind game.session_id_to_index_ map_id = some session ∧
      session < game.sessions_.length := by
  rcases hjoin with ⟨hfound, rfl⟩ | ⟨-, hadd⟩
  · exact FindSession_lt game map_id session hfound
  · rw [AddSession_of_map g map_id map hmap] at hadd
    simp only [Option.some.injEq, Prod.mk.injEq] at hadd
    obtain ⟨hs, hg⟩ := hadd
    subst hs
    rw [← hg]
    exact ⟨tableFind_assign_self _ _ _, by simp⟩

/-- C14: join and lookup round trip.  For every `JoinGame(mapId, userName)` that returns
`(token, playerId)`, `FindByToken(token)` right after it returns the player just
registered, whose token is `token`, whose dog has the id `playerId` and the name
`userName`, and whose session is the session `FindSession(mapId)` returns, which holds
the dog. -/
theorem Application.JoinGame_then_FindByToken (a : Application) (map_id user_name : String)
    (gen1 gen2 road_idx : Nat) (t : ℚ) (r : JoinGameResult) (a' : Application)
    (h : a.JoinGame map_id user_name gen1 gen2 road_idx t = some (some r, a')) :
    a'.FindByToken r.token = some a.players_.players_.length ∧
    ∃ player dog session,
      a'.players_.players_[a.players_.players_.length]? = some player ∧
      player.token_ = r.token ∧
      a'.players_.dogs_[player.dog_]? = some dog ∧
      dog.id_ = r.player_id ∧ dog.name_ = user_name ∧
      a'.game_.FindSession map_id = some (some player.session_) ∧
      a'.game_.sessions_[player.session_]? = some session ∧
      player.dog_ ∈ session.dogs_ := by
  obtain ⟨map, session, game, s, s', dog, hmap, hjoin, hs, hspawn, rfl, rfl⟩ :=
    JoinGame_steps a map_id user_name gen1 gen2 road_idx t r a' h
  obtain ⟨hplayer, hdog⟩ := Players.Add_lookup a.players_ dog session gen1 gen2
  obtain ⟨hs', -, -, -, hname⟩ :=
    GameSession.AddDog_eq_some s a.players_.dogs_.length (Dog.ofName user_name) road_idx t s'
      dog hspawn
  obtain ⟨hfind, hlt⟩ := JoinsSession_find a.game_ map_id session game map hmap hjoin
  refine ⟨tableFind_assign_self _ _ _, _, _, s', hplayer, rfl, hdog, rfl, hname, ?_, ?_, ?_⟩
  · show Game.FindSession { game with sessions_ := game.sessions_.set session s' } map_id = _
    unfold Game.FindSession
    simp only [hfind, List.length_set, hlt, if_true]
  · show (game.sessions_.set session s')[session]? = some s'
    exact List.getElem?_set_self hlt
  · rw [hs']
    simp

/-- C14 at the first join of the scenarios: the returned token looks up the player behind
pointer `0`. -/
theorem Application.JoinGame_then_FindByToken_witness :
    (scenario.startApp.JoinGame "m1" "alice" 42 255 0 0).bind
        (fun out => out.2.FindByToken "000000000000002a00000000000000ff") = some 0 := by
  have h := (Application.JoinGame_then_FindByToken scenario.startApp "m1" "alice" 42 255 0 0
    _ _ firstJoin_eq).1
  rw [firstJoin_eq]
  exact h

/-- What a join that returned a result did to the registry. -/
theorem JoinGame_players (a : Application) (map_id user_name : String)
    (gen1 gen2 road_idx : Nat) (t : ℚ) (r : JoinGameResult) (a' : Application)
    (h : a.JoinGame map_id user_name gen1 gen2 road_idx t = some (some r, a')) :
    r = { token := Players.GenerateToken gen1 gen2, player_id := a.players_.dogs_.length } ∧
    ∃ (dog : Dog) (session : Nat),
      a'.players_.dogs_ = a.players_.dogs_ ++ [{ dog with id_ := a.players_.dogs_.length }] ∧
      a'.players_.players_ = a.players_.players_ ++
        [{ dog_ := a.players_.dogs_.length, session_ := session,
           token_ := Players.GenerateToken gen1 gen2 }] ∧
      a'.players_.token_to_player_ =
        tableAssign a.players_.token_to_player_ (Players.GenerateToken gen1 gen2)
          a.players_.players_.length := by
  obtain ⟨map, session, game, s, s', dog, -, -, -, -, hr, rfl⟩ :=
    JoinGame_steps a map_id user_name gen1 gen2 road_idx t r a' h
  exact ⟨hr, dog, session, rfl, rfl, rfl⟩

/-- The ids along a sequence of joins that starts from a registry whose dogs are numbered
by their position. -/
theorem ids_along_joins (reqs : List JoinRequest) (a : Application)
    (results : List (Option JoinGameResult)) (a' : Application)
    (h : a.joinAll reqs = some (results, a'))
    (hids : a.players_.dogs_.map (fun d => d.id_) = List.range a.players_.dogs_.length) :
    (results.filterMap id).map (fun r : JoinGameResult => r.player_id) =
      List.range' a.players_.dogs_.length (results.filterMap id).length ∧
    a'.players_.dogs_.map (fun d => d.id_) = List.range a'.players_.dogs_.length ∧
    a'.players_.dogs_.length = a.players_.dogs_.length + (results.filterMap id).length := by
  induction reqs generalizing a results with
  | nil =>
    simp only [Application.joinAll, Option.some.injEq, Prod.mk.injEq] at h
    obtain ⟨rfl, rfl⟩ := h
    exact ⟨rfl, hids, rfl⟩
  | cons req rest ih =>
    unfold Application.joinAll at h
    rcases hjoin : a.JoinGame req.map_id req.user_name req.gen1 req.gen2 req.road_idx req.t
      with _ | ⟨r, a1⟩
    · simp only [hjoin] at h
      cases h
    · rcases hrest : a1.joinAll rest with _ | ⟨rs, a2⟩
      · simp only [hjoin, hrest] at h
        cases h
      · simp only [hjoin, hrest, Option.some.injEq, Prod.mk.injEq] at h
        obtain ⟨rfl, rfl⟩ := h
        cases r with
        | none =>
          obtain ⟨-, rfl⟩ := JoinGame_none_result a _ _ _ _ _ _ a1 hjoin
          exact ih a1 rs hrest hids
        | some r =>
          obtain ⟨hr, dog, session, hdogs, -, -⟩ := JoinGame_players a _ _ _ _ _ _ r a1 hjoin
          have hids1 : a1.players_.dogs_.map (fun d => d.id_) =
              List.range a1.players_.dogs_.length := by
            rw [hdogs, List.map_append, hids, List.length_append, List.length_singleton,
              List.range_succ]
            rfl
          have hlen1 : a1.players_.dogs_.length = a.players_.dogs_.length + 1 := by
            rw [hdogs, List.length_append, List.length_singleton]
          obtain ⟨h1, h2, h3⟩ := ih a1 rs hrest hids1
          refine ⟨?_, h2, ?_⟩
          · simp only [List.filterMap_cons, id, List.map_cons, List.length_cons]
            rw [h1, hr, hlen1, List.range'_succ]
          · simp only [List.filterMap_cons, id, List.length_cons]
            rw [h3, hlen1]
            omega

/-- C17: sequential player ids.  `Players::Add` gives the dog the id that is the number of
dogs registered before the call; along any sequence of joins from an empty registry the
successful joins return the player ids `0, 1, 2, ...` in this order (across all maps), so
that the ids are pairwise distinct, and afterwards the `i`-th dog that `GetDogs` returns
has the id `i`, the number of dogs being the number of successful joins. -/
theorem Application.joinAll_ids (g : Game) (reqs : List JoinRequest)
    (results : List (Option JoinGameResult)) (a' : Application)
    (h : Application.joinAll { game_ := g, players_ := Players.fresh } reqs =
      some (results, a')) :
    (∀ (ps : Players) (dog : Dog) (session gen1 gen2 : Nat),
      (ps.Add dog session gen1 gen2).2.dogs_[ps.dogs_.length]? =
        some { dog with id_ := ps.dogs_.length }) ∧
    (results.filterMap id).map (fun r : JoinGameResult => r.player_id) =
      List.range (results.filterMap id).length ∧
    ((results.filterMap id).map (fun r : JoinGameResult => r.player_id)).Nodup ∧
    a'.players_.GetDogs.map (fun d => d.id_) = List.range a'.players_.GetDogs.length ∧
    a'.players_.GetDogs.length = (results.filterMap id).length := by
  obtain ⟨h1, h2, h3⟩ :=
    ids_along_joins reqs { game_ := g, players_ := Players.fresh } results a' h rfl
  have h1' : (results.filterMap id).map (fun r : JoinGameResult => r.player_id) =
      List.range (results.filterMap id).length := by
    rw [h1, List.range_eq_range']
    rfl
  refine ⟨fun ps dog session gen1 gen2 => (Players.Add_lookup ps dog session gen1 gen2).2,
    h1', ?_, h2, ?_⟩
  · rw [h1']
    exact List.nodup_range _
  · show a'.players_.dogs_.length = _
    rw [h3]
    exact Nat.zero_add _

/-- C17 on three joins of the scenarios, the second to an unknown map: the two successful
joins return the player ids `0` and `1`. -/
theorem Application.joinAll_ids_witness :
    (scenario.startApp.joinAll scenario.threeJoins).map
        (fun out => (out.1.filterMap id).map (fun r : JoinGameResult => r.player_id)) =
      some [0, 1] := by
  have hlen : (scenario.startApp.joinAll scenario.threeJoins).map
      (fun out => (out.1.filterMap id).length) = some 2 := by decide
  rcases hrun : scenario.startApp.joinAll scenario.threeJoins with _ | ⟨results, a'⟩
  · rw [hrun] at hlen
    cases hlen
  · rw [hrun] at hlen
    have hlen' : (results.filterMap id).length = 2 := Option.some.inj hlen
    have h := (Application.joinAll_ids scenario.catalog scenario.threeJoins results a' hrun).2.1
    rw [hlen'] at h
    rw [Option.map_some']
    exact congrArg some h

theorem hexChars_getD_inj :
    ∀ x, x < 16 → ∀ y, y < 16 → hexChars.getD x '0' = hexChars.getD y '0' → x = y := by
  decide

/-- Two values below `16 ^ k` with the same numeral of `k` digits are equal. -/
theorem hexFixed_inj (k n n' : Nat) (hn : n < 16 ^ k) (hn' : n' < 16 ^ k)
    (h : hexFixed k n = hexFixed k n') : n = n' := by
  induction k generalizing n n' with
  | zero =>
    norm_num at hn hn'
    omega
  | succ k ih =>
    rw [hexFixed_succ, hexFixed_succ] at h
    obtain ⟨h1, h2⟩ := List.append_inj' h rfl
    have hdiv : n / 16 = n' / 16 :=
      ih (n / 16) (n' / 16)
        (Nat.div_lt_of_lt_mul (by rw [← Nat.pow_succ']; exact hn))
        (Nat.div_lt_of_lt_mul (by rw [← Nat.pow_succ']; exact hn')) h1
    have hmod : n % 16 = n' % 16 :=
      hexChars_getD_inj _ (Nat.mod_lt _ (by decide)) _ (Nat.mod_lt _ (by decide))
        (List.singleton_inj.mp h2)
    omega

/-- Two pairs of 64-bit values with the same token are equal. -/
theorem GenerateToken_inj (a b a' b' : Nat) (ha : a < 2 ^ 64) (hb : b < 2 ^ 64)
    (ha' : a' < 2 ^ 64) (hb' : b' < 2 ^ 64)
    (h : Players.GenerateToken a b = Players.GenerateToken a' b') : a = a' ∧ b = b' := by
  rw [GenerateToken_eq a b ha hb, GenerateToken_eq a' b' ha' hb'] at h
  have hl : hexFixed 16 a ++ hexFixed 16 b = hexFixed 16 a' ++ hexFixed 16 b' :=
    congrArg String.data h
  obtain ⟨h1, h2⟩ := List.append_inj hl (by rw [hexFixed_length, hexFixed_length])
  exact ⟨hexFixed_inj 16 a a' (by norm_num at ha ⊢; exact ha) (by norm_num at ha' ⊢; exact ha') h1,
    hexFixed_inj 16 b b' (by norm_num at hb ⊢; exact hb) (by norm_num at hb' ⊢; exact hb') h2⟩

/-- Registering a player under a token no player has keeps the token invariant. -/
theorem TokensDistinct_add (ps ps' : Players) (token : String) (dog_ptr session : Nat)
    (hinv : TokensDistinct ps)
    (hnew : ∀ p ∈ ps.players_, p.token_ ≠ token)
    (hplayers : ps'.players_ = ps.players_ ++
      [{ dog_ := dog_ptr, session_ := session, token_ := token }])
    (htable : ps'.token_to_player_ = tableAssign ps.token_to_player_ token ps.players_.length) :
    TokensDistinct ps' := by
  obtain ⟨hnodup, hfind⟩ := hinv
  constructor
  · rw [hplayers, List.map_append, List.nodup_append]
    refine ⟨hnodup, List.nodup_singleton _, ?_⟩
    intro tok h1 h2
    obtain ⟨p, hp, rfl⟩ := List.mem_map.mp h1
    rw [List.map_singleton, List.mem_singleton] at h2
    exact hnew p hp h2
  · intro ptr player hplayer
    unfold Players.FindByToken
    rw [htable]
    rw [hplayers] at hplayer
    rcases Nat.lt_trichotomy ptr ps.players_.length with hlt | heq | hgt
    · rw [List.getElem?_append_left hlt] at hplayer
      rw [tableFind_assign_ne _ _ _ _ (hnew player (List.getElem?_mem hplayer))]
      exact hfind ptr player hplayer
    · subst heq
      simp only [List.getElem?_concat_length, Option.some.injEq] at hplayer
      rw [← hplayer]
      exact tableFind_assign_self _ _ _
    · rw [List.getElem?_eq_none (by simp; omega)] at hplayer
      cases hplayer

/-- The token invariant along a sequence of joins whose tokens are pairwise distinct and
new to the registry. -/
theorem tokens_along_joins (reqs : List JoinRequest) (a : Application)
    (results : List (Option JoinGameResult)) (a' : Application)
    (h : a.joinAll reqs = some (results, a'))
    (hinv : TokensDistinct a.players_)
    (hnodup : (reqs.map (fun req => Players.GenerateToken req.gen1 req.gen2)).Nodup)
    (hnew : ∀ p ∈ a.players_.players_,
      p.token_ ∉ reqs.map (fun req => Players.GenerateToken req.gen1 req.gen2)) :
    TokensDistinct a'.players_ := by
  induction reqs generalizing a results with
  | nil =>
    simp only [Application.joinAll, Option.some.injEq, Prod.mk.injEq] at h
    rw [← h.2]
    exact hinv
  | cons req rest ih =>
    rw [List.map_cons, List.nodup_cons] at hnodup
    unfold Application.joinAll at h
    rcases hjoin : a.JoinGame req.map_id req.user_name req.gen1 req.gen2 req.road_idx req.t
      with _ | ⟨r, a1⟩
    · simp only [hjoin] at h
      cases h
    · rcases hrest : a1.joinAll rest with _ | ⟨rs, a2⟩
      · simp only [hjoin, hrest] at h
        cases h
      · simp only [hjoin, hrest, Option.some.injEq, Prod.mk.injEq] at h
        obtain ⟨-, rfl⟩ := h
        cases r with
        | none =>
          obtain ⟨-, rfl⟩ := JoinGame_none_result a _ _ _ _ _ _ a1 hjoin
          exact ih a1 rs hrest hinv hnodup.2
            (fun p hp hmem => hnew p hp (List.mem_cons_of_mem _ hmem))
        | some r =>
          obtain ⟨-, dog, session, -, hplayers, htable⟩ :=
            JoinGame_players a _ _ _ _ _ _ r a1 hjoin
          have hfresh : ∀ p ∈ a.players_.players_,
              p.token_ ≠ Players.GenerateToken req.gen1 req.gen2 :=
            fun p hp heq => hnew p hp (heq ▸ List.mem_cons_self _ _)
          refine ih a1 rs hrest
            (TokensDistinct_add a.players_ a1.players_ _ _ session hinv hfresh hplayers htable)
            hnodup.2 ?_
          intro p hp hmem
          rw [hplayers] at hp
          rcases List.mem_append.mp hp with hp | hp
          · exact hnew p hp (List.mem_cons_of_mem _ hmem)
          · rw [List.mem_singleton] at hp
            rw [hp] at hmem
            exact hnodup.1 hmem

/-- C15 (as amended): after any sequence of joins from an empty registry in which the
pairs of outputs of the two 64-bit generators are pairwise distinct, the tokens of all
registered players are pairwise distinct and `FindByToken` of the token of any player
returns that same player.  (The code never re-rolls a token.) -/
theorem Application.joinAll_tokens (g : Game) (reqs : List JoinRequest)
    (results : List (Option JoinGameResult)) (a' : Application)
    (h : Application.joinAll { game_ := g, players_ := Players.fresh } reqs =
      some (results, a'))
    (hbits : ∀ req ∈ reqs, req.gen1 < 2 ^ 64 ∧ req.gen2 < 2 ^ 64)
    (hdistinct : (reqs.map (fun req => (req.gen1, req.gen2))).Nodup) :
    TokensDistinct a'.players_ := by
  apply tokens_along_joins reqs { game_ := g, players_ := Players.fresh } results a' h
  · exact ⟨List.nodup_nil, fun ptr player hp => by simp [Players.fresh] at hp⟩
  · have hmap : reqs.map (fun req => Players.GenerateToken req.gen1 req.gen2) =
        (reqs.map (fun req => (req.gen1, req.gen2))).map
          (fun pair => Players.GenerateToken pair.1 pair.2) := by
      rw [List.map_map]
      rfl
    rw [hmap]
    apply List.Nodup.map_on _ hdistinct
    intro x hx y hy hxy
    obtain ⟨rx, hrx, rfl⟩ := List.mem_map.mp hx
    obtain ⟨ry, hry, rfl⟩ := List.mem_map.mp hy
    obtain ⟨h1, h2⟩ := GenerateToken_inj _ _ _ _ (hbits rx hrx).1 (hbits rx hrx).2
      (hbits ry hry).1 (hbits ry hry).2 hxy
    exact Prod.ext h1 h2
  · intro p hp
    simp [Players.fresh] at hp

/-- C15 (as amended) on the three joins of the scenarios: the token of the first player
looks up the first player, the token of the second the second. -/
theorem Application.joinAll_tokens_witness :
    (scenario.startApp.joinAll scenario.threeJoins).bind
        (fun out => out.2.FindByToken "000000000000002a00000000000000ff") = some 0 ∧
    (scenario.startApp.joinAll scenario.threeJoins).bind
        (fun out => out.2.FindByToken "000000000000002b00000000000000ff") = some 1 := by
  have hplayers : (scenario.startApp.joinAll scenario.threeJoins).map
      (fun out => out.2.players_.players_) =
      some [{ dog_ := 0, session_ := 0, token_ := "000000000000002a00000000000000ff" },
            { dog_ := 1, session_ := 1, token_ := "000000000000002b00000000000000ff" }] := by
    decide
  rcases hrun : scenario.startApp.joinAll scenario.threeJoins with _ | ⟨results, a'⟩
  · rw [hrun] at hplayers
    cases hplayers
  · rw [hrun] at hplayers
    have hps : a'.players_.players_ =
        [{ dog_ := 0, session_ := 0, token_ := "000000000000002a00000000000000ff" },
         { dog_ := 1, session_ := 1, token_ := "000000000000002b00000000000000ff" }] :=
      Option.some.inj hplayers
    obtain ⟨-, hfind⟩ := Application.joinAll_tokens scenario.catalog scenario.threeJoins
      results a' hrun (by decide) (by decide)
    have h0 := hfind 0 _ (by rw [hps]; rfl)
    have h1 := hfind 1 _ (by rw [hps]; rfl)
    exact ⟨h0, h1⟩

/-- C15 fails as stated when the generators repeat a pair of outputs: nothing is
re-rolled, the two players of `twinJoins` get the same token, and `FindByToken` of the
token of the first player returns the second. -/
theorem Application.joinAll_tokens_counterexample :
    (scenario.startApp.joinAll scenario.twinJoins).map (fun out => out.2) =
      some scenario.afterTwinJoins ∧
    scenario.afterTwinJoins.players_.players_[0]? =
      some { dog_ := 0, session_ := 0, token_ := "000000000000002a00000000000000ff" } ∧
    scenario.afterTwinJoins.FindByToken "000000000000002a00000000000000ff" = some 1 ∧
    ¬ TokensDistinct scenario.afterTwinJoins.players_ := by
  refine ⟨by decide, rfl, by decide, fun h => absurd h.1 (by decide)⟩

end app

namespace model

/-! ## Further claims about `GameSession::Tick` -/

/-- The loop body on a dog that moves and stands on no road. -/
theorem tickDog_off_road (roads : List Road) (delta_s : ℚ) (dog : Dog)
    (hspeed : ¬ (dog.speed_.u = 0 ∧ dog.speed_.v = 0))
    (hroads : RCurrent roads dog.pos_ = []) :
    tickDog roads delta_s dog = { dog with speed_ := { u := 0, v := 0 } } := by
  unfold tickDog
  rw [if_neg hspeed]
  simp only [currentRoads_eq, hroads, List.isEmpty_nil, if_true]

/-- C26: off-road dogs.  For every dog of a session with non-zero velocity whose position
lies in the band of no road of the map (in particular on a map without roads),
`GameSession::Tick` sets the velocity to `(0, 0)` and leaves the position, and everything
else of the dog, as it was. -/
theorem GameSession.Tick_off_road (s : GameSession) (delta : Int) (dogs : List Dog)
    (ptr : Nat) (dog : Dog)
    (hnodup : s.dogs_.Nodup) (hmem : ptr ∈ s.dogs_) (hdog : dogs[ptr]? = some dog)
    (hspeed : ¬ (dog.speed_.u = 0 ∧ dog.speed_.v = 0))
    (hoff : ∀ road ∈ s.map_.roads_, ¬ InBand road dog.pos_) :
    (s.Tick delta dogs)[ptr]? = some { dog with speed_ := { u := 0, v := 0 } } := by
  have hroads : RCurrent s.map_.roads_ dog.pos_ = [] := by
    rw [List.eq_nil_iff_forall_not_mem]
    intro road hroad
    obtain ⟨h1, h2⟩ := (mem_RCurrent _ _ road).mp hroad
    exact hoff road h1 h2
  rw [GameSession.Tick_getElem?_eq_some s delta dogs ptr dog hnodup hmem hdog,
    tickDog_off_road _ _ _ hspeed hroads]

/-- C26 on the map without roads: the dog at `(0, 0)` with velocity `(1, 0)` is stopped
where it stands by `Tick(1000 ms)`. -/
theorem GameSession.Tick_off_road_witness :
    ((scenario.sessionOf scenario.emptyMap).Tick 1000
        [scenario.dogAt { x := 0, y := 0 } { u := 1, v := 0 } "R"])[0]? =
      some (scenario.dogAt { x := 0, y := 0 } { u := 0, v := 0 } "R") :=
  GameSession.Tick_off_road (scenario.sessionOf scenario.emptyMap) 1000
    [scenario.dogAt { x := 0, y := 0 } { u := 1, v := 0 } "R"] 0
    (scenario.dogAt { x := 0, y := 0 } { u := 1, v := 0 } "R")
    (by simp [scenario.sessionOf]) (by simp [scenario.sessionOf]) rfl
    (by simp [scenario.dogAt])
    (fun road hroad => absurd hroad (List.not_mem_nil road))

/-- A coordinate clamped into an interval that contains `p` lies between `p` and the
coordinate. -/
theorem clamp_between (lo hi p v : ℚ) (h1 : lo ≤ p) (h2 : p ≤ hi) :
    min p v ≤ max lo (min hi v) ∧ max lo (min hi v) ≤ max p v := by
  constructor
  · rcases le_total p v with hpv | hvp
    · rw [min_eq_left hpv]
      exact le_max_of_le_right (le_min h2 hpv)
    · rw [min_eq_right hvp]
      exact le_max_of_le_right (le_min (le_trans hvp h2) (le_refl v))
  · exact max_le (le_trans h1 (le_max_left p v)) (le_trans (min_le_right hi v) (le_max_right p v))

/-- A value between `p` and `v` is no farther from `p` than `v` is, and on the same side. -/
theorem between_abs (p v c : ℚ) (h1 : min p v ≤ c) (h2 : c ≤ max p v) :
    |c - p| ≤ |v - p| ∧ 0 ≤ (c - p) * (v - p) := by
  rcases le_total p v with hpv | hvp
  · rw [min_eq_left hpv] at h1
    rw [max_eq_right hpv] at h2
    rw [abs_of_nonneg (by linarith), abs_of_nonneg (by linarith)]
    exact ⟨by linarith, mul_nonneg (by linarith) (by linarith)⟩
  · rw [min_eq_right hvp] at h1
    rw [max_eq_left hvp] at h2
    rw [abs_of_nonpos (by linarith), abs_of_nonpos (by linarith)]
    exact ⟨by linarith, mul_nonneg_of_nonpos_of_nonpos (by linarith) (by linarith)⟩

/-- The clamped destination of a road whose band contains `p` lies, coordinate by
coordinate, between `p` and the destination. -/
theorem clampToBand_between (road : Road) (p p' : PointD) (h : InBand road p) :
    min p.x p'.x ≤ (clampToBand road p').x ∧ (clampToBand road p').x ≤ max p.x p'.x ∧
    min p.y p'.y ≤ (clampToBand road p').y ∧ (clampToBand road p').y ≤ max p.y p'.y := by
  obtain ⟨h1, h2, h3, h4⟩ := h
  obtain ⟨hx1, hx2⟩ := clamp_between _ _ p.x p'.x h1 h2
  obtain ⟨hy1, hy2⟩ := clamp_between _ _ p.y p'.y h3 h4
  exact ⟨hx1, hx2, hy1, hy2⟩

/-- C28: no overshoot.  For every dog of a session moved by `GameSession::Tick` (non-zero
velocity, standing on at least one road) and every delta, each coordinate of the new
position lies between that coordinate of the start position `P` and of the naive
destination `P'`, both included; so the dog travels no farther than `|V| * delta / 1000`
in either coordinate, and for a non-negative delta never against its velocity. -/
theorem GameSession.Tick_no_overshoot (s : GameSession) (delta : Int) (dogs : List Dog)
    (ptr : Nat) (dog : Dog)
    (hnodup : s.dogs_.Nodup) (hmem : ptr ∈ s.dogs_) (hdog : dogs[ptr]? = some dog)
    (hspeed : ¬ (dog.speed_.u = 0 ∧ dog.speed_.v = 0))
    (hon : ∃ road ∈ s.map_.roads_, InBand road dog.pos_) :
    ∃ dog', (s.Tick delta dogs)[ptr]? = some dog' ∧
      (min dog.pos_.x (naiveDestination dog delta).x ≤ dog'.pos_.x ∧
        dog'.pos_.x ≤ max dog.pos_.x (naiveDestination dog delta).x ∧
        min dog.pos_.y (naiveDestination dog delta).y ≤ dog'.pos_.y ∧
        dog'.pos_.y ≤ max dog.pos_.y (naiveDestination dog delta).y) ∧
      (|dog'.pos_.x - dog.pos_.x| ≤ |dog.speed_.u * ((delta : ℚ) / 1000)| ∧
        |dog'.pos_.y - dog.pos_.y| ≤ |dog.speed_.v * ((delta : ℚ) / 1000)|) ∧
      (0 ≤ delta → 0 ≤ (dog'.pos_.x - dog.pos_.x) * dog.speed_.u ∧
        0 ≤ (dog'.pos_.y - dog.pos_.y) * dog.speed_.v) := by
  obtain ⟨road, hroad, hin⟩ := hon
  have hne := RCurrent_ne_nil _ _ road hroad hin
  obtain ⟨r, -, hrin, hfinal⟩ :=
    finalPos_mem s.map_.roads_ dog.pos_ (naiveDestination dog delta) hne
  have hpos := tickDog_pos s.map_.roads_ delta dog hspeed hne
  rw [hfinal] at hpos
  obtain ⟨hx1, hx2, hy1, hy2⟩ := clampToBand_between r dog.pos_ (naiveDestination dog delta) hrin
  obtain ⟨hax, hsx⟩ := between_abs _ _ _ hx1 hx2
  obtain ⟨hay, hsy⟩ := between_abs _ _ _ hy1 hy2
  have hdx : (naiveDestination dog delta).x - dog.pos_.x = dog.speed_.u * ((delta : ℚ) / 1000) := by
    simp [naiveDestination]
  have hdy : (naiveDestination dog delta).y - dog.pos_.y = dog.speed_.v * ((delta : ℚ) / 1000) := by
    simp [naiveDestination]
  rw [hdx] at hax hsx
  rw [hdy] at hay hsy
  refine ⟨_, GameSession.Tick_getElem?_eq_some s delta dogs ptr dog hnodup hmem hdog, ?_, ?_, ?_⟩
  · rw [hpos]
    exact ⟨hx1, hx2, hy1, hy2⟩
  · rw [hpos]
    exact ⟨hax, hay⟩
  · intro hdelta
    rw [hpos]
    have hds : (0 : ℚ) ≤ (delta : ℚ) / 1000 := by
      apply div_nonneg
      · exact_mod_cast hdelta
      · norm_num
    constructor
    · rcases lt_or_eq_of_le hds with hpos' | hzero
      · have := hsx
        rw [← mul_assoc] at this
        exact nonneg_of_mul_nonneg_left this hpos'
      · rw [← hzero, mul_zero] at hax
        have := abs_nonpos_iff.mp hax
        rw [this, zero_mul]
    · rcases lt_or_eq_of_le hds with hpos' | hzero
      · have := hsy
        rw [← mul_assoc] at this
        exact nonneg_of_mul_nonneg_left this hpos'
      · rw [← hzero, mul_zero] at hay
        have := abs_nonpos_iff.mp hay
        rw [this, zero_mul]

/-- C28 at the clamp of the scenarios: the dog at `(0, 0)` with velocity `(1, 0)` and
`Tick(100000 ms)`: the new x coordinate lies between `0` and `100`. -/
theorem GameSession.Tick_no_overshoot_witness :
    (((scenario.sessionOf scenario.oneRoadMap).Tick 100000
        [scenario.dogAt { x := 0, y := 0 } { u := 1, v := 0 } "R"])[0]?).map
        (fun d => decide (0 ≤ d.pos_.x ∧ d.pos_.x ≤ 100)) = some true := by
  obtain ⟨dog', htick, ⟨hx1, hx2, -, -⟩, -⟩ :=
    GameSession.Tick_no_overshoot (scenario.sessionOf scenario.oneRoadMap) 100000
      [scenario.dogAt { x := 0, y := 0 } { u := 1, v := 0 } "R"] 0
      (scenario.dogAt { x := 0, y := 0 } { u := 1, v := 0 } "R")
      (by simp [scenario.sessionOf]) (by simp [scenario.sessionOf]) rfl
      (by simp [scenario.dogAt])
      ⟨scenario.roadH, by simp [scenario.sessionOf, scenario.oneRoadMap],
        by norm_num [InBand, scenario.dogAt, scenario.roadH, Road.HORIZONTAL]⟩
  norm_num [naiveDestination, scenario.dogAt] at hx1 hx2
  rw [htick]
  simp [hx1, hx2]

/-- Clamping in two steps along one direction is clamping in one step. -/
theorem clamp_two_steps (lo hi x v da db : ℚ) (h1 : lo ≤ x) (h2 : x ≤ hi)
    (ha : 0 ≤ da) (hb : 0 ≤ db) :
    max lo (min hi (max lo (min hi (x + v * da)) + v * db)) =
      max lo (min hi (x + v * (da + db))) := by
  have hlohi : lo ≤ hi := le_trans h1 h2
  rcases le_total 0 v with hv | hv
  · have hva : 0 ≤ v * da := mul_nonneg hv ha
    have hvb : 0 ≤ v * db := mul_nonneg hv hb
    rcases le_total (x + v * da) hi with hle | hge
    · rw [min_eq_right hle, max_eq_right (by linarith : lo ≤ x + v * da)]
      congr 2
      ring
    · rw [min_eq_left hge, max_eq_right hlohi, min_eq_left (by linarith : hi ≤ hi + v * db),
        min_eq_left (by nlinarith : hi ≤ x + v * (da + db))]
  · have hva : v * da ≤ 0 := mul_nonpos_of_nonpos_of_nonneg hv ha
    have hvb : v * db ≤ 0 := mul_nonpos_of_nonpos_of_nonneg hv hb
    rcases le_total lo (x + v * da) with hle | hge
    · rw [min_eq_right (by linarith : x + v * da ≤ hi), max_eq_right hle]
      congr 2
      ring
    · rw [min_eq_right (by linarith : x + v * da ≤ hi), max_eq_left hge,
        min_eq_right (by linarith : lo + v * db ≤ hi),
        max_eq_left (by linarith : lo + v * db ≤ lo),
        min_eq_right (by nlinarith : x + v * (da + db) ≤ hi),
        max_eq_left (by nlinarith : x + v * (da + db) ≤ lo)]

/-- A coordinate that the clamp has changed stays where it is when the step grows. -/
theorem clamp_stopped (lo hi x v da db : ℚ) (h1 : lo ≤ x) (h2 : x ≤ hi)
    (ha : 0 ≤ da) (hb : 0 ≤ db) (hne : max lo (min hi (x + v * da)) ≠ x + v * da) :
    max lo (min hi (x + v * (da + db))) = max lo (min hi (x + v * da)) := by
  have hlohi : lo ≤ hi := le_trans h1 h2
  rcases le_total 0 v with hv | hv
  · have hva : 0 ≤ v * da := mul_nonneg hv ha
    have hvb : 0 ≤ v * db := mul_nonneg hv hb
    rcases le_total (x + v * da) hi with hle | hge
    · exact absurd (by rw [min_eq_right hle, max_eq_right (by linarith : lo ≤ x + v * da)]) hne
    · rw [min_eq_left hge, min_eq_left (by nlinarith : hi ≤ x + v * (da + db))]
  · have hva : v * da ≤ 0 := mul_nonpos_of_nonpos_of_nonneg hv ha
    have hvb : v * db ≤ 0 := mul_nonpos_of_nonpos_of_nonneg hv hb
    rcases le_total lo (x + v * da) with hle | hge
    · exact absurd (by rw [min_eq_right (by linarith : x + v * da ≤ hi), max_eq_right hle]) hne
    · rw [min_eq_right (by linarith : x + v * da ≤ hi), max_eq_left hge,
        min_eq_right (by nlinarith : x + v * (da + db) ≤ hi),
        max_eq_left (by nlinarith : x + v * (da + db) ≤ lo)]

theorem RCurrent_singleton (road : Road) (p : PointD) (h : InBand road p) :
    RCurrent [road] p = [road] := by
  simp [RCurrent, h]

/-- The loop body on a map with one road, for a dog standing on it: the position is the
clamped destination, and the velocity is kept or, when a coordinate was clamped by `1e-9`
or more, zeroed. -/
theorem tickDog_single (road : Road) (delta : Int) (dog : Dog) (h : InBand road dog.pos_) :
    (tickDog [road] ((delta : ℚ) / 1000) dog).pos_ =
      clampToBand road (naiveDestination dog delta) ∧
    ((tickDog [road] ((delta : ℚ) / 1000) dog).speed_ = dog.speed_ ∨
      ((tickDog [road] ((delta : ℚ) / 1000) dog).speed_ = { u := 0, v := 0 } ∧
        clampToBand road (naiveDestination dog delta) ≠ naiveDestination dog delta)) := by
  by_cases hspeed : dog.speed_.u = 0 ∧ dog.speed_.v = 0
  · rw [tickDog_of_zero _ _ _ hspeed]
    have hdest : naiveDestination dog delta = dog.pos_ := by
      simp [naiveDestination, hspeed.1, hspeed.2]
    rw [hdest, clampToBand_of_inBand road _ h]
    exact ⟨rfl, Or.inl rfl⟩
  · have hcur := RCurrent_singleton road dog.pos_ h
    have hne : RCurrent [road] dog.pos_ ≠ [] := by rw [hcur]; exact List.cons_ne_nil _ _
    have hpos := tickDog_pos [road] delta dog hspeed hne
    rw [hcur] at hpos
    have hfinal : finalPos [road] dog.pos_ (naiveDestination dog delta) =
        clampToBand road (naiveDestination dog delta) := boundedPos_eq road _
    rw [hfinal] at hpos
    refine ⟨hpos, ?_⟩
    rw [tickDog_speed [road] delta dog hspeed hne, hpos]
    by_cases hc : points_are_close (clampToBand road (naiveDestination dog delta))
        (naiveDestination dog delta) = true
    · rw [if_pos hc]
      exact Or.inl rfl
    · rw [if_neg hc]
      refine Or.inr ⟨rfl, fun heq => hc ?_⟩
      rw [heq]
      exact points_are_close_self _

/-- C29: tick-rate independence on a straight road.  On a map with exactly one road, for
every dog of a session that stands on the road with an axis-aligned velocity and for all
non-negative deltas `a` and `b`, the position after `Tick(a)` followed by `Tick(b)` is the
position after the single `Tick(a + b)`. -/
theorem GameSession.Tick_additive (s : GameSession) (a b : Int) (dogs : List Dog)
    (ptr : Nat) (dog : Dog) (road : Road)
    (hnodup : s.dogs_.Nodup) (hmem : ptr ∈ s.dogs_) (hdog : dogs[ptr]? = some dog)
    (hroads : s.map_.roads_ = [road]) (hin : InBand road dog.pos_)
    (haxis : dog.speed_.u = 0 ∨ dog.speed_.v = 0) (ha : 0 ≤ a) (hb : 0 ≤ b) :
    ((s.Tick b (s.Tick a dogs))[ptr]?).map Dog.pos_ =
      ((s.Tick (a + b) dogs)[ptr]?).map Dog.pos_ := by
  have h1 := GameSession.Tick_getElem?_eq_some s a dogs ptr dog hnodup hmem hdog
  have h2 := GameSession.Tick_getElem?_eq_some s b (s.Tick a dogs) ptr _ hnodup hmem h1
  have h3 := GameSession.Tick_getElem?_eq_some s (a + b) dogs ptr dog hnodup hmem hdog
  rw [h2, h3, hroads]
  simp only [Option.map_some', Option.some.injEq]
  obtain ⟨hp1, hv1⟩ := tickDog_single road a dog hin
  have hin1 : InBand road (tickDog [road] ((a : ℚ) / 1000) dog).pos_ := by
    rw [hp1]
    exact clampToBand_inBand road _
  obtain ⟨hp2, -⟩ := tickDog_single road b (tickDog [road] ((a : ℚ) / 1000) dog) hin1
  obtain ⟨hp3, -⟩ := tickDog_single road (a + b) dog hin
  rw [hp2, hp3]
  have hda : (0 : ℚ) ≤ (a : ℚ) / 1000 := div_nonneg (by exact_mod_cast ha) (by norm_num)
  have hdb : (0 : ℚ) ≤ (b : ℚ) / 1000 := div_nonneg (by exact_mod_cast hb) (by norm_num)
  have hsum : (((a + b : Int) : ℚ)) / 1000 = (a : ℚ) / 1000 + (b : ℚ) / 1000 := by
    push_cast
    ring
  obtain ⟨hx1, hx2, hy1, hy2⟩ := hin
  rcases hv1 with hkeep | ⟨hzero, hclamped⟩
  · simp only [naiveDestination, clampToBand, hkeep, hp1, hsum]
    rw [clamp_two_steps _ _ dog.pos_.x dog.speed_.u _ _ hx1 hx2 hda hdb,
      clamp_two_steps _ _ dog.pos_.y dog.speed_.v _ _ hy1 hy2 hda hdb]
  · have hstay : naiveDestination (tickDog [road] ((a : ℚ) / 1000) dog) b =
        (tickDog [road] ((a : ℚ) / 1000) dog).pos_ := by
      simp [naiveDestination, hzero]
    rw [hstay, clampToBand_of_inBand road _ hin1, hp1]
    have hclamped2 : ¬ ((clampToBand road (naiveDestination dog a)).x =
          (naiveDestination dog a).x ∧
        (clampToBand road (naiveDestination dog a)).y = (naiveDestination dog a).y) := by
      rintro ⟨h1, h2⟩
      apply hclamped
      cases hc : clampToBand road (naiveDestination dog a)
      cases hn : naiveDestination dog a
      rw [hc, hn] at h1 h2
      simp only at h1 h2
      rw [h1, h2]
    clear hclamped
    simp only [naiveDestination, clampToBand, hsum, PointD.mk.injEq] at hclamped2 ⊢
    rcases haxis with hu | hv
    · have hy : max (min (road.start_.y : ℚ) (road.end_.y : ℚ) - 2 / 5)
          (min (max (road.start_.y : ℚ) (road.end_.y : ℚ) + 2 / 5)
            (dog.pos_.y + dog.speed_.v * ((a : ℚ) / 1000))) ≠
          dog.pos_.y + dog.speed_.v * ((a : ℚ) / 1000) := by
        intro hy
        apply hclamped2
        refine ⟨?_, hy⟩
        rw [hu, zero_mul, add_zero, min_eq_right hx2, max_eq_right hx1]
      refine ⟨?_, (clamp_stopped _ _ _ _ _ _ hy1 hy2 hda hdb hy).symm⟩
      rw [hu, zero_mul, zero_mul]
    · have hx : max (min (road.start_.x : ℚ) (road.end_.x : ℚ) - 2 / 5)
          (min (max (road.start_.x : ℚ) (road.end_.x : ℚ) + 2 / 5)
            (dog.pos_.x + dog.speed_.u * ((a : ℚ) / 1000))) ≠
          dog.pos_.x + dog.speed_.u * ((a : ℚ) / 1000) := by
        intro hx
        apply hclamped2
        refine ⟨hx, ?_⟩
        rw [hv, zero_mul, add_zero, min_eq_right hy2, max_eq_right hy1]
      refine ⟨(clamp_stopped _ _ _ _ _ _ hx1 hx2 hda hdb hx).symm, ?_⟩
      rw [hv, zero_mul, zero_mul]

/-- C29 on the road of the scenarios: the dog at `(0, 0)` with velocity `(1, 0)`, ticked
by 7000 ms and then by 8000 ms, is where the single tick of 15000 ms puts it. -/
theorem GameSession.Tick_additive_witness :
    (((scenario.sessionOf scenario.oneRoadMap).Tick 8000
        ((scenario.sessionOf scenario.oneRoadMap).Tick 7000
          [scenario.dogAt { x := 0, y := 0 } { u := 1, v := 0 } "R"]))[0]?).map Dog.pos_ =
      (((scenario.sessionOf scenario.oneRoadMap).Tick (7000 + 8000)
        [scenario.dogAt { x := 0, y := 0 } { u := 1, v := 0 } "R"])[0]?).map Dog.pos_ :=
  GameSession.Tick_additive (scenario.sessionOf scenario.oneRoadMap) 7000 8000
    [scenario.dogAt { x := 0, y := 0 } { u := 1, v := 0 } "R"] 0
    (scenario.dogAt { x := 0, y := 0 } { u := 1, v := 0 } "R") scenario.roadH
    (by simp [scenario.sessionOf]) (by simp [scenario.sessionOf]) rfl
    (by simp [scenario.sessionOf, scenario.oneRoadMap])
    (by norm_num [InBand, scenario.dogAt, scenario.roadH, Road.HORIZONTAL])
    (Or.inr rfl) (by decide) (by decide)

/-! ## Id tables, and the offices of a map -/

theorem TableOk.of_nil : TableOk [] [] := by
  intro id index
  simp [tableFind]

theorem TableOk.find_none_iff (table : List (String × Nat)) (ids : List String)
    (hok : TableOk table ids) (id : String) : tableFind table id = none ↔ id ∉ ids := by
  constructor
  · intro hnone hmem
    obtain ⟨i, hi, hget⟩ := List.mem_iff_getElem.mp hmem
    have : tableFind table id = some i :=
      (hok id i).mpr (by rw [List.getElem?_eq_getElem hi, hget])
    rw [hnone] at this
    cases this
  · intro hall
    cases hfind : tableFind table id with
    | none => rfl
    | some i => exact absurd (List.getElem?_mem ((hok id i).mp hfind)) hall

/-- A table that gains the entry of a new id, at the index after the last one, describes
the list with the id appended. -/
theorem TableOk.extend (table table' : List (String × Nat)) (ids : List String) (id : String)
    (hok : TableOk table ids) (hfree : tableFind table id = none)
    (hself : tableFind table' id = some ids.length)
    (hne : ∀ key, key ≠ id → tableFind table' key = tableFind table key) :
    TableOk table' (ids ++ [id]) := by
  have hnot := (TableOk.find_none_iff table ids hok id).mp hfree
  intro key index
  by_cases hkey : key = id
  · subst hkey
    rw [hself]
    constructor
    · intro h
      rw [← Option.some.inj h]
      simp
    · intro hm
      rcases Nat.lt_trichotomy index ids.length with hlt | heq | hgt
      · rw [List.getElem?_append_left hlt] at hm
        exact absurd (List.getElem?_mem hm) hnot
      · rw [heq]
      · rw [List.getElem?_eq_none (by simp; omega)] at hm
        cases hm
  · rw [hne key hkey, hok key index]
    constructor
    · intro hm
      have hlt : index < ids.length := by
        by_contra hc
        rw [List.getElem?_eq_none (not_lt.mp hc)] at hm
        cases hm
      rw [List.getElem?_append_left hlt]
      exact hm
    · intro hm
      rcases Nat.lt_trichotomy index ids.length with hlt | heq | hgt
      · rw [List.getElem?_append_left hlt] at hm
        exact hm
      · rw [heq] at hm
        simp at hm
        exact absurd hm.symm hkey
      · rw [List.getElem?_eq_none (by simp; omega)] at hm
        cases hm

theorem TableOk.nodup (table : List (String × Nat)) (ids : List String)
    (hok : TableOk table ids) : ids.Nodup := by
  rw [List.nodup_iff_getElem?_ne_getElem?]
  intro i j hij hj heq
  have hjj : ids[j]? = some ids[j] := List.getElem?_eq_getElem hj
  have h2 : tableFind table ids[j] = some j := (hok _ j).mpr hjj
  have h1 : tableFind table ids[j] = some i := (hok _ i).mpr (by rw [heq, hjj])
  rw [h1] at h2
  exact absurd (Option.some.inj h2) (by omega)

/-- What `AddOffice` does when the table already holds the id of the office. -/
theorem Map.AddOffice_of_found (m : Map) (office : Office) (index : Nat)
    (h : tableFind m.warehouse_id_to_index_ office.id_ = some index) :
    m.AddOffice office = (false, m) := by
  simp [Map.AddOffice, tableContains, h]

/-- What `AddOffice` does when the table does not hold the id of the office. -/
theorem Map.AddOffice_of_not_found (m : Map) (office : Office)
    (h : tableFind m.warehouse_id_to_index_ office.id_ = none) :
    m.AddOffice office =
      (true, { m with
        offices_ := m.offices_ ++ [office],
        warehouse_id_to_index_ :=
          (office.id_, m.offices_.length) :: m.warehouse_id_to_index_ }) := by
  simp [Map.AddOffice, tableContains, tableEmplace, h]

/-- The office table of a map describes the ids of its offices after `AddOffice`, if it
did before. -/
theorem TableOk.AddOffice (m : Map) (office : Office)
    (hok : TableOk m.warehouse_id_to_index_ (m.offices_.map (fun o => o.id_))) :
    TableOk (m.AddOffice office).2.warehouse_id_to_index_
      ((m.AddOffice office).2.offices_.map (fun o => o.id_)) := by
  cases hfind : tableFind m.warehouse_id_to_index_ office.id_ with
  | some i =>
    rw [Map.AddOffice_of_found m office i hfind]
    exact hok
  | none =>
    rw [Map.AddOffice_of_not_found m office hfind]
    show TableOk ((office.id_, m.offices_.length) :: m.warehouse_id_to_index_)
      ((m.offices_ ++ [office]).map (fun o => o.id_))
    rw [List.map_append, List.map_singleton]
    refine TableOk.extend _ _ _ _ hok hfind ?_ ?_
    · rw [tableFind_cons_self, List.length_map]
    · intro key hkey
      exact tableFind_cons_ne _ _ _ _ hkey

/-- The office table describes the office ids of every map built from the constructor by
mutator calls. -/
theorem TableOk.run (id name : String) (ops : List MapOp) :
    TableOk ((Map.ofId id name).run ops).warehouse_id_to_index_
      (((Map.ofId id name).run ops).offices_.map (fun o => o.id_)) := by
  have hgen : ∀ (ops : List MapOp) (m : Map),
      TableOk m.warehouse_id_to_index_ (m.offices_.map (fun o => o.id_)) →
      TableOk (m.run ops).warehouse_id_to_index_ ((m.run ops).offices_.map (fun o => o.id_)) := by
    intro ops
    induction ops with
    | nil => intro m h; exact h
    | cons op rest ih =>
      intro m h
      show TableOk ((m.step op).run rest).warehouse_id_to_index_ _
      apply ih
      cases op with
      | addRoad road => exact h
      | addBuilding building => exact h
      | addOffice office => exact TableOk.AddOffice m office h
      | setDogSpeed speed => exact h
  exact hgen ops _ TableOk.of_nil

/-- C21: on every map built from the constructor by any sequence of mutator calls,
`AddOffice` is rejected (the exception `Duplicate warehouse`) exactly when the map already
has an office with the id of the new one; a rejected call leaves the map as it was, an
accepted one appends the office to the office list and changes nothing else but the id
table; and the ids of the offices are pairwise distinct, before and after the call. -/
theorem Map.AddOffice_duplicate (id name : String) (ops : List MapOp) (office : Office) :
    ((((Map.ofId id name).run ops).AddOffice office).1 = false ↔
      ∃ o ∈ ((Map.ofId id name).run ops).offices_, o.id_ = office.id_) ∧
    ((((Map.ofId id name).run ops).AddOffice office).1 = false →
      (((Map.ofId id name).run ops).AddOffice office).2 = (Map.ofId id name).run ops) ∧
    ((((Map.ofId id name).run ops).AddOffice office).1 = true →
      (((Map.ofId id name).run ops).AddOffice office).2.offices_ =
          ((Map.ofId id name).run ops).offices_ ++ [office] ∧
        (((Map.ofId id name).run ops).AddOffice office).2.roads_ =
          ((Map.ofId id name).run ops).roads_ ∧
        (((Map.ofId id name).run ops).AddOffice office).2.buildings_ =
          ((Map.ofId id name).run ops).buildings_ ∧
        (((Map.ofId id name).run ops).AddOffice office).2.dog_speed_ =
          ((Map.ofId id name).run ops).dog_speed_) ∧
    (((Map.ofId id name).run ops).offices_.map (fun o => o.id_)).Nodup ∧
    ((((Map.ofId id name).run ops).AddOffice office).2.offices_.map (fun o => o.id_)).Nodup := by
  have hok := TableOk.run id name ops
  have hok2 := TableOk.AddOffice _ office hok
  refine ⟨?_, ?_, ?_, TableOk.nodup _ _ hok, TableOk.nodup _ _ hok2⟩
  · cases hfind : tableFind ((Map.ofId id name).run ops).warehouse_id_to_index_ office.id_ with
    | some i =>
      rw [Map.AddOffice_of_found _ office i hfind]
      have hm := List.getElem?_mem ((hok _ _).mp hfind)
      rw [List.mem_map] at hm
      simpa using hm
    | none =>
      rw [Map.AddOffice_of_not_found _ office hfind]
      have hnot := (TableOk.find_none_iff _ _ hok _).mp hfind
      rw [List.mem_map] at hnot
      simpa using hnot
  · intro hfail
    cases hfind : tableFind ((Map.ofId id name).run ops).warehouse_id_to_index_ office.id_ with
    | some i => rw [Map.AddOffice_of_found _ office i hfind]
    | none =>
      rw [Map.AddOffice_of_not_found _ office hfind] at hfail
      cases hfail
  · intro hsucc
    cases hfind : tableFind ((Map.ofId id name).run ops).warehouse_id_to_index_ office.id_ with
    | some i =>
      rw [Map.AddOffice_of_found _ office i hfind] at hsucc
      cases hsucc
    | none =>
      rw [Map.AddOffice_of_not_found _ office hfind]
      exact ⟨rfl, rfl, rfl, rfl⟩

end model

namespace json_loader

open model

/-! ## The round trip of a road through JSON -/

theorem toCoord_of_isCoord (v : Int) (h : json.isCoord v) : json.toCoord v = v := by
  obtain ⟨h1, h2⟩ := h
  unfold json.toCoord
  rw [Int.emod_eq_of_lt (by omega) (by omega)]
  omega

/-- C30: for every road whose coordinates are values of `int` and that is horizontal or
vertical (a road of zero length is both), `LoadRoad` applied to the object that `ToJson`
produces for the road returns a road with the same start and end points. -/
theorem LoadRoad_ToJson (r : Road)
    (haxis : r.IsHorizontal = true ∨ r.IsVertical = true)
    (hx0 : json.isCoord r.start_.x) (hy0 : json.isCoord r.start_.y)
    (hx1 : json.isCoord r.end_.x) (hy1 : json.isCoord r.end_.y) :
    LoadRoad (json_serializer.ToJson r) = some r := by
  obtain ⟨⟨x0, y0⟩, ⟨x1, y1⟩⟩ := r
  simp only [Road.IsHorizontal, Road.IsVertical, beq_iff_eq] at haxis hx0 hy0 hx1 hy1
  by_cases hh : y0 = y1
  · subst hh
    simp [LoadRoad, json_serializer.ToJson, Road.IsHorizontal, json.object.assign,
      json.object.contains, json.object.at, json.value.as_int64, keys.X0, keys.Y0, keys.X1,
      keys.Y1, Road.HORIZONTAL, toCoord_of_isCoord _ hx0, toCoord_of_isCoord _ hy0,
      toCoord_of_isCoord _ hx1, List.lookup]
  · have hv : x0 = x1 := by
      rcases haxis with h | h
      · exact absurd h hh
      · exact h
    subst hv
    simp [LoadRoad, json_serializer.ToJson, Road.IsHorizontal, json.object.assign,
      json.object.contains, json.object.at, json.value.as_int64, keys.X0, keys.Y0, keys.X1,
      keys.Y1, Road.VERTICAL, toCoord_of_isCoord _ hx0, toCoord_of_isCoord _ hy0,
      toCoord_of_isCoord _ hy1, List.lookup, hh]

/-- C30 on the zero-length road at `(3, 4)`, which is serialised as a horizontal road. -/
theorem LoadRoad_ToJson_witness :
    LoadRoad (json_serializer.ToJson (Road.VERTICAL { x := 3, y := 4 } 4)) =
      some (Road.VERTICAL { x := 3, y := 4 } 4) :=
  LoadRoad_ToJson (Road.VERTICAL { x := 3, y := 4 } 4) (Or.inl rfl)
    (by norm_num [json.isCoord, Road.VERTICAL]) (by norm_num [json.isCoord, Road.VERTICAL])
    (by norm_num [json.isCoord, Road.VERTICAL]) (by norm_num [json.isCoord, Road.VERTICAL])

end json_loader

namespace http_handler

open model app

/-! ## The authorization header and the move command -/

theorem isHexDigit_not_isSpace (c : Char) (h : isHexDigit c = true) : isSpace c = false := by
  simp only [isHexDigit, isSpace, Bool.or_eq_true, Bool.and_eq_true, decide_eq_true_eq,
    Bool.or_eq_false_iff, Bool.and_eq_false_iff, decide_eq_false_iff_not] at h ⊢
  omega

/-- The split of a run of spaces followed by digits. -/
theorem takeWhile_spaces_digits (spaces digits : List Char)
    (hspaces : ∀ c ∈ spaces, isSpace c = true) (hlen : digits.length = 32)
    (hdigits : ∀ c ∈ digits, isHexDigit c = true) :
    (spaces ++ digits).takeWhile isSpace = spaces ∧
      (spaces ++ digits).dropWhile isSpace = digits := by
  induction spaces with
  | nil =>
    cases digits with
    | nil => simp at hlen
    | cons d ds =>
      have hd := isHexDigit_not_isSpace d (hdigits d (List.mem_cons_self _ _))
      simp [List.takeWhile, List.dropWhile, hd]
  | cons s rest ih =>
    have hs := hspaces s (List.mem_cons_self _ _)
    obtain ⟨h1, h2⟩ := ih (fun c hc => hspaces c (List.mem_cons_of_mem _ hc))
    simp [List.takeWhile, List.dropWhile, hs, h1, h2]

/-- The headers that the regular expression matches, and the submatch. -/
theorem regex_match_eq_some (auth_header digits : List Char) :
    regex_match auth_header = some digits ↔
      ∃ word spaces, auth_header = word ++ spaces ++ digits ∧
        word.map Char.toLower = "bearer".toList ∧ spaces ≠ [] ∧
        (∀ c ∈ spaces, isSpace c = true) ∧ digits.length = 32 ∧
        (∀ c ∈ digits, isHexDigit c = true) := by
  constructor
  · intro h
    unfold regex_match at h
    simp only [] at h
    split_ifs at h with hc
    obtain ⟨hword, hspaces, hlen, hall⟩ := hc
    have hd : (auth_header.drop 6).dropWhile isSpace = digits := Option.some.inj h
    refine ⟨auth_header.take 6, (auth_header.drop 6).takeWhile isSpace, ?_, hword, hspaces,
      fun c hc => (List.mem_takeWhile_imp hc), ?_, ?_⟩
    · rw [← hd, List.append_assoc, List.takeWhile_append_dropWhile, List.take_append_drop]
    · rw [← hd]; exact hlen
    · rw [← hd]; exact fun c hc => List.all_eq_true.mp hall c hc
  · rintro ⟨word, spaces, rfl, hword, hspaces, hsp, hlen, hdig⟩
    have hwlen : word.length = 6 := by
      have := congrArg List.length hword
      simpa using this
    obtain ⟨h1, h2⟩ := takeWhile_spaces_digits spaces digits hsp hlen hdig
    have htake : (word ++ spaces ++ digits).take 6 = word := by
      rw [List.append_assoc, List.take_left' hwlen]
    have hdrop : (word ++ spaces ++ digits).drop 6 = spaces ++ digits := by
      rw [List.append_assoc, List.drop_left' hwlen]
    unfold regex_match
    simp only [htake, hdrop, h1, h2]
    rw [if_pos ⟨hword, hspaces, hlen, List.all_eq_true.mpr hdig⟩]

theorem TryExtractToken_eq (req : Request) :
    TryExtractToken req =
      req.authorization.bind (fun h => (regex_match h.toList).map String.mk) := by
  unfold TryExtractToken
  cases req.authorization with
  | none => rfl
  | some h =>
    show (match regex_match h.toList with
      | some digits => some (String.mk digits)
      | none => none) = (regex_match h.toList).map String.mk
    cases regex_match h.toList <;> rfl

/-- C23, amended: `TryExtractToken` returns a token exactly when the request has an
`Authorization` field whose value is the word `Bearer` in either case, then one or more
space characters (`\s+`: spaces, tabs, ...), then 32 hexadecimal digits up to the end, and
the token is those 32 characters as written; without the field it returns nothing; and
whenever it returns nothing `handle_authorized` answers `invalidToken`, does not run the
action and leaves the application as it was. -/
theorem TryExtractToken_bearer (app_ : Application) (req : Request) :
    (∀ token, TryExtractToken req = some token ↔
      ∃ word spaces digits, req.authorization = some (String.mk (word ++ spaces ++ digits)) ∧
        word.map Char.toLower = "bearer".toList ∧ spaces ≠ [] ∧
        (∀ c ∈ spaces, isSpace c = true) ∧ digits.length = 32 ∧
        (∀ c ∈ digits, isHexDigit c = true) ∧ token = String.mk digits) ∧
    (req.authorization = none → TryExtractToken req = none) ∧
    (TryExtractToken req = none → ∀ action, handle_authorized app_ req action =
      some (.unauthorized "invalidToken" "Authorization header is required", app_)) := by
  refine ⟨fun token => ⟨?_, ?_⟩, ?_, ?_⟩
  · intro h
    rw [TryExtractToken_eq] at h
    cases hauth : req.authorization with
    | none => rw [hauth] at h; cases h
    | some auth_header =>
      rw [hauth] at h
      cases hm : regex_match auth_header.toList with
      | none => rw [Option.some_bind, hm] at h; cases h
      | some digits =>
        rw [Option.some_bind, hm] at h
        obtain ⟨word, spaces, hsplit, hrest⟩ := (regex_match_eq_some _ _).mp hm
        refine ⟨word, spaces, digits, ?_, hrest.1, hrest.2.1, hrest.2.2.1, hrest.2.2.2.1,
          hrest.2.2.2.2, (Option.some.inj h).symm⟩
        rw [← hsplit]
        rfl
  · rintro ⟨word, spaces, digits, hauth, hword, hspaces, hsp, hlen, hdig, rfl⟩
    have hm : regex_match (word ++ spaces ++ digits) = some digits :=
      (regex_match_eq_some _ _).mpr ⟨word, spaces, rfl, hword, hspaces, hsp, hlen, hdig⟩
    rw [TryExtractToken_eq, hauth]
    show (regex_match (word ++ spaces ++ digits)).map String.mk = _
    rw [hm]
    rfl
  · intro hauth
    unfold TryExtractToken
    rw [hauth]
  · intro hnone action
    unfold handle_authorized
    rw [hnone]

/-- C23 fails as stated for a header with two spaces after `Bearer`: it does not match
`Bearer [0-9a-fA-F]{32}`, yet `TryExtractToken` returns the token, and the request of a
known player is authorized. -/
theorem TryExtractToken_bearer_counterexample :
    matchesBearerSpec "Bearer  000000000000002a00000000000000ff".toList = false ∧
    TryExtractToken
        { method := verb.post, content_type := some "application/json",
          authorization := some "Bearer  000000000000002a00000000000000ff", body := none } =
      some "000000000000002a00000000000000ff" ∧
    HandleAction scenario.afterFirstJoin
        { method := verb.post, content_type := some "application/json",
          authorization := some "Bearer  000000000000002a00000000000000ff", body := none } =
      some (.bad_request "Failed to parse action" "invalidArgument", scenario.afterFirstJoin) := by
  refine ⟨by decide, by decide, by decide⟩

/-- C23 at two requests: the header `bearer 000000000000002a00000000000000ff` yields the
token, and the header `Basic abc` is answered `invalidToken`. -/
theorem TryExtractToken_bearer_witness :
    TryExtractToken
        { method := verb.post, content_type := some "application/json",
          authorization := some "bearer 000000000000002a00000000000000ff", body := none } =
      some "000000000000002a00000000000000ff" ∧
    handle_authorized scenario.afterFirstJoin
        { method := verb.post, content_type := some "application/json",
          authorization := some "Basic abc", body := none }
        (actionOfPlayer scenario.afterFirstJoin) =
      some (.unauthorized "invalidToken" "Authorization header is required",
        scenario.afterFirstJoin) :=
  ⟨((TryExtractToken_bearer scenario.afterFirstJoin
        { method := verb.post, content_type := some "application/json",
          authorization := some "bearer 000000000000002a00000000000000ff", body := none }).1
      "000000000000002a00000000000000ff").mpr
      ⟨"bearer".toList, [Char.ofNat 32], "000000000000002a00000000000000ff".toList,
        by decide, by decide, by decide, by decide, by decide, by decide, by decide⟩,
    (TryExtractToken_bearer scenario.afterFirstJoin
        { method := verb.post, content_type := some "application/json",
          authorization := some "Basic abc", body := none }).2.2 (by decide) _⟩

/-- What the action does with a body whose member `move` is a string that, cut at its
first NUL character, is none of the five commands: it answers `invalidArgument` whatever
the player pointer is. -/
theorem actionOfPlayer_invalid (app_ : Application) (player : Nat) (req : Request)
    (members : json.object) (move : String)
    (hbody : req.body = some (.object members))
    (hmove : json.object.at members "move" = some (.string move))
    (hcmd : json.c_str move ≠ "L" ∧ json.c_str move ≠ "R" ∧ json.c_str move ≠ "U" ∧
      json.c_str move ≠ "D" ∧ json.c_str move ≠ "") :
    actionOfPlayer app_ player req =
      some (.bad_request "Failed to parse action" "invalidArgument", app_) := by
  have hcontains : json.object.contains members "move" = true := by
    unfold json.object.contains
    unfold json.object.at at hmove
    rw [hmove]
    rfl
  unfold actionOfPlayer
  rw [hbody]
  simp only [json.value.is_object, json.value.as_object, Option.map_some', Option.getD_some,
    hcontains, Bool.not_true, Bool.or_self, Bool.false_eq_true, if_false, Option.some_bind,
    hmove, json.value.as_string]
  rw [if_pos hcmd]

/-- The command check of the player-action endpoint: for every request whose body is an
object with a string member `move` that, cut at its first NUL character as `c_str()` cuts
it, is none of `L`, `R`, `U`, `D` and the empty string, the handler sends a response and
leaves the application, and with it every dog, as it was; the action answers `Failed to
parse action` with the code `invalidArgument` for every player pointer, even one for which
`MovePlayer` would fail, so `MovePlayer` is not reached; and that is the response to a
`POST` with the JSON content type and the token of a player. -/
theorem HandleAction_invalid_move (app_ : Application) (req : Request)
    (members : json.object) (move : String)
    (hbody : req.body = some (.object members))
    (hmove : json.object.at members "move" = some (.string move))
    (hcmd : json.c_str move ≠ "L" ∧ json.c_str move ≠ "R" ∧ json.c_str move ≠ "U" ∧
      json.c_str move ≠ "D" ∧ json.c_str move ≠ "") :
    (∃ response, HandleAction app_ req = some (response, app_)) ∧
    (∀ player, actionOfPlayer app_ player req =
      some (.bad_request "Failed to parse action" "invalidArgument", app_)) ∧
    (∀ token player, req.method = verb.post → req.content_type = some "application/json" →
      TryExtractToken req = some token → app_.FindByToken token = some player →
      HandleAction app_ req =
        some (.bad_request "Failed to parse action" "invalidArgument", app_)) := by
  have haction := fun player =>
    actionOfPlayer_invalid app_ player req members move hbody hmove hcmd
  refine ⟨?_, haction, ?_⟩
  · unfold HandleAction
    split_ifs
    · exact ⟨_, rfl⟩
    · exact ⟨_, rfl⟩
    · unfold handle_authorized
      cases TryExtractToken req with
      | none => exact ⟨_, rfl⟩
      | some token =>
        show ∃ response, (match app_.FindByToken token with
          | none => some (Response.unauthorized "unknownToken" "Player token has not been found",
              app_)
          | some player => actionOfPlayer app_ player req) = some (response, app_)
        cases app_.FindByToken token with
        | none => exact ⟨_, rfl⟩
        | some player => exact ⟨_, haction player⟩
  · intro token player hmethod hcontent htoken hplayer
    unfold HandleAction
    rw [if_neg (by rw [hmethod]; exact fun h => h rfl),
      if_neg (by rw [hcontent]; exact fun h => h rfl)]
    unfold handle_authorized
    rw [htoken]
    simp only [hplayer]
    exact haction player

/-- The command check at the player of the scenarios: the command `X` in an authorized
request is answered `invalidArgument`, and the application is the one before the
request. -/
theorem HandleAction_invalid_move_witness :
    HandleAction scenario.afterFirstJoin
        { method := verb.post, content_type := some "application/json",
          authorization := some "Bearer 000000000000002a00000000000000ff",
          body := some (.object [("move", .string "X")]) } =
      some (.bad_request "Failed to parse action" "invalidArgument", scenario.afterFirstJoin) :=
  (HandleAction_invalid_move scenario.afterFirstJoin
      { method := verb.post, content_type := some "application/json",
        authorization := some "Bearer 000000000000002a00000000000000ff",
        body := some (.object [("move", .string "X")]) }
      [("move", .string "X")] "X" rfl rfl (by decide)).2.2
    "000000000000002a00000000000000ff" 0 rfl rfl (by decide) (by decide)

/-- C24 fails for a move string with a NUL character.  The string made of `R`, the NUL
character and `x` is none of `L`, `R`, `U`, `D` and the empty string, but `c_str()` cuts it
to `R`: the authorized request is answered `200` with the body of an empty object, and
`MovePlayer` has given the dog of the player the velocity `(1, 0)` and the direction
`R`. -/
theorem HandleAction_nul_move :
    String.mk [Char.ofNat 82, Char.ofNat 0, Char.ofNat 120] ∉ ["L", "R", "U", "D", ""] ∧
    HandleAction scenario.afterFirstJoin
        { method := verb.post, content_type := some "application/json",
          authorization := some "Bearer 000000000000002a00000000000000ff",
          body := some (.object
            [("move", .string (String.mk [Char.ofNat 82, Char.ofNat 0, Char.ofNat 120]))]) } =
      some (.ok "\x7b\x7d", scenario.afterMoveRight) := by
  refine ⟨by decide, by decide⟩

end http_handler

namespace app

open model

/-! ## The ticker -/

/-- Without an outstanding wait no timer event calls the handler or arms the timer. -/
theorem Ticker.completeAll_of_idle (t : Ticker) (events : List TimerEvent)
    (hidle : t.timer_ = none) :
    t.completeAll events = (t, events.map (fun _ => none)) := by
  induction events with
  | nil => rfl
  | cons e rest ih =>
    have hstep : t.complete e = (t, none) := by
      unfold Ticker.complete
      rw [hidle]
    simp only [Ticker.completeAll, hstep, ih, List.map_cons]

/-- C25, amended: when the wait on the timer completes with a zero error code, the ticker
calls the handler with the whole milliseconds of `now - last_tick_` and sets `last_tick_`
to `now`; if the handler returns or throws an exception derived from `std::exception`
(whose text is logged), the timer is armed again with the period and nothing leaves
`OnTick`; if the handler throws anything else, the exception leaves `OnTick` and the timer
is not armed again.  When the error code is not zero the handler is not called, the timer
is not armed, and no later event calls the handler or arms the timer. -/
theorem Ticker.OnTick_rearms (t : Ticker) (e : TimerEvent) (later : List TimerEvent) (d : Int)
    (hwait : t.timer_ = some d) :
    (e.ec = 0 →
      ((t.complete e).2.bind (fun effects => effects.handler_delta) =
          some (Int.tdiv (e.now - t.last_tick_) 1000000) ∧
        (t.complete e).1.last_tick_ = e.now ∧ (t.complete e).1.period_ = t.period_) ∧
      (e.outcome = .returned →
        (t.complete e).1.timer_ = some t.period_ ∧
        (t.complete e).2.map (fun effects => (effects.logged, effects.escaped)) =
          some (none, false)) ∧
      (∀ what, e.outcome = .threw_std what →
        (t.complete e).1.timer_ = some t.period_ ∧
        (t.complete e).2.map (fun effects => (effects.logged, effects.escaped)) =
          some (some what, false)) ∧
      (e.outcome = .threw_other →
        (t.complete e).1.timer_ = none ∧
        (t.complete e).2.map (fun effects => (effects.logged, effects.escaped)) =
          some (none, true))) ∧
    (e.ec ≠ 0 →
      t.complete e = ({ t with timer_ := none },
        some { handler_delta := none, logged := none, escaped := false }) ∧
      (t.complete e).1.completeAll later =
        ({ t with timer_ := none }, later.map (fun _ => none))) := by
  constructor
  · intro hec
    have hstep : t.complete e = Prod.map id some
        (Ticker.OnTick { t with timer_ := none } 0 e.now e.outcome) := by
      unfold Ticker.complete
      rw [hwait, hec]
      rfl
    rw [hstep]
    refine ⟨?_, ?_, ?_, ?_⟩
    · cases e.outcome <;> exact ⟨rfl, rfl, rfl⟩
    · intro ho
      rw [ho]
      exact ⟨rfl, rfl⟩
    · intro what ho
      rw [ho]
      exact ⟨rfl, rfl⟩
    · intro ho
      rw [ho]
      exact ⟨rfl, rfl⟩
  · intro hec
    have hstep : t.complete e = ({ t with timer_ := none },
        some { handler_delta := none, logged := none, escaped := false }) := by
      unfold Ticker.complete Ticker.OnTick
      rw [hwait]
      simp only [if_neg hec]
    rw [hstep]
    exact ⟨rfl, Ticker.completeAll_of_idle _ later rfl⟩

/-- C25 at a ticker with the period 100 ms whose wait completes 100.7 ms after the last
tick while the handler throws a `std::exception`: the handler gets 100 ms and the timer is
armed again. -/
theorem Ticker.OnTick_rearms_witness :
    (Ticker.complete { period_ := 100, timer_ := some 100, last_tick_ := 5000000 }
      { ec := 0, now := 105700000, outcome := .threw_std "bad" }).1.timer_ = some 100 ∧
    (Ticker.complete { period_ := 100, timer_ := some 100, last_tick_ := 5000000 }
      { ec := 0, now := 105700000, outcome := .threw_std "bad" }).2.map
        (fun effects => (effects.logged, effects.escaped)) = some (some "bad", false) :=
  ((Ticker.OnTick_rearms { period_ := 100, timer_ := some 100, last_tick_ := 5000000 }
    { ec := 0, now := 105700000, outcome := .threw_std "bad" } [] 100 rfl).1 rfl).2.2.1
      "bad" rfl

/-- C25 fails as stated for a handler that throws something not derived from
`std::exception`: the `catch` clause does not match, the exception leaves `OnTick` before
`ScheduleTick`, and the timer is not armed again, so the next events call nothing. -/
theorem Ticker.OnTick_rearms_counterexample :
    Ticker.completeAll { period_ := 100, timer_ := some 100, last_tick_ := 5000000 }
        [{ ec := 0, now := 105000000, outcome := .threw_other },
         { ec := 0, now := 205000000, outcome := .returned }] =
      ({ period_ := 100, timer_ := none, last_tick_ := 105000000 },
        [some { handler_delta := some 100, logged := none, escaped := true }, none]) := by
  decide

/-! ## One session per map -/

/-- A lookup that returns `nullptr` found nothing in the session table. -/
theorem FindSession_none (g : Game) (map_id : String)
    (h : g.FindSession map_id = some none) : tableFind g.session_id_to_index_ map_id = none := by
  unfold Game.FindSession at h
  cases hfind : tableFind g.session_id_to_index_ map_id with
  | none => rfl
  | some index =>
    rw [hfind] at h
    simp only [] at h
    split_ifs at h
    simp at h

/-- What a join that returns a result does to the sessions of a game that keeps its
invariant: it adds the dog to the session of the map when there is one, and otherwise adds
a session of the map with the dog as its only one. -/
theorem JoinGame_session_step (a : Application) (map_id user_name : String)
    (gen1 gen2 road_idx : Nat) (t : ℚ) (r : JoinGameResult) (a' : Application)
    (hok : SessionsOk a.game_)
    (h : a.JoinGame map_id user_name gen1 gen2 road_idx t = some (some r, a')) :
    a'.game_.maps_ = a.game_.maps_ ∧ a'.game_.map_id_to_index_ = a.game_.map_id_to_index_ ∧
    ((∃ index s, a.game_.sessions_[index]? = some s ∧ s.map_.id_ = map_id ∧
        a.game_.FindSession map_id = some (some index) ∧
        a'.game_.sessions_ =
          a.game_.sessions_.set index { s with dogs_ := s.dogs_ ++ [r.player_id] } ∧
        a'.game_.session_id_to_index_ = a.game_.session_id_to_index_) ∨
      ((∀ s ∈ a.game_.sessions_, s.map_.id_ ≠ map_id) ∧
        ∃ map, map.id_ = map_id ∧ a.game_.FindMap map_id = some (some map) ∧
          a'.game_.sessions_ = a.game_.sessions_ ++
            [{ map_ := map, dogs_ := [r.player_id],
               randomize_spawn_points_ := a.game_.randomize_spawn_points_ }] ∧
          a'.game_.session_id_to_index_ =
            tableAssign a.game_.session_id_to_index_ map_id a.game_.sessions_.length)) := by
  obtain ⟨map, session, game, s, s', dog, hmap, hjoin, hs, hspawn, rfl, rfl⟩ :=
    JoinGame_steps a map_id user_name gen1 gen2 road_idx t r a' h
  obtain ⟨hs', -⟩ :=
    GameSession.AddDog_eq_some s a.players_.dogs_.length (Dog.ofName user_name) road_idx t s'
      dog hspawn
  subst hs'
  rcases hjoin with ⟨hfound, rfl⟩ | ⟨hnull, hadd⟩
  · refine ⟨rfl, rfl, Or.inl ⟨session, s, hs, ?_, hfound, rfl, rfl⟩⟩
    have hfind := (FindSession_lt _ map_id session hfound).1
    have hid := (hok.2 map_id session).mp hfind
    rw [List.getElem?_map, hs] at hid
    exact Option.some.inj hid
  · rw [AddSession_of_map a.game_ map_id map hmap] at hadd
    simp only [Option.some.injEq, Prod.mk.injEq] at hadd
    obtain ⟨hsession, hgame⟩ := hadd
    subst hsession
    subst hgame
    have hnot := (TableOk.find_none_iff _ _ hok.2 map_id).mp (FindSession_none _ _ hnull)
    dsimp only at hs
    rw [List.getElem?_concat_length] at hs
    have hsnew := (Option.some.inj hs).symm
    subst hsnew
    refine ⟨rfl, rfl, Or.inr ⟨?_, map, ((CatalogOk.FindMap _ hok.1 map_id).1 map).mp hmap |>.2,
      hmap, ?_, rfl⟩⟩
    · intro s0 hs0 hid
      exact hnot (List.mem_map.mpr ⟨s0, hs0, hid⟩)
    · show (a.game_.sessions_ ++ [_]).set a.game_.sessions_.length _ = _
      rw [List.set_append_right _ _ (le_refl _)]
      simp

theorem dogsOfMap_eq_nil (map_id : String) (l : List GameSession)
    (h : ∀ s ∈ l, s.map_.id_ ≠ map_id) : dogsOfMap map_id l = [] := by
  induction l with
  | nil => rfl
  | cons x rest ih =>
    rw [dogsOfMap, if_neg (h x (List.mem_cons_self _ _))]
    exact ih (fun s hs => h s (List.mem_cons_of_mem _ hs))

theorem dogsOfMap_append (map_id : String) (l1 l2 : List GameSession) :
    dogsOfMap map_id (l1 ++ l2) = dogsOfMap map_id l1 ++ dogsOfMap map_id l2 := by
  induction l1 with
  | nil => rfl
  | cons x rest ih =>
    rw [List.cons_append, dogsOfMap, dogsOfMap, ih]
    split_ifs
    · rw [List.append_assoc]
    · rfl

/-- Among sessions with pairwise distinct map ids, the dogs of the map of a session are
the dogs of that session. -/
theorem dogsOfMap_of_mem (l : List GameSession) (s : GameSession)
    (hnodup : (l.map (fun s => s.map_.id_)).Nodup) (hs : s ∈ l) :
    dogsOfMap s.map_.id_ l = s.dogs_ := by
  induction l with
  | nil => cases hs
  | cons x rest ih =>
    rw [List.map_cons, List.nodup_cons] at hnodup
    obtain ⟨hx, hrest⟩ := hnodup
    have hfree : ∀ y ∈ rest, y.map_.id_ ≠ x.map_.id_ := fun y hy hid =>
      hx (List.mem_map.mpr ⟨y, hy, hid⟩)
    rcases List.mem_cons.mp hs with rfl | hmem
    · rw [dogsOfMap, if_pos rfl, dogsOfMap_eq_nil _ _ hfree, List.append_nil]
    · rw [dogsOfMap, if_neg (fun hid => hfree s hmem hid.symm)]
      exact ih hrest hmem

/-- The dogs of a map after a dog was appended to one session, among sessions with
pairwise distinct map ids. -/
theorem dogsOfMap_set (map_id : String) (l : List GameSession) (index : Nat) (s : GameSession)
    (ptr : Nat) (hnodup : (l.map (fun s => s.map_.id_)).Nodup) (hs : l[index]? = some s) :
    dogsOfMap map_id (l.set index { s with dogs_ := s.dogs_ ++ [ptr] }) =
      dogsOfMap map_id l ++ (if s.map_.id_ = map_id then [ptr] else []) := by
  induction l generalizing index with
  | nil => simp at hs
  | cons x rest ih =>
    rw [List.map_cons, List.nodup_cons] at hnodup
    obtain ⟨hx, hrest⟩ := hnodup
    cases index with
    | zero =>
      have hxs : x = s := by simpa using hs
      subst hxs
      rw [List.set_cons_zero, dogsOfMap, dogsOfMap]
      by_cases hid : x.map_.id_ = map_id
      · have hfree : ∀ y ∈ rest, y.map_.id_ ≠ map_id := fun y hy hy2 =>
          hx (List.mem_map.mpr ⟨y, hy, hy2.trans hid.symm⟩)
        simp only [hid, if_true, dogsOfMap_eq_nil _ _ hfree, List.append_nil]
      · simp only [hid, if_false, List.append_nil]
    | succ i =>
      have hs2 : rest[i]? = some s := by simpa using hs
      rw [List.set_cons_succ, dogsOfMap, dogsOfMap, ih i hrest hs2]
      split_ifs <;> simp

theorem map_id_set (l : List GameSession) (index : Nat) (s : GameSession) (dogs : List Nat)
    (hs : l[index]? = some s) :
    (l.set index { s with dogs_ := dogs }).map (fun s => s.map_.id_) =
      l.map (fun s => s.map_.id_) := by
  induction l generalizing index with
  | nil => rfl
  | cons x rest ih =>
    cases index with
    | zero =>
      have hxs : x = s := by simpa using hs
      subst hxs
      rfl
    | succ i =>
      have hs2 : rest[i]? = some s := by simpa using hs
      rw [List.set_cons_succ, List.map_cons, List.map_cons, ih i hs2]

/-- One join that returns a result, in terms of the dogs of each map and of the map ids
of the sessions. -/
theorem JoinGame_sessions (a : Application) (map_id user_name : String)
    (gen1 gen2 road_idx : Nat) (t : ℚ) (r : JoinGameResult) (a' : Application)
    (hok : SessionsOk a.game_)
    (h : a.JoinGame map_id user_name gen1 gen2 road_idx t = some (some r, a')) :
    SessionsOk a'.game_ ∧
    (∀ id, dogsOfMap id a'.game_.sessions_ =
      dogsOfMap id a.game_.sessions_ ++ (if map_id = id then [r.player_id] else [])) ∧
    (∀ id, id ∈ a'.game_.sessions_.map (fun s => s.map_.id_) ↔
      id ∈ a.game_.sessions_.map (fun s => s.map_.id_) ∨ map_id = id) := by
  obtain ⟨hmaps, htable, hcases⟩ :=
    JoinGame_session_step a map_id user_name gen1 gen2 road_idx t r a' hok h
  have hcat : CatalogOk a'.game_ := by
    intro id index
    rw [hmaps, htable]
    exact hok.1 id index
  have hnodup := TableOk.nodup _ _ hok.2
  rcases hcases with ⟨index, s, hs, hid, -, hsessions, hst⟩ | ⟨hfree, map, hid, -, hsessions, hst⟩
  · have hids := map_id_set a.game_.sessions_ index s (s.dogs_ ++ [r.player_id]) hs
    refine ⟨⟨hcat, ?_⟩, ?_, ?_⟩
    · rw [hst, hsessions, hids]
      exact hok.2
    · intro id
      rw [hsessions, dogsOfMap_set id _ index s r.player_id hnodup hs, hid]
    · intro id
      rw [hsessions, hids]
      constructor
      · exact Or.inl
      · rintro (hmem | rfl)
        · exact hmem
        · exact List.mem_map.mpr ⟨s, List.getElem?_mem hs, hid⟩
  · have hnot : tableFind a.game_.session_id_to_index_ map_id = none :=
      (TableOk.find_none_iff _ _ hok.2 map_id).mpr (fun hmem => by
        obtain ⟨s, hs, hsid⟩ := List.mem_map.mp hmem
        exact hfree s hs hsid)
    refine ⟨⟨hcat, ?_⟩, ?_, ?_⟩
    · rw [hst, hsessions, List.map_append, List.map_singleton]
      show TableOk _ (a.game_.sessions_.map (fun s => s.map_.id_) ++ [map.id_])
      rw [hid]
      refine TableOk.extend _ _ _ _ hok.2 hnot ?_ ?_
      · rw [tableFind_assign_self, List.length_map]
      · intro key hkey
        exact tableFind_assign_ne _ _ _ _ hkey
    · intro id
      rw [hsessions, dogsOfMap_append]
      congr 1
      rw [dogsOfMap, dogsOfMap, hid]
      split_ifs <;> simp
    · intro id
      rw [hsessions, List.map_append, List.mem_append, List.map_singleton, List.mem_singleton]
      show _ ∨ id = map.id_ ↔ _
      rw [hid]
      exact or_congr Iff.rfl eq_comm

/-- The sessions along a sequence of joins that starts from a game that keeps the
invariant of the sessions. -/
theorem sessions_along_joins (reqs : List JoinRequest) (a : Application)
    (results : List (Option JoinGameResult)) (a' : Application)
    (h : a.joinAll reqs = some (results, a')) (hok : SessionsOk a.game_) :
    SessionsOk a'.game_ ∧
    (∀ id, dogsOfMap id a'.game_.sessions_ =
      dogsOfMap id a.game_.sessions_ ++ joinedDogs id reqs results) ∧
    (∀ id, id ∈ a'.game_.sessions_.map (fun s => s.map_.id_) ↔
      id ∈ a.game_.sessions_.map (fun s => s.map_.id_) ∨ joinedDogs id reqs results ≠ []) := by
  induction reqs generalizing a results with
  | nil =>
    simp only [Application.joinAll, Option.some.injEq, Prod.mk.injEq] at h
    obtain ⟨rfl, rfl⟩ := h
    exact ⟨hok, fun id => by simp [joinedDogs], fun id => by simp [joinedDogs]⟩
  | cons req rest ih =>
    unfold Application.joinAll at h
    obtain ⟨o1, ho1⟩ : ∃ o, a.JoinGame req.map_id req.user_name req.gen1 req.gen2
        req.road_idx req.t = o := ⟨_, rfl⟩
    rw [ho1] at h
    rcases o1 with _ | ⟨r, a1⟩
    · cases h
    · simp only [] at h
      obtain ⟨o2, ho2⟩ : ∃ o, a1.joinAll rest = o := ⟨_, rfl⟩
      rw [ho2] at h
      rcases o2 with _ | ⟨rs, a2⟩
      · cases h
      · simp only [Option.some.injEq, Prod.mk.injEq] at h
        obtain ⟨rfl, rfl⟩ := h
        rcases r with _ | r
        · obtain ⟨-, rfl⟩ := JoinGame_none_result a _ _ _ _ _ _ a1 ho1
          obtain ⟨h1, h2, h3⟩ := ih a1 rs ho2 hok
          exact ⟨h1, fun id => by rw [h2 id]; rfl, fun id => by rw [h3 id]; rfl⟩
        · obtain ⟨hok1, hd1, hi1⟩ := JoinGame_sessions a _ _ _ _ _ _ r a1 hok ho1
          obtain ⟨h1, h2, h3⟩ := ih a1 rs ho2 hok1
          refine ⟨h1, fun id => ?_, fun id => ?_⟩
          · rw [h2 id, hd1 id, joinedDogs, List.append_assoc]
            split_ifs <;> simp
          · rw [h3 id, hi1 id, joinedDogs]
            split_ifs with hid
            · simp [hid]
            · simp [hid]

/-- C22: one session per map.  After any sequence of `JoinGame` calls on a loaded catalog
without sessions, the sessions are on maps with pairwise distinct ids; a map has a session
exactly when a join to it has succeeded; the dog list of every session is the list of the
dogs that joined its map, in the order of the joins; `FindSession` returns the session of
the map id; and one more successful join appends a session whose only dog is the new one
when no join to the map has succeeded before, and otherwise appends the new dog to the
dog list of the session that `FindSession` returns and leaves the other sessions alone. -/
theorem Application.joinAll_sessions (g : Game) (reqs : List JoinRequest)
    (results : List (Option JoinGameResult)) (a' : Application)
    (hcat : CatalogOk g) (hsessions : g.sessions_ = []) (htable : g.session_id_to_index_ = [])
    (h : Application.joinAll { game_ := g, players_ := Players.fresh } reqs =
      some (results, a')) :
    (a'.game_.sessions_.map (fun s => s.map_.id_)).Nodup ∧
    (∀ map_id, (∃ s ∈ a'.game_.sessions_, s.map_.id_ = map_id) ↔
      joinedDogs map_id reqs results ≠ []) ∧
    (∀ s ∈ a'.game_.sessions_, s.dogs_ = joinedDogs s.map_.id_ reqs results) ∧
    (∀ map_id index, a'.game_.FindSession map_id = some (some index) ↔
      (a'.game_.sessions_[index]?).map (fun s => s.map_.id_) = some map_id) ∧
    (∀ map_id user_name gen1 gen2 road_idx t r a'',
      a'.JoinGame map_id user_name gen1 gen2 road_idx t = some (some r, a'') →
      (joinedDogs map_id reqs results = [] →
        ∃ map, a'.game_.FindMap map_id = some (some map) ∧ map.id_ = map_id ∧
          a''.game_.sessions_ = a'.game_.sessions_ ++
            [{ map_ := map, dogs_ := [r.player_id],
               randomize_spawn_points_ := a'.game_.randomize_spawn_points_ }]) ∧
      (joinedDogs map_id reqs results ≠ [] →
        ∃ index s, a'.game_.FindSession map_id = some (some index) ∧
          a'.game_.sessions_[index]? = some s ∧ s.map_.id_ = map_id ∧
          a''.game_.sessions_ =
            a'.game_.sessions_.set index { s with dogs_ := s.dogs_ ++ [r.player_id] })) := by
  have hstart : SessionsOk ({ game_ := g, players_ := Players.fresh } : Application).game_ := by
    refine ⟨hcat, ?_⟩
    show TableOk g.session_id_to_index_ (g.sessions_.map (fun s => s.map_.id_))
    rw [hsessions, htable]
    exact TableOk.of_nil
  obtain ⟨hok, hdogs, hids⟩ := sessions_along_joins reqs _ results a' h hstart
  have hd : ∀ id, dogsOfMap id a'.game_.sessions_ = joinedDogs id reqs results := by
    intro id
    rw [hdogs id]
    show dogsOfMap id g.sessions_ ++ _ = _
    rw [hsessions]
    rfl
  have hi : ∀ id, id ∈ a'.game_.sessions_.map (fun s => s.map_.id_) ↔
      joinedDogs id reqs results ≠ [] := by
    intro id
    rw [hids id]
    show id ∈ g.sessions_.map (fun s => s.map_.id_) ∨ _ ↔ _
    rw [hsessions]
    simp
  have hnodup := TableOk.nodup _ _ hok.2
  refine ⟨hnodup, ?_, ?_, ?_, ?_⟩
  · intro map_id
    rw [← hi map_id, List.mem_map]
  · intro s hs
    rw [← hd s.map_.id_]
    exact (dogsOfMap_of_mem _ s hnodup hs).symm
  · intro map_id index
    rw [← List.getElem?_map, ← hok.2 map_id index]
    constructor
    · intro hfound
      exact (FindSession_lt _ map_id index hfound).1
    · intro hfind
      have hget := (hok.2 map_id index).mp hfind
      have hlt : index < a'.game_.sessions_.length := by
        by_contra hc
        rw [List.getElem?_eq_none (by simpa using hc)] at hget
        cases hget
      unfold Game.FindSession
      simp only [hfind, hlt, if_true]
  · intro map_id user_name gen1 gen2 road_idx t r a'' hjoin
    obtain ⟨-, -, hcases⟩ :=
      JoinGame_session_step a' map_id user_name gen1 gen2 road_idx t r a'' hok hjoin
    rcases hcases with ⟨index, s, hs, hid, hfound, hset, -⟩ | ⟨hfree, map, hid, hmap, happ, -⟩
    · have hmem : map_id ∈ a'.game_.sessions_.map (fun s => s.map_.id_) :=
        List.mem_map.mpr ⟨s, List.getElem?_mem hs, hid⟩
      exact ⟨fun hnil => absurd hnil ((hi map_id).mp hmem),
        fun _ => ⟨index, s, hfound, hs, hid, hset⟩⟩
    · have hnot : map_id ∉ a'.game_.sessions_.map (fun s => s.map_.id_) := by
        intro hmem
        obtain ⟨s, hs, hsid⟩ := List.mem_map.mp hmem
        exact hfree s hs hsid
      exact ⟨fun _ => ⟨map, hmap, hid, happ⟩, fun hne => absurd ((hi map_id).mpr hne) hnot⟩

/-- C22 at the two joins to `m1` of the scenarios: the one session of the map holds the
dogs `0` and `1` of the two joins, in this order. -/
theorem Application.joinAll_sessions_witness :
    scenario.afterTwinJoins.game_.sessions_.map (fun s => s.dogs_) =
      scenario.afterTwinJoins.game_.sessions_.map (fun s => joinedDogs s.map_.id_
        scenario.twinJoins
        [some { token := "000000000000002a00000000000000ff", player_id := 0 },
         some { token := "000000000000002a00000000000000ff", player_id := 1 }]) :=
  List.map_congr_left
    (Application.joinAll_sessions scenario.catalog scenario.twinJoins
      [some { token := "000000000000002a00000000000000ff", player_id := 0 },
       some { token := "000000000000002a00000000000000ff", player_id := 1 }]
      scenario.afterTwinJoins (CatalogOk.addMaps Game.fresh _ CatalogOk.fresh) rfl rfl
      (by decide)).2.2.1

/-! ## The dogs stay on the roads -/

theorem DogsOnRoads.of_empty : DogsOnRoads [] [] := by
  refine ⟨?_, ?_, ?_, ?_⟩
  · intro i s h; simp at h
  · intro i j s1 s2 ptr h; simp at h
  · intro ptr h; simp at h
  · intro i s h; simp at h

theorem getElem?_append_singleton (l : List GameSession) (x y : GameSession) (i : Nat)
    (h : (l ++ [x])[i]? = some y) : l[i]? = some y ∨ (i = l.length ∧ y = x) := by
  rcases Nat.lt_trichotomy i l.length with hlt | heq | hgt
  · rw [List.getElem?_append_left hlt] at h
    exact Or.inl h
  · subst heq
    rw [List.getElem?_concat_length] at h
    exact Or.inr ⟨rfl, (Option.some.inj h).symm⟩
  · rw [List.getElem?_eq_none (by simp; omega)] at h
    cases h

theorem getElem?_lt_of_some (l : List GameSession) (i : Nat) (s : GameSession)
    (h : l[i]? = some s) : i < l.length := by
  by_contra hc
  rw [List.getElem?_eq_none (not_lt.mp hc)] at h
  cases h

/-- A new session without dogs keeps the invariant. -/
theorem DogsOnRoads.add_session (l : List GameSession) (dogs : List Dog) (s0 : GameSession)
    (hempty : s0.dogs_ = []) (h : DogsOnRoads l dogs) : DogsOnRoads (l ++ [s0]) dogs := by
  obtain ⟨h1, h2, h3, h4⟩ := h
  refine ⟨?_, ?_, ?_, ?_⟩
  · intro i s hs
    rcases getElem?_append_singleton l s0 s i hs with hl | ⟨-, rfl⟩
    · exact h1 i s hl
    · rw [hempty]
      exact ⟨List.nodup_nil, fun ptr hp => absurd hp (List.not_mem_nil _)⟩
  · intro i j s1 s2 ptr hs1 hs2 hp1 hp2
    rcases getElem?_append_singleton l s0 s1 i hs1 with hl1 | ⟨-, rfl⟩
    · rcases getElem?_append_singleton l s0 s2 j hs2 with hl2 | ⟨-, rfl⟩
      · exact h2 i j s1 s2 ptr hl1 hl2 hp1 hp2
      · rw [hempty] at hp2
        cases hp2
    · rw [hempty] at hp1
      cases hp1
  · intro ptr hptr
    obtain ⟨i, s, hs, hp⟩ := h3 ptr hptr
    exact ⟨i, s, by rw [List.getElem?_append_left (getElem?_lt_of_some l i s hs)]; exact hs, hp⟩
  · intro i s hs hroads ptr hp
    rcases getElem?_append_singleton l s0 s i hs with hl | ⟨-, rfl⟩
    · exact h4 i s hl hroads ptr hp
    · rw [hempty] at hp
      cases hp

theorem getElem?_set_cases (l : List GameSession) (i j : Nat) (x y : GameSession)
    (h : (l.set i x)[j]? = some y) : (j = i ∧ y = x) ∨ (j ≠ i ∧ l[j]? = some y) := by
  by_cases hij : i = j
  · subst hij
    have hlt : i < l.length := by
      have := getElem?_lt_of_some _ _ _ h
      simpa using this
    rw [List.getElem?_set_self hlt] at h
    exact Or.inl ⟨rfl, (Option.some.inj h).symm⟩
  · rw [List.getElem?_set_ne hij] at h
    exact Or.inr ⟨fun hji => hij hji.symm, h⟩

/-- A new dog at the end of the arena, added to the dog list of one session, keeps the
invariant when it stands on a road of the map of the session. -/
theorem DogsOnRoads.add_dog (l : List GameSession) (dogs : List Dog) (i : Nat)
    (s : GameSession) (d : Dog) (h : DogsOnRoads l dogs) (hs : l[i]? = some s)
    (hd : s.map_.roads_ ≠ [] → ∃ road ∈ s.map_.roads_, InBand road d.pos_) :
    DogsOnRoads (l.set i { s with dogs_ := s.dogs_ ++ [dogs.length] }) (dogs ++ [d]) := by
  obtain ⟨h1, h2, h3, h4⟩ := h
  have hi : i < l.length := getElem?_lt_of_some l i s hs
  have hfresh : ∀ (j : Nat) (s2 : GameSession), l[j]? = some s2 → dogs.length ∉ s2.dogs_ := fun j s2 hs2 hmem =>
    absurd ((h1 j s2 hs2).2 _ hmem) (lt_irrefl _)
  refine ⟨?_, ?_, ?_, ?_⟩
  · intro j s2 hs2
    rcases getElem?_set_cases l i j _ s2 hs2 with ⟨-, rfl⟩ | ⟨-, hl⟩
    · refine ⟨?_, ?_⟩
      · show (s.dogs_ ++ [dogs.length]).Nodup
        rw [List.nodup_append]
        refine ⟨(h1 i s hs).1, List.nodup_singleton _, ?_⟩
        intro p hp hp2
        rw [List.mem_singleton] at hp2
        subst hp2
        exact hfresh i s hs hp
      · intro ptr hp
        rw [List.length_append, List.length_singleton]
        rcases List.mem_append.mp hp with hp1 | hp2
        · exact Nat.lt_succ_of_lt ((h1 i s hs).2 ptr hp1)
        · rw [List.mem_singleton.mp hp2]
          exact Nat.lt_succ_self _
    · refine ⟨(h1 j s2 hl).1, fun ptr hp => ?_⟩
      rw [List.length_append, List.length_singleton]
      exact Nat.lt_succ_of_lt ((h1 j s2 hl).2 ptr hp)
  · intro j k s1 s2 ptr hs1 hs2 hp1 hp2
    rcases getElem?_set_cases l i j _ s1 hs1 with ⟨hj, rfl⟩ | ⟨hj, hl1⟩
    · rcases getElem?_set_cases l i k _ s2 hs2 with ⟨hk, rfl⟩ | ⟨hk, hl2⟩
      · rw [hj, hk]
      · rcases List.mem_append.mp hp1 with hp | hp
        · rw [hj]
          exact h2 i k s s2 ptr hs hl2 hp hp2
        · rw [List.mem_singleton.mp hp] at hp2
          exact absurd hp2 (hfresh k s2 hl2)
    · rcases getElem?_set_cases l i k _ s2 hs2 with ⟨hk, rfl⟩ | ⟨hk, hl2⟩
      · rcases List.mem_append.mp hp2 with hp | hp
        · rw [hk]
          exact h2 j i s1 s ptr hl1 hs hp1 hp
        · rw [List.mem_singleton.mp hp] at hp1
          exact absurd hp1 (hfresh j s1 hl1)
      · exact h2 j k s1 s2 ptr hl1 hl2 hp1 hp2
  · intro ptr hptr
    rw [List.length_append, List.length_singleton] at hptr
    rcases Nat.lt_succ_iff_lt_or_eq.mp hptr with hlt | heq
    · obtain ⟨j, s2, hs2, hp⟩ := h3 ptr hlt
      by_cases hji : j = i
      · subst hji
        rw [hs] at hs2
        cases hs2
        exact ⟨j, _, List.getElem?_set_self hi, List.mem_append_left _ hp⟩
      · exact ⟨j, s2, by rw [List.getElem?_set_ne (fun h => hji h.symm)]; exact hs2, hp⟩
    · exact ⟨i, _, List.getElem?_set_self hi, by rw [heq]; simp⟩
  · intro j s2 hs2 hroads ptr hp
    rcases getElem?_set_cases l i j _ s2 hs2 with ⟨-, rfl⟩ | ⟨-, hl⟩
    · rcases List.mem_append.mp hp with hp1 | hp2
      · obtain ⟨dog, hdog, hon⟩ := h4 i s hs hroads ptr hp1
        exact ⟨dog, by rw [List.getElem?_append_left ((h1 i s hs).2 ptr hp1)]; exact hdog, hon⟩
      · rw [List.mem_singleton.mp hp2]
        exact ⟨d, List.getElem?_concat_length _ _, hd hroads⟩
    · obtain ⟨dog, hdog, hon⟩ := h4 j s2 hl hroads ptr hp
      exact ⟨dog, by rw [List.getElem?_append_left ((h1 j s2 hl).2 ptr hp)]; exact hdog, hon⟩

/-- An arena of the same length whose dogs stand where they stood keeps the invariant. -/
theorem DogsOnRoads.of_positions (l : List GameSession) (dogs dogs' : List Dog)
    (h : DogsOnRoads l dogs) (hlen : dogs'.length = dogs.length)
    (hpos : ∀ (ptr : Nat) (d : Dog), dogs[ptr]? = some d →
      ∃ d' : Dog, dogs'[ptr]? = some d' ∧ d'.pos_ = d.pos_) :
    DogsOnRoads l dogs' := by
  obtain ⟨h1, h2, h3, h4⟩ := h
  refine ⟨?_, h2, ?_, ?_⟩
  · intro i s hs
    rw [hlen]
    exact h1 i s hs
  · intro ptr hptr
    rw [hlen] at hptr
    exact h3 ptr hptr
  · intro i s hs hroads ptr hp
    obtain ⟨dog, hdog, hon⟩ := h4 i s hs hroads ptr hp
    obtain ⟨d', hd', hsame⟩ := hpos ptr dog hdog
    exact ⟨d', hd', by rw [hsame]; exact hon⟩

/-- The loop body keeps a dog that stands on a road of the map on a road of the map. -/
theorem tickDog_on_road (roads : List Road) (delta : Int) (dog : Dog)
    (hon : ∃ road ∈ roads, InBand road dog.pos_) :
    ∃ road ∈ roads, InBand road (tickDog roads ((delta : ℚ) / 1000) dog).pos_ := by
  obtain ⟨road, hroad, hin⟩ := hon
  by_cases hspeed : dog.speed_.u = 0 ∧ dog.speed_.v = 0
  · rw [tickDog_of_zero _ _ _ hspeed]
    exact ⟨road, hroad, hin⟩
  · have hne := RCurrent_ne_nil _ _ road hroad hin
    obtain ⟨r, hr, -, hfinal⟩ := finalPos_mem roads dog.pos_ (naiveDestination dog delta) hne
    refine ⟨r, hr, ?_⟩
    rw [tickDog_pos _ _ _ hspeed hne, hfinal]
    exact clampToBand_inBand r _

/-- The ticks of sessions that do not hold a pointer leave its dog alone. -/
theorem foldl_Tick_untouched (delta : Int) (l : List GameSession) (dogs : List Dog) (ptr : Nat)
    (h : ∀ s ∈ l, ptr ∉ s.dogs_) :
    (l.foldl (fun ds session => GameSession.Tick session delta ds) dogs)[ptr]? = dogs[ptr]? := by
  induction l generalizing dogs with
  | nil => rfl
  | cons x rest ih =>
    rw [List.foldl_cons, ih _ (fun s hs => h s (List.mem_cons_of_mem _ hs))]
    exact foldl_modifyDog_not_mem _ x.dogs_ dogs ptr (h x (List.mem_cons_self _ _))

/-- Among sessions that share no pointer, the ticks of all sessions run the loop body of
its own session once on every dog. -/
theorem foldl_Tick_getElem? (delta : Int) (l : List GameSession) (dogs : List Dog)
    (hnodup : ∀ (i : Nat) (s : GameSession), l[i]? = some s → s.dogs_.Nodup)
    (hdisj : ∀ (i j : Nat) (s1 s2 : GameSession) (ptr : Nat),
      l[i]? = some s1 → l[j]? = some s2 → ptr ∈ s1.dogs_ → ptr ∈ s2.dogs_ → i = j)
    (i : Nat) (s : GameSession) (hs : l[i]? = some s) (ptr : Nat) (hp : ptr ∈ s.dogs_) :
    (l.foldl (fun ds session => GameSession.Tick session delta ds) dogs)[ptr]? =
      (dogs[ptr]?).map (tickDog s.map_.roads_ ((delta : ℚ) / 1000)) := by
  induction l generalizing dogs i with
  | nil => simp at hs
  | cons x rest ih =>
    rw [List.foldl_cons]
    cases i with
    | zero =>
      have hxs : x = s := by simpa using hs
      subst hxs
      have hfree : ∀ s2 ∈ rest, ptr ∉ s2.dogs_ := by
        intro s2 hs2 hp2
        obtain ⟨j, hj, hget⟩ := List.mem_iff_getElem.mp hs2
        have h0 := hdisj 0 (j + 1) x s2 ptr (List.getElem?_cons_zero ..)
          (by rw [List.getElem?_cons_succ, List.getElem?_eq_getElem hj, hget]) hp hp2
        omega
      rw [foldl_Tick_untouched delta rest _ ptr hfree]
      exact GameSession.Tick_getElem?_of_mem x delta dogs ptr (hnodup 0 x (List.getElem?_cons_zero ..)) hp
    | succ k =>
      have hs2 : rest[k]? = some s := by simpa using hs
      rw [ih (x.Tick delta dogs) (fun j s2 hj => hnodup (j + 1) s2 (by simpa using hj))
        (fun j1 j2 s1 s2 q h1 h2 hq1 hq2 => by
          have := hdisj (j1 + 1) (j2 + 1) s1 s2 q (by simpa using h1) (by simpa using h2) hq1 hq2
          omega) k hs2]
      have hnot : ptr ∉ x.dogs_ := by
        intro hpx
        have := hdisj 0 (k + 1) x s ptr (List.getElem?_cons_zero ..) hs hpx hp
        omega
      rw [show (x.Tick delta dogs)[ptr]? = dogs[ptr]? from
        foldl_modifyDog_not_mem _ x.dogs_ dogs ptr hnot]

/-- The invariant survives `Game::Tick`. -/
theorem DogsOnRoads.Tick (g : Game) (delta : Int) (dogs : List Dog)
    (h : DogsOnRoads g.sessions_ dogs) : DogsOnRoads g.sessions_ (g.Tick delta dogs) := by
  obtain ⟨h1, h2, h3, h4⟩ := h
  have hlen := Game.Tick_arena_length g delta dogs
  refine ⟨?_, h2, ?_, ?_⟩
  · intro i s hs
    rw [hlen]
    exact h1 i s hs
  · intro ptr hptr
    rw [hlen] at hptr
    exact h3 ptr hptr
  · intro i s hs hroads ptr hp
    obtain ⟨dog, hdog, hon⟩ := h4 i s hs hroads ptr hp
    have htick := foldl_Tick_getElem? delta g.sessions_ dogs (fun j s2 hj => (h1 j s2 hj).1) h2
      i s hs ptr hp
    rw [hdog] at htick
    exact ⟨_, htick, tickDog_on_road s.map_.roads_ delta dog hon⟩

/-- A point of the segment of a road lies in its band. -/
theorem segment_inBand (road : Road) (t : ℚ) (ht0 : 0 ≤ t) (ht1 : t ≤ 1) :
    InBand road
      { x := (road.start_.x : ℚ) + t * ((road.end_.x - road.start_.x : Int) : ℚ),
        y := (road.start_.y : ℚ) + t * ((road.end_.y - road.start_.y : Int) : ℚ) } := by
  have key : ∀ a b : ℚ, min a b - 2 / 5 ≤ a + t * (b - a) ∧ a + t * (b - a) ≤ max a b + 2 / 5 := by
    intro a b
    rcases le_total a b with hab | hab
    · rw [min_eq_left hab, max_eq_right hab]
      have h1 := mul_nonneg ht0 (sub_nonneg.mpr hab)
      have h2 := mul_nonneg (sub_nonneg.mpr ht1) (sub_nonneg.mpr hab)
      constructor <;> nlinarith
    · rw [min_eq_right hab, max_eq_left hab]
      have h1 := mul_nonneg ht0 (sub_nonneg.mpr hab)
      have h2 := mul_nonneg (sub_nonneg.mpr ht1) (sub_nonneg.mpr hab)
      constructor <;> nlinarith
  unfold InBand
  push_cast
  exact ⟨(key _ _).1, (key _ _).2, (key _ _).1, (key _ _).2⟩

/-- The spawn puts the dog on a road of the map, when the map has one, the coordinate
differences of its roads do not overflow and the drawn parameter lies in `[0, 1]`. -/
theorem AddDog_on_road (s : GameSession) (ptr : Nat) (dog : Dog) (road_idx : Nat) (t : ℚ)
    (s' : GameSession) (d' : Dog) (h : s.AddDog ptr dog road_idx t = some (s', d'))
    (ht0 : 0 ≤ t) (ht1 : t ≤ 1) (hfit : ∀ road ∈ s.map_.roads_, RoadFits road)
    (hroads : s.map_.roads_ ≠ []) :
    ∃ road ∈ s.map_.roads_, InBand road d'.pos_ := by
  unfold GameSession.AddDog at h
  cases hr : s.map_.roads_ with
  | nil => exact absurd hr hroads
  | cons first rest =>
    rw [hr] at h hfit
    simp only [] at h
    by_cases hrand : s.randomize_spawn_points_ = true
    · simp only [hrand, if_true] at h
      cases hroad : (first :: rest)[road_idx]? with
      | none => simp [hroad] at h
      | some road =>
        simp only [hroad, Option.some.injEq, Prod.mk.injEq] at h
        obtain ⟨-, hd⟩ := h
        have hmem := List.getElem?_mem hroad
        refine ⟨road, hmem, ?_⟩
        rw [← hd]
        show InBand road
          { x := (road.start_.x : ℚ) + t * ((toInt32 (road.end_.x - road.start_.x) : Int) : ℚ),
            y := (road.start_.y : ℚ) + t * ((toInt32 (road.end_.y - road.start_.y) : Int) : ℚ) }
        rw [(hfit road hmem).1, (hfit road hmem).2]
        exact segment_inBand road t ht0 ht1
    · simp only [hrand, Bool.false_eq_true, if_false, Option.some.injEq, Prod.mk.injEq] at h
      refine ⟨first, List.mem_cons_self _ _, ?_⟩
      rw [← h.2]
      have := segment_inBand first 0 (le_refl _) zero_le_one
      simpa using this

theorem moveDog_pos (speed_val : ℚ) (move_cmd : String) (dog : Dog) :
    (moveDog speed_val move_cmd dog).pos_ = dog.pos_ := by
  unfold moveDog
  simp only []
  split_ifs <;> rfl

/-- The map that `FindMap` returns is a map of the catalog. -/
theorem FindMap_mem (g : Game) (id : String) (map : Map)
    (h : g.FindMap id = some (some map)) : map ∈ g.maps_ := by
  unfold Game.FindMap at h
  cases hfind : tableFind g.map_id_to_index_ id with
  | none => simp [hfind] at h
  | some index =>
    rw [hfind] at h
    simp only [] at h
    cases hget : g.maps_[index]? with
    | none => simp [hget] at h
    | some m =>
      simp only [hget, Option.some.injEq] at h
      rw [← h]
      exact List.getElem?_mem hget

theorem mem_set_session (l : List GameSession) (i : Nat) (s x : GameSession) (dogs : List Nat)
    (hs : l[i]? = some s) (hx : x ∈ l.set i { s with dogs_ := dogs }) :
    ∃ y ∈ l, y.map_ = x.map_ := by
  obtain ⟨j, hj, hget⟩ := List.mem_iff_getElem.mp hx
  have hxj : (l.set i { s with dogs_ := dogs })[j]? = some x := by
    rw [List.getElem?_eq_getElem hj, hget]
  rcases getElem?_set_cases l i j _ x hxj with ⟨-, rfl⟩ | ⟨-, hl⟩
  · exact ⟨s, List.getElem?_mem hs, rfl⟩
  · exact ⟨x, List.getElem?_mem hl, rfl⟩

/-- The invariant survives `JoinGame`, when the coordinate differences of the roads do
not overflow and the drawn parameter lies in `[0, 1]`. -/
theorem DogsOnRoads.JoinGame (a : Application) (map_id user_name : String)
    (gen1 gen2 road_idx : Nat) (t : ℚ) (r : Option JoinGameResult) (a' : Application)
    (h : a.JoinGame map_id user_name gen1 gen2 road_idx t = some (r, a'))
    (ht0 : 0 ≤ t) (ht1 : t ≤ 1)
    (hmaps : ∀ m ∈ a.game_.maps_, ∀ road ∈ m.roads_, RoadFits road)
    (hsess : ∀ s ∈ a.game_.sessions_, ∀ road ∈ s.map_.roads_, RoadFits road)
    (hinv : DogsOnRoads a.game_.sessions_ a.players_.dogs_) :
    a'.game_.maps_ = a.game_.maps_ ∧
    (∀ s ∈ a'.game_.sessions_, ∀ road ∈ s.map_.roads_, RoadFits road) ∧
    DogsOnRoads a'.game_.sessions_ a'.players_.dogs_ := by
  rcases r with _ | r
  · obtain ⟨-, rfl⟩ := JoinGame_none_result a _ _ _ _ _ _ a' h
    exact ⟨rfl, hsess, hinv⟩
  · obtain ⟨map, session, game, s, s', dog, hmap, hjoin, hs, hspawn, -, rfl⟩ :=
      JoinGame_steps a map_id user_name gen1 gen2 road_idx t r a' h
    obtain ⟨hs', -⟩ :=
      GameSession.AddDog_eq_some s a.players_.dogs_.length (Dog.ofName user_name) road_idx t s'
        dog hspawn
    have hgame : game.maps_ = a.game_.maps_ ∧
        (∀ x ∈ game.sessions_, ∀ road ∈ x.map_.roads_, RoadFits road) ∧
        DogsOnRoads game.sessions_ a.players_.dogs_ := by
      rcases hjoin with ⟨-, rfl⟩ | ⟨-, hadd⟩
      · exact ⟨rfl, hsess, hinv⟩
      · rw [AddSession_of_map a.game_ map_id map hmap] at hadd
        simp only [Option.some.injEq, Prod.mk.injEq] at hadd
        rw [← hadd.2]
        refine ⟨rfl, ?_, DogsOnRoads.add_session _ _ _ rfl hinv⟩
        intro x hx
        rcases List.mem_append.mp hx with hx | hx
        · exact hsess x hx
        · rw [List.mem_singleton.mp hx]
          exact hmaps map (FindMap_mem a.game_ map_id map hmap)
    obtain ⟨hgmaps, hgsess, hginv⟩ := hgame
    have hsfit := hgsess s (List.getElem?_mem hs)
    have hadd := DogsOnRoads.add_dog game.sessions_ a.players_.dogs_ session s
      { dog with id_ := a.players_.dogs_.length } hginv hs
      (fun hroads => AddDog_on_road s _ _ road_idx t s' dog hspawn ht0 ht1 hsfit hroads)
    rw [hs']
    refine ⟨hgmaps, ?_, hadd⟩
    intro x hx
    obtain ⟨y, hy, hmapeq⟩ := mem_set_session game.sessions_ session s x _ hs hx
    rw [← hmapeq]
    exact hgsess y hy

/-- The invariant survives `MovePlayer`. -/
theorem DogsOnRoads.MovePlayer (a : Application) (player : Player) (move_cmd : String)
    (a' : Application) (h : a.MovePlayer player move_cmd = some a')
    (hinv : DogsOnRoads a.game_.sessions_ a.players_.dogs_) :
    a'.game_ = a.game_ ∧ DogsOnRoads a'.game_.sessions_ a'.players_.dogs_ := by
  cases hdog : a.players_.dogs_[player.dog_]? with
  | none =>
    unfold Application.MovePlayer at h
    simp [hdog] at h
  | some dog =>
    cases hsession : a.game_.sessions_[player.session_]? with
    | none =>
      unfold Application.MovePlayer at h
      simp [hdog, hsession] at h
    | some session =>
      rw [Application.MovePlayer_eq a player move_cmd dog session hdog hsession] at h
      have ha := Option.some.inj h
      subst ha
      refine ⟨rfl, DogsOnRoads.of_positions _ _ _ hinv (by simp) ?_⟩
      intro ptr d hd
      obtain ⟨hself, hne⟩ := getElem?_set_moveDog a.players_.dogs_ player.dog_ dog
        (moveDog (effectiveSpeed a.game_ session.map_) move_cmd dog) hdog
      by_cases hp : ptr = player.dog_
      · subst hp
        rw [hdog] at hd
        cases hd
        exact ⟨_, hself, moveDog_pos _ _ _⟩
      · exact ⟨d, by rw [← hd]; exact hne ptr hp, rfl⟩

/-- The invariant along a sequence of operations whose joins draw their parameter from
`[0, 1]`, over maps whose roads have coordinate differences that do not overflow. -/
theorem run_invariant (ops : List Op) (a a' : Application) (h : a.run ops = some a')
    (hdraws : ∀ req, Op.join req ∈ ops → 0 ≤ req.t ∧ req.t ≤ 1)
    (hmaps : ∀ m ∈ a.game_.maps_, ∀ road ∈ m.roads_, RoadFits road)
    (hsess : ∀ s ∈ a.game_.sessions_, ∀ road ∈ s.map_.roads_, RoadFits road)
    (hinv : DogsOnRoads a.game_.sessions_ a.players_.dogs_) :
    DogsOnRoads a'.game_.sessions_ a'.players_.dogs_ := by
  induction ops generalizing a with
  | nil =>
    simp only [Application.run, Option.some.injEq] at h
    rw [← h]
    exact hinv
  | cons op rest ih =>
    unfold Application.run at h
    obtain ⟨o, ho⟩ : ∃ o, a.step op = o := ⟨_, rfl⟩
    rw [ho] at h
    rcases o with _ | a1
    · cases h
    · simp only [] at h
      have hstep : a1.game_.maps_ = a.game_.maps_ ∧
          (∀ s ∈ a1.game_.sessions_, ∀ road ∈ s.map_.roads_, RoadFits road) ∧
          DogsOnRoads a1.game_.sessions_ a1.players_.dogs_ := by
        cases op with
        | join req =>
          obtain ⟨ht0, ht1⟩ := hdraws req (List.mem_cons_self _ _)
          simp only [Application.step] at ho
          obtain ⟨out, hout⟩ : ∃ out, a.JoinGame req.map_id req.user_name req.gen1 req.gen2
              req.road_idx req.t = out := ⟨_, rfl⟩
          rw [hout] at ho
          rcases out with _ | ⟨r, a2⟩
          · cases ho
          · simp only [Option.map_some', Option.some.injEq] at ho
            subst ho
            exact DogsOnRoads.JoinGame a _ _ _ _ _ _ r a2 hout ht0 ht1 hmaps hsess hinv
        | move player move_cmd =>
          simp only [Application.step] at ho
          cases hp : a.players_.players_[player]? with
          | none => simp [hp] at ho
          | some p =>
            simp only [hp] at ho
            split_ifs at ho
            obtain ⟨hg, hd⟩ := DogsOnRoads.MovePlayer a p move_cmd a1 ho hinv
            exact ⟨by rw [hg], by rw [hg]; exact hsess, hd⟩
        | tick delta =>
          simp only [Application.step, Option.some.injEq] at ho
          subst ho
          exact ⟨rfl, hsess, DogsOnRoads.Tick a.game_ delta a.players_.dogs_ hinv⟩
      obtain ⟨hm1, hs1, hd1⟩ := hstep
      exact ih a1 h (fun req hreq => hdraws req (List.mem_cons_of_mem _ hreq))
        (by rw [hm1]; exact hmaps) hs1 hd1

/-- The reachable states of the application.  After any sequence of `JoinGame`,
`MovePlayer` and `Tick` operations that has defined behaviour, on an application that
starts without sessions and players over maps whose roads have coordinate differences
that fit an `int`, in either spawn mode and with any road index and any parameter `t` in
`[0, 1]` drawn by the joins, every dog of the arena is in exactly one session, and every
dog of a session whose map has a road stands in the band of a road of that map, so that
the list `current_roads` of `Tick` is not empty for it and the off-road branch is not
taken. -/
theorem Application.run_on_roads (g : Game) (ops : List Op) (a' : Application)
    (hsessions : g.sessions_ = [])
    (hfit : ∀ m ∈ g.maps_, ∀ road ∈ m.roads_, RoadFits road)
    (hdraws : ∀ req, Op.join req ∈ ops → 0 ≤ req.t ∧ req.t ≤ 1)
    (h : Application.run { game_ := g, players_ := Players.fresh } ops = some a') :
    (∀ ptr, ptr < a'.players_.dogs_.length → ∃ s ∈ a'.game_.sessions_, ptr ∈ s.dogs_) ∧
    (∀ (i j : Nat) (s1 s2 : GameSession) (ptr : Nat), a'.game_.sessions_[i]? = some s1 →
      a'.game_.sessions_[j]? = some s2 → ptr ∈ s1.dogs_ → ptr ∈ s2.dogs_ → i = j) ∧
    (∀ s ∈ a'.game_.sessions_, s.map_.roads_ ≠ [] → ∀ ptr ∈ s.dogs_,
      ∃ dog, a'.players_.dogs_[ptr]? = some dog ∧
        (∃ road ∈ s.map_.roads_, InBand road dog.pos_) ∧
        (currentRoads s.map_.roads_ dog.pos_).isEmpty = false ∧
        ∀ delta, (tickDog s.map_.roads_ ((delta : Int) / 1000) dog).pos_ =
          (if dog.speed_.u = 0 ∧ dog.speed_.v = 0 then dog.pos_
           else finalPos (RCurrent s.map_.roads_ dog.pos_) dog.pos_
             (naiveDestination dog delta))) := by
  have hstart : DogsOnRoads
      ({ game_ := g, players_ := Players.fresh } : Application).game_.sessions_
      ({ game_ := g, players_ := Players.fresh } : Application).players_.dogs_ := by
    show DogsOnRoads g.sessions_ []
    rw [hsessions]
    exact DogsOnRoads.of_empty
  have hsess : ∀ s ∈ ({ game_ := g, players_ := Players.fresh } : Application).game_.sessions_,
      ∀ road ∈ s.map_.roads_, RoadFits road := by
    intro s hs
    have hs2 : s ∈ g.sessions_ := hs
    rw [hsessions] at hs2
    cases hs2
  obtain ⟨-, h2, h3, h4⟩ := run_invariant ops _ a' h hdraws hfit hsess hstart
  refine ⟨?_, h2, ?_⟩
  · intro ptr hptr
    obtain ⟨i, s, hs, hp⟩ := h3 ptr hptr
    exact ⟨s, List.getElem?_mem hs, hp⟩
  · intro s hs hroads ptr hp
    obtain ⟨i, hi, hget⟩ := List.mem_iff_getElem.mp hs
    obtain ⟨dog, hdog, road, hroad, hin⟩ :=
      h4 i s (by rw [List.getElem?_eq_getElem hi, hget]) hroads ptr hp
    have hne := RCurrent_ne_nil _ _ road hroad hin
    refine ⟨dog, hdog, ⟨road, hroad, hin⟩, ?_, ?_⟩
    · rw [currentRoads_eq]
      cases hR : RCurrent s.map_.roads_ dog.pos_ with
      | nil => exact absurd hR hne
      | cons x rest => rfl
    · intro delta
      by_cases hspeed : dog.speed_.u = 0 ∧ dog.speed_.v = 0
      · rw [if_pos hspeed, tickDog_of_zero _ _ _ hspeed]
      · rw [if_neg hspeed, tickDog_pos _ _ _ hspeed hne]

theorem run_append (a : Application) (ops1 ops2 : List Op) :
    a.run (ops1 ++ ops2) = (a.run ops1).bind (fun a1 => a1.run ops2) := by
  induction ops1 generalizing a with
  | nil => rfl
  | cons op rest ih =>
    rw [List.cons_append, Application.run, Application.run]
    cases a.step op with
    | none => rfl
    | some a1 => exact ih a1

/-- The roads of the maps of the scenarios have coordinate differences that fit an
`int`. -/
theorem catalog_fits : ∀ m ∈ scenario.catalog.maps_, ∀ road ∈ m.roads_, RoadFits road := by
  have hmaps : scenario.catalog.maps_ =
      [scenario.emptyMap, scenario.oneRoadMap, scenario.junctionMap] := by decide
  rw [hmaps]
  intro m hm road hroad
  simp only [List.mem_cons, List.mem_singleton, List.not_mem_nil, or_false] at hm
  rcases hm with rfl | rfl | rfl
  · cases hroad
  · simp only [scenario.oneRoadMap, List.mem_singleton] at hroad
    subst hroad
    decide
  · simp only [scenario.junctionMap, List.mem_cons, List.mem_singleton, List.not_mem_nil,
      or_false] at hroad
    rcases hroad with rfl | rfl <;> decide

/-- The reachable states at the scenario of the clamp: `alice` joins the map `m1`, moves
right, and the game is ticked by 100 seconds; her dog still has a current road. -/
theorem Application.run_on_roads_witness :
    ((scenario.afterMoveRight.game_.Tick 100000 scenario.afterMoveRight.players_.dogs_)[0]?).map
        (fun d => (currentRoads scenario.oneRoadMap.roads_ d.pos_).isEmpty) = some false := by
  have h2 : Application.run scenario.startApp
      [Op.join { map_id := "m1", user_name := "alice", gen1 := 42, gen2 := 255,
                 road_idx := 0, t := 0 },
       Op.move 0 "R"] = some scenario.afterMoveRight := by decide
  have hrun : Application.run { game_ := scenario.catalog, players_ := Players.fresh }
      ([Op.join { map_id := "m1", user_name := "alice", gen1 := 42, gen2 := 255,
                  road_idx := 0, t := 0 },
        Op.move 0 "R"] ++ [Op.tick 100000]) =
      some { scenario.afterMoveRight with players_ := { scenario.afterMoveRight.players_ with
        dogs_ := scenario.afterMoveRight.game_.Tick 100000
          scenario.afterMoveRight.players_.dogs_ } } := by
    rw [run_append]
    show (Application.run scenario.startApp _).bind _ = _
    rw [h2]
    rfl
  obtain ⟨dog, hdog, -, hcur, -⟩ :=
    (Application.run_on_roads scenario.catalog _ _ rfl catalog_fits
      (by
        intro req hreq
        simp only [List.cons_append, List.nil_append, List.mem_cons, Op.join.injEq,
          reduceCtorEq, List.mem_singleton, or_false, List.not_mem_nil] at hreq
        rw [hreq]
        exact ⟨le_refl _, zero_le_one⟩)
      hrun).2.2 (scenario.sessionOf scenario.oneRoadMap) (by decide) (by decide) 0 (by decide)
  have hdog2 : (scenario.afterMoveRight.game_.Tick 100000
      scenario.afterMoveRight.players_.dogs_)[0]? = some dog := hdog
  rw [hdog2]
  exact congrArg some hcur

/-- The random spawn on the wide road with the parameter `1/2`: the `int` difference
`2000000000 - (-2000000000)` wraps to `-294967296`, and the dog is put at
`x = -2147483648`. -/
theorem AddDog_wide :
    scenario.wideSession.AddDog 0 (Dog.ofName "alice") 0 (1 / 2) =
      some ({ map_ := scenario.wideMap, dogs_ := [0], randomize_spawn_points_ := true },
        { id_ := 0, name_ := "alice", pos_ := { x := -2147483648, y := 0 },
          speed_ := { u := 0, v := 0 }, dir_ := "U" }) := by
  have hx : toInt32 (2000000000 - -2000000000) = -294967296 := by decide
  have hy : toInt32 (0 - 0) = 0 := by decide
  simp only [GameSession.AddDog, scenario.wideSession, scenario.wideMap, scenario.wideRoad,
    Road.HORIZONTAL, Dog.ofName, List.getElem?_cons_zero, if_true, hx, hy]
  norm_num

/-- C27 fails on two inputs.  On the map with the road from `x = -2000000000` to
`x = 2000000000` the first join in the random spawn mode, drawing the parameter `1/2`,
puts the dog at `x = -2147483648`, outside the band of the road: the `int` subtraction of
`AddDog` overflows.  And after `alice` has joined `m1` and `carol` has joined `m2`, the
`GameSession*` of `alice` dangles (the session vector has grown), so `MovePlayer` for her
has undefined behaviour: the run has no result. -/
theorem Application.run_off_road :
    (Application.run scenario.wideApp
        [Op.join { map_id := "w", user_name := "alice", gen1 := 42, gen2 := 255,
                   road_idx := 0, t := 1 / 2 }]).map
        (fun a => a.players_.dogs_.map (fun d => d.pos_)) =
      some [{ x := -2147483648, y := 0 }] ∧
    ¬ InBand scenario.wideRoad { x := -2147483648, y := 0 } ∧
    Application.run scenario.startApp
        [Op.join { map_id := "m1", user_name := "alice", gen1 := 42, gen2 := 255,
                   road_idx := 0, t := 0 },
         Op.join { map_id := "m2", user_name := "carol", gen1 := 43, gen2 := 255,
                   road_idx := 0, t := 0 },
         Op.move 0 "R"] = none := by
  refine ⟨?_, ?_, by decide⟩
  · have hmap : scenario.wideApp.game_.FindMap "w" = some (some scenario.wideMap) := by decide
    have hjoin := JoinGame_of_steps scenario.wideApp "w" "alice" 42 255 0 (1 / 2)
      scenario.wideMap 0 _ scenario.wideSession _ _ hmap
      (Or.inr ⟨by decide, AddSession_of_map _ "w" scenario.wideMap hmap⟩) rfl AddDog_wide
    simp only [Application.run, Application.step, hjoin, Option.map_some']
    rfl
  · norm_num [InBand, scenario.wideRoad, Road.HORIZONTAL]

end app

namespace model

/-! ## The tick in binary64 arithmetic -/

end model
